import Mathlib

/-!
Verification of the reconciliation pass of `folder_sync.py` (`FolderSync.synch`).

The filesystem is modelled as a finite tree of named entries.  A file carries
its last-modification timestamp and an abstract content; a directory carries a
timestamp and an ordered association list of children (the order models the
`os.scandir` order that `os.walk` reports).  Timestamps are modelled as
naturals compared by value, matching the `!=` comparison on `os.path.getmtime`
results at line 62 of the source.  Directory timestamps are modelled as static
attributes: the source only ever reads them (via `os.path.getmtime` on a path
that happens to be a directory); it never relies on their update behaviour.

Paths are lists of name components relative to a tree root.  The source
computes the counterpart of an absolute path with a textual
`str.replace(root, otherRoot, 1)` (lines 49 and 69); `pyReplaceOnce` models
that string operation, and the theorem for claim C7 shows that on every path
produced by walking `root` it coincides with rebasing the root-relative
suffix, which justifies using relative paths everywhere else in the model.

Failures of the filesystem operations (permission denied, disk full, a file
vanishing mid-walk) are modelled by a fault oracle `Fail`; since the source
wraps no operation in `try`/`except`, a failing operation makes the modelled
pass stop and report the error, mirroring the exception propagating out of
`synch`.  Structural failures (for example `os.makedirs` hitting a regular
file, line 53, or `shutil.copy2` into a path whose parent is a regular file,
line 63) are reported the same way.
-/

/-- Filesystem entry: a regular file (mtime, content) or a directory
(mtime, named children in `os.scandir` order). -/
inductive Entry : Type where
  | file (mtime : Nat) (content : Nat) : Entry
  | dir (mtime : Nat) (children : List (String × Entry)) : Entry
deriving Repr

/-- Modification timestamp of an entry, as `os.path.getmtime` reports it for
files and directories alike. -/
def Entry.mtime : Entry → Nat
  | Entry.file m _ => m
  | Entry.dir m _ => m

/-- Look up a child by name in a children list (first occurrence). -/
def lookupChild : List (String × Entry) → String → Option Entry
  | [], _ => none
  | (m, e) :: rest, n => if m = n then some e else lookupChild rest n

/-- Replace the binding of `n` (first occurrence), or append it at the end:
this is how a directory listing evolves when a new entry is created in it. -/
def setChild : List (String × Entry) → String → Entry → List (String × Entry)
  | [], n, e => [(n, e)]
  | (m, x) :: rest, n, e =>
      if m = n then (n, e) :: rest else (m, x) :: setChild rest n e

/-- Remove the binding of `n` (first occurrence). -/
def removeChild : List (String × Entry) → String → List (String × Entry)
  | [], _ => []
  | (m, x) :: rest, n => if m = n then rest else (m, x) :: removeChild rest n

/-- Resolve a relative path in a tree. -/
def lookup : Entry → List String → Option Entry
  | e, [] => some e
  | Entry.file _ _, _ :: _ => none
  | Entry.dir _ cs, n :: p =>
      match lookupChild cs n with
      | some c => lookup c p
      | none => none

/-- Model of `os.path.exists` on a path below a tree root (kind-agnostic). -/
def existsP (t : Entry) (p : List String) : Bool :=
  (lookup t p).isSome

/-- Model of `os.path.isfile`-like observation: a regular file sits at `p`. -/
def isFileAtB (t : Entry) (p : List String) : Bool :=
  match lookup t p with
  | some (Entry.file _ _) => true
  | _ => false

/-- Model of `Path.is_dir` / a directory sitting at `p`. -/
def isDirAtB (t : Entry) (p : List String) : Bool :=
  match lookup t p with
  | some (Entry.dir _ _) => true
  | _ => false

/-- Model of `os.path.getmtime` at `p` (defined on files and directories). -/
def mtimeAt (t : Entry) (p : List String) : Option Nat :=
  (lookup t p).map Entry.mtime

/-- Kind-plus-metadata observation of a single path, used to state what a pass
does to each location while ignoring the (separately tracked) children. -/
inductive PathObs : Type where
  | fileObs (mtime : Nat) (content : Nat) : PathObs
  | dirObs (mtime : Nat) : PathObs
deriving Repr, DecidableEq

/-- Observation of a path: `none` if nothing exists there. -/
def obs (t : Entry) (p : List String) : Option PathObs :=
  match lookup t p with
  | none => none
  | some (Entry.file m c) => some (PathObs.fileObs m c)
  | some (Entry.dir m _) => some (PathObs.dirObs m)

/-- Fresh directory chain created by `os.makedirs` below its deepest existing
ancestor (new directories are given timestamp `0`; the source never reads the
timestamp of a directory it created). -/
def mkFresh : List String → Entry
  | [] => Entry.dir 0 []
  | n :: rest => Entry.dir 0 [(n, mkFresh rest)]

/-- Model of `os.makedirs` (line 53): create every missing component of the
path; fail if some component on the way is a regular file
(`NotADirectoryError`).  `synch` only calls it under a
`not os.path.exists` guard, so the fully-existing case is unreachable
there and is modelled as a no-op. -/
def makedirs : Entry → List String → Except Unit Entry
  | t, [] => Except.ok t
  | Entry.file _ _, _ :: _ => Except.error ()
  | Entry.dir m cs, n :: rest =>
      match lookupChild cs n with
      | some child =>
          match makedirs child rest with
          | Except.ok child2 => Except.ok (Entry.dir m (setChild cs n child2))
          | Except.error e => Except.error e
      | none => Except.ok (Entry.dir m (setChild cs n (mkFresh rest)))

/-- Write a regular file at `q` (creating or overwriting): fails if a path
component on the way is a regular file, if an intermediate directory is
missing, or if a directory already sits at `q` (`IsADirectoryError`). -/
def setFileAt : Entry → List String → Nat → Nat → Except Unit Entry
  | _, [], _, _ => Except.error ()
  | Entry.file _ _, _ :: _, _, _ => Except.error ()
  | Entry.dir md cs, [n], m, c =>
      match lookupChild cs n with
      | some (Entry.dir _ _) => Except.error ()
      | _ => Except.ok (Entry.dir md (setChild cs n (Entry.file m c)))
  | Entry.dir md cs, n :: r :: rest, m, c =>
      match lookupChild cs n with
      | none => Except.error ()
      | some child =>
          match setFileAt child (r :: rest) m c with
          | Except.ok child2 => Except.ok (Entry.dir md (setChild cs n child2))
          | Except.error e => Except.error e

/-- Model of `shutil.copy2 src dst` (line 63) acting on the destination tree:
`q` is the `dst_file` path, `base` the basename of the source file and
`(m, c)` its metadata.  If `q` is an existing directory the file is copied
into it under `base` (the documented `shutil.copy2` behaviour); otherwise
the file is written at `q` itself. -/
def copy2 (t : Entry) (q : List String) (base : String) (m c : Nat) :
    Except Unit Entry :=
  match lookup t q with
  | some (Entry.dir _ _) => setFileAt t (q ++ [base]) m c
  | _ => setFileAt t q m c

/-- Removal of the entry at `q`, shared model of `os.remove` (line 77, called
on files) and `shutil.rmtree` (line 86, called on directories): both delete
the whole entry at `q` from its parent listing.  `synch` only calls them on
paths it just listed, so the entry exists at call time; on a missing path the
model is a no-op. -/
def removePath : Entry → List String → Entry
  | t, [] => t
  | Entry.file m c, _ :: _ => Entry.file m c
  | Entry.dir m cs, [n] => Entry.dir m (removeChild cs n)
  | Entry.dir m cs, n :: r :: rest =>
      match lookupChild cs n with
      | none => Entry.dir m cs
      | some child => Entry.dir m (setChild cs n (removePath child (r :: rest)))

/-- Copy decision of line 62: copy when the destination path does not exist,
or when the modification timestamps differ by value (in either direction). -/
def shouldCopy (fs : Entry) (q : List String) (m : Nat) : Bool :=
  match lookup fs q with
  | none => true
  | some e => Entry.mtime e != m

/-- Logged mutation events, one per `logger.info` line of `synch`
(lines 54, 64, 78, 87).  Each carries the destination-relative path acted on. -/
inductive Event : Type where
  | mkdir (p : List String) : Event
  | copy (p : List String) : Event
  | rmFile (p : List String) : Event
  | rmDir (p : List String) : Event
deriving Repr, DecidableEq

/-- Kinds of filesystem operations the pass attempts, used by the fault
oracle. -/
inductive OpKind : Type where
  | mkdirOp | copyOp | removeOp | rmtreeOp
deriving Repr, DecidableEq

/-- Errors ending a pass: the two precondition failures of lines 38-44
(logged as error-level entries), or an operation raising an `OSError`
(which `synch` does not catch). -/
inductive Err : Type where
  | srcMissing : Err
  | dstMissing : Err
  | opFail (k : OpKind) (p : List String) : Err
deriving Repr, DecidableEq

/-- Fault oracle: which operations fail for environmental reasons
(permission denied, disk full, entry vanished mid-walk). -/
def Fail : Type := OpKind → List String → Bool

/-- Fault-free environment. -/
def noFail : Fail := fun _ _ => false

/-- State of a pass in progress: current destination tree, events logged so
far, and the error that ended the pass early, if any. -/
structure Out : Type where
  fs : Entry
  evs : List Event
  err : Option Err
deriving Repr

/-- Sequencing: once an uncaught exception ended the pass, nothing further
runs. -/
def Out.bind (r : Out) (f : Entry → List Event → Out) : Out :=
  match r.err with
  | some _ => r
  | none => f r.fs r.evs

/-- Lines 52-54: ensure the destination directory for the visited source
directory exists, creating it (with its missing ancestors) when absent.  The
existence test is `os.path.exists`, hence kind-agnostic. -/
def dirStep (fail : Fail) (p : List String) (acc : Out) : Out :=
  Out.bind acc (fun fs evs =>
    if existsP fs p then ⟨fs, evs, none⟩
    else if fail OpKind.mkdirOp p then
      ⟨fs, evs, some (Err.opFail OpKind.mkdirOp p)⟩
    else
      match makedirs fs p with
      | Except.ok fs2 => ⟨fs2, evs ++ [Event.mkdir p], none⟩
      | Except.error _ => ⟨fs, evs, some (Err.opFail OpKind.mkdirOp p)⟩)

/-- Lines 56-64: one source file `(name, mtime, content)` inside the source
directory whose destination counterpart directory is `p`. -/
def fileStep (fail : Fail) (p : List String) (f : String × Nat × Nat)
    (acc : Out) : Out :=
  Out.bind acc (fun fs evs =>
    let q := p ++ [f.1]
    if shouldCopy fs q f.2.1 then
      if fail OpKind.copyOp q then ⟨fs, evs, some (Err.opFail OpKind.copyOp q)⟩
      else
        match copy2 fs q f.1 f.2.1 f.2.2 with
        | Except.ok fs2 => ⟨fs2, evs ++ [Event.copy q], none⟩
        | Except.error _ => ⟨fs, evs, some (Err.opFail OpKind.copyOp q)⟩
    else ⟨fs, evs, none⟩)

/-- Fold of `fileStep` over the files of one visited source directory, in
listing order. -/
def copyFilesFold (fail : Fail) (p : List String) :
    List (String × Nat × Nat) → Out → Out
  | [], acc => acc
  | f :: rest, acc => copyFilesFold fail p rest (fileStep fail p f acc)

/-- Files among a children listing, in order, with their metadata: the
`files` component of one `os.walk` triple. -/
def filesOf : List (String × Entry) → List (String × Nat × Nat)
  | [] => []
  | (n, Entry.file m c) :: rest => (n, m, c) :: filesOf rest
  | (_, Entry.dir _ _) :: rest => filesOf rest

/-- File names of a children listing, in order. -/
def fileNamesOf : List (String × Entry) → List String
  | [] => []
  | (n, Entry.file _ _) :: rest => n :: fileNamesOf rest
  | (_, Entry.dir _ _) :: rest => fileNamesOf rest

/-- Directory names of a children listing, in order: the `dirs` component of
one `os.walk` triple. -/
def dirNamesOf : List (String × Entry) → List String
  | [] => []
  | (_, Entry.file _ _) :: rest => dirNamesOf rest
  | (n, Entry.dir _ _) :: rest => n :: dirNamesOf rest

/-- Everything lines 47-64 do when `os.walk` visits the source directory
whose destination counterpart is `p` and whose children are `cs`: ensure the
destination directory, then process each source file. -/
def phase1StepsAt (fail : Fail) (p : List String) (cs : List (String × Entry))
    (acc : Out) : Out :=
  copyFilesFold fail p (filesOf cs) (dirStep fail p acc)

/-- Propagation walk (lines 47-64) over the source children `l` of the source
directory whose destination counterpart is `p`: `os.walk` is top-down, so a
subdirectory is fully processed (visit, then its own subtree) before its later
siblings.  The source tree is never mutated, so the walk follows the
snapshot. -/
def phase1Subs (fail : Fail) (p : List String) (l : List (String × Entry))
    (acc : Out) : Out :=
  match l with
  | [] => acc
  | (_, Entry.file _ _) :: rest => phase1Subs fail p rest acc
  | (n, Entry.dir _ cs) :: rest =>
      phase1Subs fail p rest
        (phase1Subs fail (p ++ [n]) cs (phase1StepsAt fail (p ++ [n]) cs acc))
termination_by sizeOf l

/-- Lines 71-78: remove one destination file `p ++ [n]` when nothing exists at
its source counterpart (`os.path.exists` check against the source, hence
kind-agnostic). -/
def rmFileStep (fail : Fail) (S : Entry) (p : List String) (n : String)
    (acc : Out) : Out :=
  Out.bind acc (fun fs evs =>
    let q := p ++ [n]
    if existsP S q then ⟨fs, evs, none⟩
    else if fail OpKind.removeOp q then
      ⟨fs, evs, some (Err.opFail OpKind.removeOp q)⟩
    else ⟨removePath fs q, evs ++ [Event.rmFile q], none⟩)

/-- Lines 80-87: remove one destination subdirectory `p ++ [n]` (with its
whole subtree, `shutil.rmtree`) when nothing exists at its source
counterpart. -/
def rmDirStep (fail : Fail) (S : Entry) (p : List String) (n : String)
    (acc : Out) : Out :=
  Out.bind acc (fun fs evs =>
    let q := p ++ [n]
    if existsP S q then ⟨fs, evs, none⟩
    else if fail OpKind.rmtreeOp q then
      ⟨fs, evs, some (Err.opFail OpKind.rmtreeOp q)⟩
    else ⟨removePath fs q, evs ++ [Event.rmDir q], none⟩)

/-- Fold of `rmFileStep` over the files of one visited destination directory. -/
def rmFilesFold (fail : Fail) (S : Entry) (p : List String) :
    List String → Out → Out
  | [], acc => acc
  | n :: rest, acc => rmFilesFold fail S p rest (rmFileStep fail S p n acc)

/-- Fold of `rmDirStep` over the subdirectories of one visited destination
directory. -/
def rmDirsFold (fail : Fail) (S : Entry) (p : List String) :
    List String → Out → Out
  | [], acc => acc
  | n :: rest, acc => rmDirsFold fail S p rest (rmDirStep fail S p n acc)

/-- Everything lines 67-87 do when `os.walk` visits the destination directory
`p` whose listing is `cs`: first the file loop, then the subdirectory loop.
`os.walk` computes the listing of `p` only when it reaches `p`; since every
mutation the prune phase performs is confined to the subtree of the directory
being processed, the listing of a directory that still exists equals its
snapshot `cs`, and a directory that was `shutil.rmtree`d earlier yields
nothing (`os.walk` swallows the scandir error), which the existence guard
models. -/
def phase2StepsAt (fail : Fail) (S : Entry) (p : List String)
    (cs : List (String × Entry)) (acc : Out) : Out :=
  Out.bind acc (fun fs evs =>
    if existsP fs p then
      rmDirsFold fail S p (dirNamesOf cs)
        (rmFilesFold fail S p (fileNamesOf cs) ⟨fs, evs, none⟩)
    else ⟨fs, evs, none⟩)

/-- Prune walk (lines 67-87) over the snapshot children `l` of the destination
directory `p`, top-down: each subdirectory is visited (guarded by its
continued existence) and then its subtree is processed, before later
siblings. -/
def phase2Subs (fail : Fail) (S : Entry) (p : List String)
    (l : List (String × Entry)) (acc : Out) : Out :=
  match l with
  | [] => acc
  | (_, Entry.file _ _) :: rest => phase2Subs fail S p rest acc
  | (n, Entry.dir _ cs) :: rest =>
      phase2Subs fail S p rest
        (phase2Subs fail S (p ++ [n]) cs (phase2StepsAt fail S (p ++ [n]) cs acc))
termination_by sizeOf l

/-- Model of `FolderSync.synch` (lines 29-87): precondition checks on the two
roots (lines 38-44, in source-first order, each aborting the pass with an
error-level log and no mutation), then the propagation walk rooted at the
source, then the prune walk rooted at the current destination.  A root that is
not a directory is modelled by a `file` entry: `Path.is_dir()` is false both
for a missing path and for a regular file, and the source treats the two
identically. -/
def synchF (fail : Fail) (src dst : Entry) : Out :=
  match src with
  | Entry.file _ _ => ⟨dst, [], some Err.srcMissing⟩
  | Entry.dir _ scs =>
    match dst with
    | Entry.file _ _ => ⟨dst, [], some Err.dstMissing⟩
    | Entry.dir _ _ =>
      Out.bind (phase1Subs fail [] scs (phase1StepsAt fail [] scs ⟨dst, [], none⟩))
        (fun fs evs =>
          match fs with
          | Entry.dir _ dcs =>
              phase2Subs fail src [] dcs (phase2StepsAt fail src [] dcs ⟨fs, evs, none⟩)
          | Entry.file _ _ => ⟨fs, evs, none⟩)

/-- One reconciliation pass in a fault-free environment. -/
def synch (src dst : Entry) : Out :=
  synchF noFail src dst

/-- Return value of `FolderSync.synch`: the function is annotated `-> None`
(line 29) and every control path falls off the end or executes a bare
`return`, so the caller receives `None` whatever happened. -/
def synchReturnValue (_fail : Fail) (_src _dst : Entry) : Unit := ()

/-- Model of Python `str.replace(pat, rep, 1)` scanning: replace the leftmost
occurrence of `pat`, if any. -/
def replaceFirst (pat rep : List Char) : List Char → List Char
  | [] => []
  | c :: rest =>
      if List.isPrefixOf pat (c :: rest) then
        rep ++ List.drop pat.length (c :: rest)
      else c :: replaceFirst pat rep rest

/-- Model of Python `s.replace(pat, rep, 1)` (lines 49 and 69): with an empty
pattern one replacement is inserted in front; otherwise the leftmost
occurrence is substituted. -/
def pyReplaceOnce (s pat rep : List Char) : List Char :=
  if pat = [] then rep ++ s else replaceFirst pat rep s

/-- Conceptual result record named by the specification: counts of the four
operation categories of one pass. -/
structure ReconciliationResult : Type where
  dirsCreated : Nat
  filesCopied : Nat
  filesDeleted : Nat
  dirsDeleted : Nat
deriving Repr, DecidableEq

/-- Test whether an event is a directory creation. -/
def Event.isMkdir : Event → Bool
  | Event.mkdir _ => true
  | _ => false

/-- Test whether an event is a file copy. -/
def Event.isCopy : Event → Bool
  | Event.copy _ => true
  | _ => false

/-- Test whether an event is a file removal. -/
def Event.isRmFile : Event → Bool
  | Event.rmFile _ => true
  | _ => false

/-- Test whether an event is a directory removal. -/
def Event.isRmDir : Event → Bool
  | Event.rmDir _ => true
  | _ => false

/-- Counts of the four operation categories recoverable from the logged
events of a pass. -/
def resultOfEvents (evs : List Event) : ReconciliationResult :=
  ⟨(evs.filter Event.isMkdir).length, (evs.filter Event.isCopy).length,
    (evs.filter Event.isRmFile).length, (evs.filter Event.isRmDir).length⟩

mutual

/-- Well-formedness of a tree: distinct child names at every directory, as on
a real filesystem. -/
def wfE : Entry → Bool
  | Entry.file _ _ => true
  | Entry.dir _ cs => decide ((cs.map Prod.fst).Nodup) && wfList cs

/-- Well-formedness of every entry of a children listing. -/
def wfList : List (String × Entry) → Bool
  | [] => true
  | (_, e) :: rest => wfE e && wfList rest

end

/-- Compatibility of the children listings of a source directory and of a
destination directory: no relative path carries a file on one side and a
directory on the other.  Recursion is on the destination side. -/
def compatChildren : List (String × Entry) → List (String × Entry) → Bool
  | _, [] => true
  | scs, (n, Entry.file _ _) :: rest =>
      (match lookupChild scs n with
        | some (Entry.dir _ _) => false
        | _ => true) &&
      compatChildren scs rest
  | scs, (n, Entry.dir _ dcs2) :: rest =>
      (match lookupChild scs n with
        | some (Entry.file _ _) => false
        | some (Entry.dir _ scs2) => compatChildren scs2 dcs2
        | none => true) &&
      compatChildren scs rest
termination_by _ l => sizeOf l

/-- Compatibility of two trees: no relative path has a regular file in one
and a directory in the other. -/
def compatB : Entry → Entry → Bool
  | Entry.dir _ scs, Entry.dir _ dcs => compatChildren scs dcs
  | Entry.file _ _, Entry.dir _ _ => false
  | Entry.dir _ _, Entry.file _ _ => false
  | Entry.file _ _, Entry.file _ _ => true

/-- Model of `Path.is_dir()` on a root (lines 38 and 42). -/
def Entry.isDir : Entry → Bool
  | Entry.dir _ _ => true
  | Entry.file _ _ => false

/-- Destination-relative path an event acted on. -/
def Event.path : Event → List String
  | Event.mkdir p => p
  | Event.copy p => p
  | Event.rmFile p => p
  | Event.rmDir p => p

/-- Timestamp component of a path observation. -/
def PathObs.mtime : PathObs → Nat
  | PathObs.fileObs m _ => m
  | PathObs.dirObs m => m

/-- Everything the propagation walk does for the subtree rooted at the source
directory whose destination counterpart is `p` and whose children are `cs`:
the visit of `p` itself (lines 49-64) followed by the walk of its
subdirectories. -/
def phase1At (fail : Fail) (p : List String) (cs : List (String × Entry))
    (acc : Out) : Out :=
  phase1Subs fail p cs (phase1StepsAt fail p cs acc)

/-- Everything the prune walk does for the subtree rooted at the destination
directory `p` with snapshot listing `cs`: the visit of `p` itself
(lines 69-87, guarded by its continued existence) followed by the walk of its
subdirectories. -/
def phase2At (fail : Fail) (S : Entry) (p : List String)
    (cs : List (String × Entry)) (acc : Out) : Out :=
  phase2Subs fail S p cs (phase2StepsAt fail S p cs acc)

/-- Pointwise form of tree compatibility: no path carries a directory in `S`
and a regular file in `t`, nor a file in `S` and a directory in `t`. -/
def noClash (S t : Entry) : Prop :=
  ∀ r, ¬(isDirAtB S r = true ∧ isFileAtB t r = true) ∧
    ¬(isFileAtB S r = true ∧ isDirAtB t r = true)

/-- Description of what the propagation phase may do to one destination path
`r`, relative to the source `S`: either create a fresh directory where the
source has a directory and nothing existed, or write a regular file carrying
the source timestamp where the source has a regular file and no directory
stood. -/
def chg (S fsA fsB : Entry) (r : List String) : Prop :=
  (isDirAtB S r = true ∧ obs fsB r = some (PathObs.dirObs 0) ∧
    obs fsA r = none) ∨
  (isFileAtB S r = true ∧ isDirAtB fsA r = false ∧
    ∃ m1 c1, obs fsB r = some (PathObs.fileObs m1 c1) ∧
      mtimeAt S r = some m1)

/-! ## Basic lemmas about the tree model -/

theorem lookup_nil (t : Entry) : lookup t [] = some t := by
  cases t <;> rfl

theorem bool_and_split {a b : Bool} (h : (a && b) = true) :
    a = true ∧ b = true := by
  constructor <;> simp_all

theorem lookup_dir_cons (m : Nat) (cs : List (String × Entry)) (n : String)
    (r : List String) :
    lookup (Entry.dir m cs) (n :: r) =
      match lookupChild cs n with
      | some c => lookup c r
      | none => none := rfl

theorem obs_dir_cons (m : Nat) (cs : List (String × Entry)) (n : String)
    (r : List String) :
    obs (Entry.dir m cs) (n :: r) =
      match lookupChild cs n with
      | some c => obs c r
      | none => none := by
  unfold obs
  rw [lookup_dir_cons]
  cases lookupChild cs n <;> rfl

theorem obs_nil (t : Entry) :
    obs t [] = some (match t with
      | Entry.file m c => PathObs.fileObs m c
      | Entry.dir m _ => PathObs.dirObs m) := by
  cases t <;> rfl

theorem obs_nil_ne_none (t : Entry) : obs t [] ≠ none := by
  rw [obs_nil]; simp

theorem lookup_append (t : Entry) (p r : List String) :
    lookup t (p ++ r) = (lookup t p).bind (fun e => lookup e r) := by
  induction p generalizing t with
  | nil => rw [List.nil_append, lookup_nil, Option.some_bind]
  | cons n p ih =>
    cases t with
    | file m c => rfl
    | dir m cs =>
      rw [List.cons_append, lookup_dir_cons, lookup_dir_cons]
      cases lookupChild cs n with
      | none => rfl
      | some c => exact ih c

theorem existsP_eq_obs (t : Entry) (p : List String) :
    existsP t p = (obs t p).isSome := by
  unfold existsP obs
  cases lookup t p with
  | none => rfl
  | some e => cases e <;> rfl

theorem isFileAtB_eq_obs (t : Entry) (p : List String) :
    isFileAtB t p = true ↔ ∃ m c, obs t p = some (PathObs.fileObs m c) := by
  unfold isFileAtB obs
  cases lookup t p with
  | none => simp
  | some e => cases e <;> simp

theorem isDirAtB_eq_obs (t : Entry) (p : List String) :
    isDirAtB t p = true ↔ ∃ m, obs t p = some (PathObs.dirObs m) := by
  unfold isDirAtB obs
  cases lookup t p with
  | none => simp
  | some e => cases e <;> simp

theorem mtimeAt_eq_obs (t : Entry) (p : List String) :
    mtimeAt t p = (obs t p).map PathObs.mtime := by
  unfold mtimeAt obs
  cases lookup t p with
  | none => rfl
  | some e => cases e <;> rfl

theorem existsP_of_append (t : Entry) (p r : List String)
    (h : existsP t (p ++ r) = true) : existsP t p = true := by
  unfold existsP at h ⊢
  rw [lookup_append] at h
  cases hp : lookup t p with
  | none => rw [hp] at h; simp at h
  | some e => rfl

theorem isDirAtB_of_append (t : Entry) (p : List String) (n : String)
    (r : List String) (h : existsP t (p ++ n :: r) = true) :
    isDirAtB t p = true := by
  unfold existsP at h
  rw [lookup_append] at h
  unfold isDirAtB
  cases hp : lookup t p with
  | none => rw [hp] at h; simp at h
  | some e =>
    rw [hp] at h
    cases e with
    | file m c => simp [lookup] at h
    | dir m cs => rfl

theorem isDirAtB_exists (t : Entry) (p : List String)
    (h : isDirAtB t p = true) : existsP t p = true := by
  unfold isDirAtB at h
  unfold existsP
  cases hp : lookup t p with
  | none => rw [hp] at h; simp at h
  | some e => rfl

theorem isFileAtB_exists (t : Entry) (p : List String)
    (h : isFileAtB t p = true) : existsP t p = true := by
  unfold isFileAtB at h
  unfold existsP
  cases hp : lookup t p with
  | none => rw [hp] at h; simp at h
  | some e => rfl

/-! ## Lemmas about children listings -/

theorem lookupChild_setChild (cs : List (String × Entry)) (n n2 : String)
    (e : Entry) :
    lookupChild (setChild cs n e) n2 =
      if n = n2 then some e else lookupChild cs n2 := by
  induction cs with
  | nil =>
    by_cases h : n = n2 <;> simp [setChild, lookupChild, h]
  | cons hd rest ih =>
    obtain ⟨m, x⟩ := hd
    by_cases h1 : m = n
    · subst h1
      by_cases h2 : m = n2 <;> simp [setChild, lookupChild, h2]
    · by_cases h2 : m = n2
      · subst h2
        have : ¬ n = m := fun hc => h1 hc.symm
        simp [setChild, lookupChild, h1, this]
      · simp [setChild, lookupChild, h1, h2, ih]

theorem lookupChild_removeChild_ne (cs : List (String × Entry)) (n n2 : String)
    (h : n ≠ n2) :
    lookupChild (removeChild cs n) n2 = lookupChild cs n2 := by
  induction cs with
  | nil => rfl
  | cons hd rest ih =>
    obtain ⟨m, x⟩ := hd
    by_cases h1 : m = n
    · subst h1
      have h3 : ¬ m = n2 := fun hc => h (hc ▸ rfl)
      simp [removeChild, lookupChild, h3]
    · by_cases h2 : m = n2
      · subst h2
        simp [removeChild, lookupChild, h1]
      · simp [removeChild, lookupChild, h1, h2, ih]

theorem lookupChild_none_of_not_mem (cs : List (String × Entry)) (n : String)
    (h : n ∉ cs.map Prod.fst) : lookupChild cs n = none := by
  induction cs with
  | nil => rfl
  | cons hd rest ih =>
    obtain ⟨m, x⟩ := hd
    simp only [List.map_cons, List.mem_cons] at h
    push_neg at h
    have : ¬ m = n := fun hc => h.1 hc.symm
    simp [lookupChild, this, ih h.2]

theorem lookupChild_removeChild_self (cs : List (String × Entry)) (n : String)
    (h : (cs.map Prod.fst).Nodup) :
    lookupChild (removeChild cs n) n = none := by
  induction cs with
  | nil => rfl
  | cons hd rest ih =>
    obtain ⟨m, x⟩ := hd
    simp only [List.map_cons, List.nodup_cons] at h
    by_cases h1 : m = n
    · subst h1
      simp only [removeChild, if_pos rfl]
      exact lookupChild_none_of_not_mem rest m h.1
    · simp [removeChild, lookupChild, h1, ih h.2]

theorem lookupChild_mem (cs : List (String × Entry)) (n : String) (e : Entry)
    (h : lookupChild cs n = some e) : (n, e) ∈ cs := by
  induction cs with
  | nil => simp [lookupChild] at h
  | cons hd rest ih =>
    obtain ⟨m, x⟩ := hd
    by_cases h1 : m = n
    · subst h1
      simp [lookupChild] at h
      subst h
      exact List.mem_cons_self _ _
    · simp only [lookupChild, if_neg h1] at h
      exact List.mem_cons_of_mem _ (ih h)

theorem mem_setChild_names (cs : List (String × Entry)) (n : String) (e : Entry)
    (m2 : String) (h : m2 ∈ (setChild cs n e).map Prod.fst) :
    m2 ∈ cs.map Prod.fst ∨ m2 = n := by
  induction cs with
  | nil => simpa [setChild] using h
  | cons hd rest ih =>
    obtain ⟨m, x⟩ := hd
    by_cases h1 : m = n
    · subst h1
      simp [setChild] at h ⊢
      tauto
    · simp only [setChild, if_neg h1, List.map_cons, List.mem_cons] at h ⊢
      rcases h with h | h
      · exact Or.inl (Or.inl h)
      · rcases ih h with h2 | h2
        · exact Or.inl (Or.inr h2)
        · exact Or.inr h2

theorem setChild_names_nodup (cs : List (String × Entry)) (n : String)
    (e : Entry) (h : (cs.map Prod.fst).Nodup) :
    ((setChild cs n e).map Prod.fst).Nodup := by
  induction cs with
  | nil => simp [setChild]
  | cons hd rest ih =>
    obtain ⟨m, x⟩ := hd
    simp only [List.map_cons, List.nodup_cons] at h
    by_cases h1 : m = n
    · subst h1
      have hset : setChild ((m, x) :: rest) m e = (m, e) :: rest := by
        simp [setChild]
      rw [hset, List.map_cons, List.nodup_cons]
      exact ⟨h.1, h.2⟩
    · simp only [setChild, if_neg h1, List.map_cons, List.nodup_cons]
      refine ⟨fun hc => ?_, ih h.2⟩
      rcases mem_setChild_names rest n e m hc with h2 | h2
      · exact h.1 h2
      · exact h1 h2

theorem removeChild_sublist (cs : List (String × Entry)) (n : String) :
    List.Sublist (removeChild cs n) cs := by
  induction cs with
  | nil => exact List.Sublist.refl _
  | cons hd rest ih =>
    obtain ⟨m, x⟩ := hd
    by_cases h1 : m = n
    · simp only [removeChild, if_pos h1]
      exact List.sublist_cons_self _ _
    · simp only [removeChild, if_neg h1]
      exact List.Sublist.cons₂ _ ih

theorem removeChild_names_nodup (cs : List (String × Entry)) (n : String)
    (h : (cs.map Prod.fst).Nodup) :
    ((removeChild cs n).map Prod.fst).Nodup := by
  exact h.sublist (List.Sublist.map _ (removeChild_sublist cs n))

/-! ## Unfolding lemmas for single-step descent -/

theorem isFileAtB_dir_cons (m : Nat) (cs : List (String × Entry)) (n : String)
    (r : List String) :
    isFileAtB (Entry.dir m cs) (n :: r) =
      match lookupChild cs n with
      | some c => isFileAtB c r
      | none => false := by
  unfold isFileAtB
  rw [lookup_dir_cons]
  cases lookupChild cs n <;> rfl

theorem isDirAtB_dir_cons (m : Nat) (cs : List (String × Entry)) (n : String)
    (r : List String) :
    isDirAtB (Entry.dir m cs) (n :: r) =
      match lookupChild cs n with
      | some c => isDirAtB c r
      | none => false := by
  unfold isDirAtB
  rw [lookup_dir_cons]
  cases lookupChild cs n <;> rfl

theorem existsP_dir_cons (m : Nat) (cs : List (String × Entry)) (n : String)
    (r : List String) :
    existsP (Entry.dir m cs) (n :: r) =
      match lookupChild cs n with
      | some c => existsP c r
      | none => false := by
  unfold existsP
  rw [lookup_dir_cons]
  cases lookupChild cs n <;> rfl

/-! ## Well-formedness unfolding and preservation -/

theorem wfE_dir (m : Nat) (cs : List (String × Entry)) :
    wfE (Entry.dir m cs) = (decide ((cs.map Prod.fst).Nodup) && wfList cs) := by
  rfl

theorem wfList_cons (n : String) (e : Entry) (rest : List (String × Entry)) :
    wfList ((n, e) :: rest) = (wfE e && wfList rest) := by
  rfl

theorem wfE_dir_nodup (m : Nat) (cs : List (String × Entry))
    (h : wfE (Entry.dir m cs) = true) : (cs.map Prod.fst).Nodup := by
  rw [wfE_dir] at h
  simpa using (bool_and_split h).1

theorem wfE_dir_wfList (m : Nat) (cs : List (String × Entry))
    (h : wfE (Entry.dir m cs) = true) : wfList cs = true := by
  rw [wfE_dir] at h
  exact (bool_and_split h).2

theorem wfList_mem (cs : List (String × Entry)) (n : String) (e : Entry)
    (h : wfList cs = true) (hm : (n, e) ∈ cs) : wfE e = true := by
  induction cs with
  | nil => simp at hm
  | cons hd rest ih =>
    obtain ⟨m, x⟩ := hd
    rw [wfList_cons] at h
    rcases List.mem_cons.mp hm with h2 | h2
    · cases h2
      exact (bool_and_split h).1
    · exact ih (bool_and_split h).2 h2

theorem wfList_lookupChild (cs : List (String × Entry)) (n : String) (e : Entry)
    (h : wfList cs = true) (hl : lookupChild cs n = some e) : wfE e = true :=
  wfList_mem cs n e h (lookupChild_mem cs n e hl)

theorem wfList_setChild (cs : List (String × Entry)) (n : String) (e : Entry)
    (h : wfList cs = true) (he : wfE e = true) :
    wfList (setChild cs n e) = true := by
  induction cs with
  | nil => simp [setChild, wfList_cons, wfList, he]
  | cons hd rest ih =>
    obtain ⟨m, x⟩ := hd
    rw [wfList_cons] at h
    obtain ⟨hx, hrest⟩ := bool_and_split h
    by_cases h1 : m = n
    · simp only [setChild, if_pos h1, wfList_cons]
      rw [he, hrest]
      rfl
    · simp only [setChild, if_neg h1, wfList_cons]
      rw [hx, ih hrest]
      rfl

theorem wfList_sublist (cs cs2 : List (String × Entry))
    (h : wfList cs = true) (hs : List.Sublist cs2 cs) : wfList cs2 = true := by
  induction hs with
  | slnil => rfl
  | cons hd _ ih =>
    obtain ⟨m, x⟩ := hd
    rw [wfList_cons] at h
    exact ih (bool_and_split h).2
  | cons₂ hd _ ih =>
    obtain ⟨m, x⟩ := hd
    rw [wfList_cons] at h ⊢
    obtain ⟨h1, h2⟩ := bool_and_split h
    rw [h1, ih h2]
    rfl

theorem wfE_mkFresh (rest : List String) : wfE (mkFresh rest) = true := by
  induction rest with
  | nil => rfl
  | cons n rest ih =>
    show wfE (Entry.dir 0 [(n, mkFresh rest)]) = true
    rw [wfE_dir, wfList_cons]
    simp [ih, wfList]

theorem makedirs_wf (t t2 : Entry) (q : List String) (h : wfE t = true)
    (hok : makedirs t q = Except.ok t2) : wfE t2 = true := by
  induction q generalizing t t2 with
  | nil =>
    cases t <;> simp only [makedirs, Except.ok.injEq] at hok <;> rw [← hok] <;> exact h
  | cons n rest ih =>
    cases t with
    | file m c => simp [makedirs] at hok
    | dir m cs =>
      have hnd := wfE_dir_nodup m cs h
      have hwl := wfE_dir_wfList m cs h
      cases hlc : lookupChild cs n with
      | some child =>
        cases hmk : makedirs child rest with
        | ok child2 =>
          simp only [makedirs, hlc, hmk, Except.ok.injEq] at hok
          rw [← hok, wfE_dir]
          have hc2 : wfE child2 = true :=
            ih child child2 (wfList_lookupChild cs n child hwl hlc) hmk
          rw [wfList_setChild cs n child2 hwl hc2]
          simp [setChild_names_nodup cs n child2 hnd]
        | error e => simp [makedirs, hlc, hmk] at hok
      | none =>
        simp only [makedirs, hlc, Except.ok.injEq] at hok
        rw [← hok, wfE_dir]
        rw [wfList_setChild cs n (mkFresh rest) hwl (wfE_mkFresh rest)]
        simp [setChild_names_nodup cs n (mkFresh rest) hnd]

theorem setFileAt_wf (t t2 : Entry) (q : List String) (m c : Nat)
    (h : wfE t = true) (hok : setFileAt t q m c = Except.ok t2) :
    wfE t2 = true := by
  induction q generalizing t t2 with
  | nil => simp [setFileAt] at hok
  | cons n q2 ih =>
    cases t with
    | file mf cf => simp [setFileAt] at hok
    | dir md cs =>
      have hnd := wfE_dir_nodup md cs h
      have hwl := wfE_dir_wfList md cs h
      cases q2 with
      | nil =>
        have hfile : wfE (Entry.file m c) = true := rfl
        cases hlc : lookupChild cs n with
        | some child =>
          cases child with
          | dir m2 cs2 => simp [setFileAt, hlc] at hok
          | file m2 c2 =>
            simp only [setFileAt, hlc, Except.ok.injEq] at hok
            rw [← hok, wfE_dir]
            rw [wfList_setChild cs n (Entry.file m c) hwl hfile]
            simp [setChild_names_nodup cs n (Entry.file m c) hnd]
        | none =>
          simp only [setFileAt, hlc, Except.ok.injEq] at hok
          rw [← hok, wfE_dir]
          rw [wfList_setChild cs n (Entry.file m c) hwl hfile]
          simp [setChild_names_nodup cs n (Entry.file m c) hnd]
      | cons r rest =>
        cases hlc : lookupChild cs n with
        | none => simp [setFileAt, hlc] at hok
        | some child =>
          cases hsf : setFileAt child (r :: rest) m c with
          | ok child2 =>
            simp only [setFileAt, hlc, hsf, Except.ok.injEq] at hok
            rw [← hok, wfE_dir]
            have hc2 : wfE child2 = true :=
              ih child child2 (wfList_lookupChild cs n child hwl hlc) hsf
            rw [wfList_setChild cs n child2 hwl hc2]
            simp [setChild_names_nodup cs n child2 hnd]
          | error e => simp [setFileAt, hlc, hsf] at hok

theorem removePath_wf (t : Entry) (q : List String) (h : wfE t = true) :
    wfE (removePath t q) = true := by
  induction q generalizing t with
  | nil => cases t <;> exact h
  | cons n q2 ih =>
    cases t with
    | file m c => exact h
    | dir m cs =>
      have hnd := wfE_dir_nodup m cs h
      have hwl := wfE_dir_wfList m cs h
      cases q2 with
      | nil =>
        show wfE (Entry.dir m (removeChild cs n)) = true
        rw [wfE_dir]
        rw [wfList_sublist cs (removeChild cs n) hwl (removeChild_sublist cs n)]
        simp [removeChild_names_nodup cs n hnd]
      | cons r rest =>
        cases hlc : lookupChild cs n with
        | none =>
          simp only [removePath, hlc]
          exact h
        | some child =>
          show wfE (removePath (Entry.dir m cs) (n :: r :: rest)) = true
          have hc : wfE child = true := wfList_lookupChild cs n child hwl hlc
          have hc2 : wfE (removePath child (r :: rest)) = true := ih child hc
          simp only [removePath, hlc]
          rw [wfE_dir]
          rw [wfList_setChild cs n (removePath child (r :: rest)) hwl hc2]
          simp [setChild_names_nodup cs n (removePath child (r :: rest)) hnd]

/-! ## Specialised descent lemmas -/

theorem obs_cons_some (m : Nat) (cs : List (String × Entry)) (n : String)
    (c : Entry) (r : List String) (h : lookupChild cs n = some c) :
    obs (Entry.dir m cs) (n :: r) = obs c r := by
  rw [obs_dir_cons, h]

theorem obs_cons_none (m : Nat) (cs : List (String × Entry)) (n : String)
    (r : List String) (h : lookupChild cs n = none) :
    obs (Entry.dir m cs) (n :: r) = none := by
  rw [obs_dir_cons, h]

theorem isFileAtB_cons_some (m : Nat) (cs : List (String × Entry)) (n : String)
    (c : Entry) (r : List String) (h : lookupChild cs n = some c) :
    isFileAtB (Entry.dir m cs) (n :: r) = isFileAtB c r := by
  rw [isFileAtB_dir_cons, h]

theorem isFileAtB_cons_none (m : Nat) (cs : List (String × Entry)) (n : String)
    (r : List String) (h : lookupChild cs n = none) :
    isFileAtB (Entry.dir m cs) (n :: r) = false := by
  rw [isFileAtB_dir_cons, h]

theorem isDirAtB_cons_some (m : Nat) (cs : List (String × Entry)) (n : String)
    (c : Entry) (r : List String) (h : lookupChild cs n = some c) :
    isDirAtB (Entry.dir m cs) (n :: r) = isDirAtB c r := by
  rw [isDirAtB_dir_cons, h]

theorem isDirAtB_cons_none (m : Nat) (cs : List (String × Entry)) (n : String)
    (r : List String) (h : lookupChild cs n = none) :
    isDirAtB (Entry.dir m cs) (n :: r) = false := by
  rw [isDirAtB_dir_cons, h]

theorem existsP_cons_some (m : Nat) (cs : List (String × Entry)) (n : String)
    (c : Entry) (r : List String) (h : lookupChild cs n = some c) :
    existsP (Entry.dir m cs) (n :: r) = existsP c r := by
  rw [existsP_dir_cons, h]

theorem existsP_cons_none (m : Nat) (cs : List (String × Entry)) (n : String)
    (r : List String) (h : lookupChild cs n = none) :
    existsP (Entry.dir m cs) (n :: r) = false := by
  rw [existsP_dir_cons, h]

theorem lookup_cons_some (m : Nat) (cs : List (String × Entry)) (n : String)
    (c : Entry) (r : List String) (h : lookupChild cs n = some c) :
    lookup (Entry.dir m cs) (n :: r) = lookup c r := by
  rw [lookup_dir_cons, h]

theorem lookup_cons_none (m : Nat) (cs : List (String × Entry)) (n : String)
    (r : List String) (h : lookupChild cs n = none) :
    lookup (Entry.dir m cs) (n :: r) = none := by
  rw [lookup_dir_cons, h]

theorem lookupChild_single_self (n : String) (e : Entry) :
    lookupChild [(n, e)] n = some e := by
  simp [lookupChild]

theorem lookupChild_single_ne (n n2 : String) (e : Entry) (h : n ≠ n2) :
    lookupChild [(n, e)] n2 = none := by
  simp [lookupChild, h]

theorem lookupChild_setChild_self (cs : List (String × Entry)) (n : String)
    (e : Entry) : lookupChild (setChild cs n e) n = some e := by
  rw [lookupChild_setChild, if_pos rfl]

theorem lookupChild_setChild_ne (cs : List (String × Entry)) (n n2 : String)
    (e : Entry) (h : n ≠ n2) :
    lookupChild (setChild cs n e) n2 = lookupChild cs n2 := by
  rw [lookupChild_setChild, if_neg h]

/-! ## Per-path effect of the filesystem operations -/

theorem obs_mkFresh (rest r : List String) :
    obs (mkFresh rest) r =
      if r <+: rest then some (PathObs.dirObs 0) else none := by
  induction rest generalizing r with
  | nil =>
    cases r with
    | nil => simp [mkFresh, obs_nil]
    | cons n r2 =>
      rw [if_neg (by simp)]
      exact obs_cons_none 0 [] n r2 rfl
  | cons n rest2 ih =>
    cases r with
    | nil => simp [mkFresh, obs_nil, List.nil_prefix]
    | cons n2 r2 =>
      show obs (Entry.dir 0 [(n, mkFresh rest2)]) (n2 :: r2) = _
      by_cases h : n = n2
      · subst h
        rw [obs_cons_some 0 _ n _ r2 (lookupChild_single_self n _), ih r2]
        by_cases h2 : r2 <+: rest2
        · rw [if_pos h2, if_pos (List.cons_prefix_cons.mpr ⟨rfl, h2⟩)]
        · rw [if_neg h2, if_neg (fun hc => h2 (List.cons_prefix_cons.mp hc).2)]
      · rw [obs_cons_none 0 _ n2 r2 (lookupChild_single_ne n n2 _ h),
          if_neg (fun hc => h ((List.cons_prefix_cons.mp hc).1.symm))]

theorem makedirs_ok_obs (t t2 : Entry) (q : List String)
    (h : makedirs t q = Except.ok t2) (r : List String) :
    obs t2 r =
      if r <+: q ∧ obs t r = none then some (PathObs.dirObs 0)
      else obs t r := by
  induction q generalizing t t2 r with
  | nil =>
    have ht : t = t2 := by
      cases t <;> simpa [makedirs] using h
    subst ht
    by_cases hp : r <+: ([] : List String)
    · have hr : r = [] := List.prefix_nil.mp hp
      subst hr
      rw [if_neg (fun hc => obs_nil_ne_none t hc.2)]
    · rw [if_neg (fun hc => hp hc.1)]
  | cons n rest ih =>
    cases t with
    | file mf cf => simp [makedirs] at h
    | dir m cs =>
      cases hlc : lookupChild cs n with
      | some child =>
        cases hmk : makedirs child rest with
        | error e => simp [makedirs, hlc, hmk] at h
        | ok child2 =>
          simp only [makedirs, hlc, hmk, Except.ok.injEq] at h
          subst h
          cases r with
          | nil =>
            rw [obs_nil, obs_nil,
              if_neg (fun hc => obs_nil_ne_none (Entry.dir m cs) hc.2)]
          | cons n2 r2 =>
            by_cases hn : n = n2
            · subst hn
              rw [obs_cons_some m _ n child2 r2 (lookupChild_setChild_self cs n child2),
                obs_cons_some m cs n child r2 hlc, ih child child2 hmk r2]
              by_cases hc : r2 <+: rest ∧ obs child r2 = none
              · rw [if_pos hc,
                  if_pos ⟨List.cons_prefix_cons.mpr ⟨rfl, hc.1⟩, hc.2⟩]
              · rw [if_neg hc, if_neg (fun hc2 =>
                  hc ⟨(List.cons_prefix_cons.mp hc2.1).2, hc2.2⟩)]
            · rw [obs_dir_cons, lookupChild_setChild_ne cs n n2 child2 hn,
                ← obs_dir_cons m cs n2 r2,
                if_neg (fun hc => hn (List.cons_prefix_cons.mp hc.1).1.symm)]
      | none =>
        simp only [makedirs, hlc, Except.ok.injEq] at h
        subst h
        cases r with
        | nil =>
          rw [obs_nil, obs_nil,
            if_neg (fun hc => obs_nil_ne_none (Entry.dir m cs) hc.2)]
        | cons n2 r2 =>
          by_cases hn : n = n2
          · subst hn
            rw [obs_cons_some m _ n _ r2 (lookupChild_setChild_self cs n _),
              obs_mkFresh, obs_cons_none m cs n r2 hlc]
            by_cases hc : r2 <+: rest
            · rw [if_pos hc,
                if_pos ⟨List.cons_prefix_cons.mpr ⟨rfl, hc⟩, rfl⟩]
            · rw [if_neg hc, if_neg (fun hc2 =>
                hc (List.cons_prefix_cons.mp hc2.1).2)]
          · rw [obs_dir_cons, lookupChild_setChild_ne cs n n2 _ hn,
              ← obs_dir_cons m cs n2 r2,
              if_neg (fun hc => hn (List.cons_prefix_cons.mp hc.1).1.symm)]

theorem makedirs_ok_of (t : Entry) (q : List String)
    (h : ∀ r, r <+: q → r ≠ q → isFileAtB t r = false) :
    ∃ t2, makedirs t q = Except.ok t2 := by
  induction q generalizing t with
  | nil => exact ⟨t, by cases t <;> rfl⟩
  | cons n rest ih =>
    cases t with
    | file mf cf =>
      have := h [] List.nil_prefix (by simp)
      simp [isFileAtB, lookup_nil] at this
    | dir m cs =>
      cases hlc : lookupChild cs n with
      | none =>
        exact ⟨Entry.dir m (setChild cs n (mkFresh rest)),
          by simp [makedirs, hlc]⟩
      | some child =>
        have hih : ∀ r, r <+: rest → r ≠ rest → isFileAtB child r = false := by
          intro r hp hne
          have h2 := h (n :: r) (List.cons_prefix_cons.mpr ⟨rfl, hp⟩)
            (by simp [hne])
          rwa [isFileAtB_cons_some m cs n child r hlc] at h2
        obtain ⟨child2, hc2⟩ := ih child hih
        exact ⟨Entry.dir m (setChild cs n child2),
          by simp [makedirs, hlc, hc2]⟩

theorem setFileAt_ok_obs (t t2 : Entry) (q : List String) (m c : Nat)
    (h : setFileAt t q m c = Except.ok t2) (r : List String) :
    obs t2 r = if r = q then some (PathObs.fileObs m c) else obs t r := by
  induction q generalizing t t2 r with
  | nil => simp [setFileAt] at h
  | cons n q2 ih =>
    cases t with
    | file mf cf => simp [setFileAt] at h
    | dir md cs =>
      cases q2 with
      | nil =>
        have hnotdir : ∀ m2 cs2, lookupChild cs n = some (Entry.dir m2 cs2) → False := by
          intro m2 cs2 hlc
          simp [setFileAt, hlc] at h
        have hmain : Entry.dir md (setChild cs n (Entry.file m c)) = t2 := by
          cases hlc : lookupChild cs n with
          | none => simpa [setFileAt, hlc] using h
          | some child =>
            cases child with
            | dir m2 cs2 => exact absurd hlc (fun hc => hnotdir m2 cs2 hc)
            | file m2 c2 => simpa [setFileAt, hlc] using h
        subst hmain
        cases r with
        | nil => rw [obs_nil, obs_nil, if_neg (by simp)]
        | cons n2 r2 =>
          by_cases hn : n = n2
          · subst hn
            rw [obs_cons_some md _ n _ r2 (lookupChild_setChild_self cs n _)]
            cases r2 with
            | nil =>
              rw [if_pos rfl, obs_nil]
            | cons a r3 =>
              rw [if_neg (by simp)]
              show (none : Option PathObs) = obs (Entry.dir md cs) (n :: a :: r3)
              cases hlc : lookupChild cs n with
              | none => rw [obs_cons_none md cs n _ hlc]
              | some child =>
                cases child with
                | dir m2 cs2 => exact absurd hlc (fun hc => hnotdir m2 cs2 hc)
                | file m2 c2 =>
                  rw [obs_cons_some md cs n _ _ hlc]
                  rfl
          · rw [obs_dir_cons, lookupChild_setChild_ne cs n n2 _ hn,
              ← obs_dir_cons md cs n2 r2,
              if_neg (fun hc => hn (by injection hc with h1 h2; exact h1.symm))]
      | cons a q3 =>
        cases hlc : lookupChild cs n with
        | none => simp [setFileAt, hlc] at h
        | some child =>
          cases hsf : setFileAt child (a :: q3) m c with
          | error e => simp [setFileAt, hlc, hsf] at h
          | ok child2 =>
            simp only [setFileAt, hlc, hsf, Except.ok.injEq] at h
            subst h
            cases r with
            | nil => rw [obs_nil, obs_nil, if_neg (by simp)]
            | cons n2 r2 =>
              by_cases hn : n = n2
              · subst hn
                rw [obs_cons_some md _ n child2 r2 (lookupChild_setChild_self cs n child2),
                  obs_cons_some md cs n child r2 hlc, ih child child2 hsf r2]
                by_cases hr : r2 = a :: q3
                · rw [if_pos hr, if_pos (by rw [hr])]
                · rw [if_neg hr, if_neg (by simp [hr])]
              · rw [obs_dir_cons, lookupChild_setChild_ne cs n n2 child2 hn,
                  ← obs_dir_cons md cs n2 r2,
                  if_neg (fun hc => hn (by injection hc with h1 h2; exact h1.symm))]

theorem setFileAt_ok_iff (t : Entry) (p : List String) (n : String) (m c : Nat) :
    (∃ t2, setFileAt t (p ++ [n]) m c = Except.ok t2) ↔
      (isDirAtB t p = true ∧ isDirAtB t (p ++ [n]) = false) := by
  induction p generalizing t with
  | nil =>
    cases t with
    | file mf cf =>
      constructor
      · intro hex
        obtain ⟨t2, h2⟩ := hex
        simp [setFileAt] at h2
      · intro hc
        simp [isDirAtB, lookup_nil] at hc
    | dir md cs =>
      constructor
      · intro hex
        obtain ⟨t2, h2⟩ := hex
        refine ⟨rfl, ?_⟩
        cases hlc : lookupChild cs n with
        | none => rw [List.nil_append, isDirAtB_cons_none md cs n [] hlc]
        | some child =>
          cases child with
          | dir m2 cs2 => simp [setFileAt, hlc] at h2
          | file m2 c2 =>
            rw [List.nil_append, isDirAtB_cons_some md cs n _ [] hlc]
            rfl
      · intro hc
        cases hlc : lookupChild cs n with
        | none =>
          exact ⟨Entry.dir md (setChild cs n (Entry.file m c)),
            by simp [setFileAt, hlc]⟩
        | some child =>
          cases child with
          | dir m2 cs2 =>
            rw [List.nil_append, isDirAtB_cons_some md cs n _ [] hlc] at hc
            exact absurd hc.2 (by simp [isDirAtB, lookup_nil])
          | file m2 c2 =>
            exact ⟨Entry.dir md (setChild cs n (Entry.file m c)),
              by simp [setFileAt, hlc]⟩
  | cons n1 p2 ih =>
    cases t with
    | file mf cf =>
      constructor
      · intro hex
        obtain ⟨t2, h2⟩ := hex
        cases hq : p2 ++ [n] with
        | nil => simp [hq] at h2; simp [setFileAt] at h2
        | cons a q3 => rw [List.cons_append, hq] at h2; simp [setFileAt] at h2
      · intro hc
        simp [isDirAtB, lookup] at hc
    | dir md cs =>
      have hq : ∃ a q3, p2 ++ [n] = a :: q3 := by
        cases p2 with
        | nil => exact ⟨n, [], rfl⟩
        | cons x xs => exact ⟨x, xs ++ [n], rfl⟩
      obtain ⟨a, q3, hq⟩ := hq
      cases hlc : lookupChild cs n1 with
      | none =>
        constructor
        · intro hex
          obtain ⟨t2, h2⟩ := hex
          rw [List.cons_append, hq] at h2
          simp [setFileAt, hlc] at h2
        · intro hc
          rw [isDirAtB_cons_none md cs n1 p2 hlc] at hc
          exact absurd hc.1 (by simp)
      | some child =>
        constructor
        · intro hex
          obtain ⟨t2, h2⟩ := hex
          rw [List.cons_append, hq] at h2
          cases hsf : setFileAt child (a :: q3) m c with
          | error e => simp [setFileAt, hlc, hsf] at h2
          | ok child2 =>
            have hex2 : ∃ t2, setFileAt child (p2 ++ [n]) m c = Except.ok t2 :=
              ⟨child2, by rw [hq]; exact hsf⟩
            obtain ⟨hd, hnd⟩ := (ih child).mp hex2
            refine ⟨?_, ?_⟩
            · rw [isDirAtB_cons_some md cs n1 child p2 hlc]
              exact hd
            · rw [List.cons_append,
                isDirAtB_cons_some md cs n1 child (p2 ++ [n]) hlc]
              exact hnd
        · intro hc
          rw [isDirAtB_cons_some md cs n1 child p2 hlc] at hc
          rw [List.cons_append, isDirAtB_cons_some md cs n1 child (p2 ++ [n]) hlc] at hc
          obtain ⟨child2, hsf⟩ := (ih child).mpr hc
          refine ⟨Entry.dir md (setChild cs n1 child2), ?_⟩
          rw [List.cons_append, hq]
          rw [hq] at hsf
          simp [setFileAt, hlc, hsf]

theorem removePath_obs (t : Entry) (q : List String) (hq : q ≠ [])
    (hwf : wfE t = true) (r : List String) :
    obs (removePath t q) r = if q <+: r then none else obs t r := by
  induction q generalizing t r with
  | nil => exact absurd rfl hq
  | cons n q2 ih =>
    cases t with
    | file mf cf =>
      show obs (Entry.file mf cf) r = _
      by_cases hp : n :: q2 <+: r
      · obtain ⟨r2, hr⟩ : ∃ r2, r = n :: r2 := by
          cases r with
          | nil => exact absurd (List.prefix_nil.mp hp) (by simp)
          | cons a r2 =>
            exact ⟨r2, by rw [(List.cons_prefix_cons.mp hp).1]⟩
        subst hr
        rw [if_pos hp]
        rfl
      · rw [if_neg hp]
    | dir m cs =>
      cases q2 with
      | nil =>
        cases r with
        | nil =>
          rw [if_neg (by simp), obs_nil]
          rfl
        | cons n2 r2 =>
          by_cases hn : n = n2
          · subst hn
            rw [if_pos (List.cons_prefix_cons.mpr ⟨rfl, List.nil_prefix⟩)]
            show obs (Entry.dir m (removeChild cs n)) (n :: r2) = none
            rw [obs_cons_none m _ n r2
              (lookupChild_removeChild_self cs n (wfE_dir_nodup m cs hwf))]
          · rw [if_neg (fun hc => hn (List.cons_prefix_cons.mp hc).1)]
            show obs (Entry.dir m (removeChild cs n)) (n2 :: r2) = _
            rw [obs_dir_cons, lookupChild_removeChild_ne cs n n2 hn,
              ← obs_dir_cons m cs n2 r2]
      | cons a q3 =>
        cases hlc : lookupChild cs n with
        | none =>
          have hrp : removePath (Entry.dir m cs) (n :: a :: q3) = Entry.dir m cs := by
            simp [removePath, hlc]
          rw [hrp]
          by_cases hp : n :: a :: q3 <+: r
          · rw [if_pos hp]
            obtain ⟨r2, hr⟩ : ∃ r2, r = n :: r2 := by
              cases r with
              | nil => exact absurd (List.prefix_nil.mp hp) (by simp)
              | cons b r2 =>
                exact ⟨r2, by rw [(List.cons_prefix_cons.mp hp).1]⟩
            subst hr
            rw [obs_cons_none m cs n r2 hlc]
          · rw [if_neg hp]
        | some child =>
          have hrp : removePath (Entry.dir m cs) (n :: a :: q3) =
              Entry.dir m (setChild cs n (removePath child (a :: q3))) := by
            simp [removePath, hlc]
          rw [hrp]
          have hwfc : wfE child = true :=
            wfList_lookupChild cs n child (wfE_dir_wfList m cs hwf) hlc
          cases r with
          | nil =>
            rw [if_neg (by simp), obs_nil, obs_nil]
          | cons n2 r2 =>
            by_cases hn : n = n2
            · subst hn
              rw [obs_cons_some m _ n _ r2 (lookupChild_setChild_self cs n _),
                ih child (by simp) hwfc r2,
                obs_cons_some m cs n child r2 hlc]
              by_cases hp : a :: q3 <+: r2
              · rw [if_pos hp, if_pos (List.cons_prefix_cons.mpr ⟨rfl, hp⟩)]
              · rw [if_neg hp,
                  if_neg (fun hc => hp (List.cons_prefix_cons.mp hc).2)]
            · rw [obs_dir_cons, lookupChild_setChild_ne cs n n2 _ hn,
                ← obs_dir_cons m cs n2 r2,
                if_neg (fun hc => hn (List.cons_prefix_cons.mp hc).1)]

theorem removePath_lookup_disj (t : Entry) (q r : List String)
    (h1 : ¬ q <+: r) (h2 : ¬ r <+: q) :
    lookup (removePath t q) r = lookup t r := by
  induction q generalizing t r with
  | nil => exact absurd List.nil_prefix h1
  | cons n q2 ih =>
    cases t with
    | file mf cf => rfl
    | dir m cs =>
      cases r with
      | nil => exact absurd List.nil_prefix h2
      | cons n2 r2 =>
        by_cases hn : n = n2
        · subst hn
          have h1b : ¬ q2 <+: r2 :=
            fun hc => h1 (List.cons_prefix_cons.mpr ⟨rfl, hc⟩)
          have h2b : ¬ r2 <+: q2 :=
            fun hc => h2 (List.cons_prefix_cons.mpr ⟨rfl, hc⟩)
          cases q2 with
          | nil => exact absurd List.nil_prefix h1b
          | cons a q3 =>
            cases hlc : lookupChild cs n with
            | none =>
              have hrp : removePath (Entry.dir m cs) (n :: a :: q3) = Entry.dir m cs := by
                simp [removePath, hlc]
              rw [hrp]
            | some child =>
              have hrp : removePath (Entry.dir m cs) (n :: a :: q3) =
                  Entry.dir m (setChild cs n (removePath child (a :: q3))) := by
                simp [removePath, hlc]
              rw [hrp, lookup_cons_some m _ n _ r2 (lookupChild_setChild_self cs n _),
                lookup_cons_some m cs n child r2 hlc]
              exact ih child r2 h1b h2b
        · cases q2 with
          | nil =>
            show lookup (Entry.dir m (removeChild cs n)) (n2 :: r2) = _
            rw [lookup_dir_cons, lookupChild_removeChild_ne cs n n2 hn,
              ← lookup_dir_cons]
          | cons a q3 =>
            cases hlc : lookupChild cs n with
            | none =>
              have hrp : removePath (Entry.dir m cs) (n :: a :: q3) = Entry.dir m cs := by
                simp [removePath, hlc]
              rw [hrp]
            | some child =>
              have hrp : removePath (Entry.dir m cs) (n :: a :: q3) =
                  Entry.dir m (setChild cs n (removePath child (a :: q3))) := by
                simp [removePath, hlc]
              rw [hrp, lookup_dir_cons, lookupChild_setChild_ne cs n n2 _ hn,
                ← lookup_dir_cons]

/-! ## Sequencing and auxiliary lemmas -/

theorem Out.bind_some (r : Out) (f : Entry → List Event → Out) (e : Err)
    (h : r.err = some e) : Out.bind r f = r := by
  unfold Out.bind
  rw [h]

theorem Out.bind_none (r : Out) (f : Entry → List Event → Out)
    (h : r.err = none) : Out.bind r f = f r.fs r.evs := by
  unfold Out.bind
  rw [h]

theorem wf_lookup (t e : Entry) (p : List String) (hwf : wfE t = true)
    (h : lookup t p = some e) : wfE e = true := by
  induction p generalizing t with
  | nil =>
    rw [lookup_nil] at h
    injection h with h2
    subst h2
    exact hwf
  | cons n p2 ih =>
    cases t with
    | file m c => simp [lookup] at h
    | dir m cs =>
      cases hlc : lookupChild cs n with
      | none => rw [lookup_cons_none m cs n p2 hlc] at h; cases h
      | some child =>
        rw [lookup_cons_some m cs n child p2 hlc] at h
        exact ih child
          (wfList_lookupChild cs n child (wfE_dir_wfList m cs hwf) hlc) h

theorem compatChildren_unfold_file (scs : List (String × Entry)) (n2 : String)
    (m2 c2 : Nat) (rest : List (String × Entry)) :
    compatChildren scs ((n2, Entry.file m2 c2) :: rest) =
      ((match lookupChild scs n2 with
        | some (Entry.dir _ _) => false
        | _ => true) && compatChildren scs rest) := by
  rw [compatChildren]

theorem compatChildren_unfold_dir (scs : List (String × Entry)) (n2 : String)
    (m2 : Nat) (dcs2 rest : List (String × Entry)) :
    compatChildren scs ((n2, Entry.dir m2 dcs2) :: rest) =
      ((match lookupChild scs n2 with
        | some (Entry.file _ _) => false
        | some (Entry.dir _ scs2) => compatChildren scs2 dcs2
        | none => true) && compatChildren scs rest) := by
  rw [compatChildren]

theorem compatChildren_lookup (scs dcs : List (String × Entry)) (n : String)
    (se de : Entry) (h : compatChildren scs dcs = true)
    (hd : lookupChild dcs n = some de) (hs : lookupChild scs n = some se) :
    compatB se de = true := by
  induction dcs with
  | nil => simp [lookupChild] at hd
  | cons hd2 rest ih =>
    obtain ⟨n2, e2⟩ := hd2
    by_cases hn : n2 = n
    · subst hn
      have hde : de = e2 := by
        simp only [lookupChild, if_pos rfl] at hd
        injection hd with h2
        exact h2.symm
      subst hde
      cases de with
      | file m2 c2 =>
        rw [compatChildren_unfold_file] at h
        obtain ⟨h1, _⟩ := bool_and_split h
        rw [hs] at h1
        cases se with
        | file m3 c3 => rfl
        | dir m3 cs3 => simp at h1
      | dir m2 dcs2 =>
        rw [compatChildren_unfold_dir] at h
        obtain ⟨h1, _⟩ := bool_and_split h
        rw [hs] at h1
        cases se with
        | file m3 c3 => simp at h1
        | dir m3 cs3 => exact h1
    · have hd2 : lookupChild rest n = some de := by
        simpa [lookupChild, hn] using hd
      cases e2 with
      | file m2 c2 =>
        rw [compatChildren_unfold_file] at h
        exact ih (bool_and_split h).2 hd2
      | dir m2 dcs2 =>
        rw [compatChildren_unfold_dir] at h
        exact ih (bool_and_split h).2 hd2

theorem compatB_noClash (S D : Entry) (h : compatB S D = true) : noClash S D := by
  intro r
  induction r generalizing S D with
  | nil =>
    cases S with
    | file ms cs =>
      cases D with
      | file md cd => simp [isDirAtB, lookup_nil]
      | dir md cd => simp [compatB] at h
    | dir ms cs =>
      cases D with
      | file md cd => simp [compatB] at h
      | dir md cd => simp [isFileAtB, lookup_nil]
  | cons n r2 ih =>
    cases S with
    | file ms cs =>
      constructor
      · intro hc
        exact absurd hc.1 (by simp [isDirAtB, lookup])
      · intro hc
        exact absurd hc.1 (by simp [isFileAtB, lookup])
    | dir ms scs =>
      cases D with
      | file md cd =>
        constructor
        · intro hc
          exact absurd hc.2 (by simp [isFileAtB, lookup])
        · intro hc
          exact absurd hc.2 (by simp [isDirAtB, lookup])
      | dir md dcs =>
        have hcc : compatChildren scs dcs = true := h
        cases hld : lookupChild dcs n with
        | none =>
          constructor
          · intro hc
            rw [isFileAtB_cons_none md dcs n r2 hld] at hc
            exact absurd hc.2 (by simp)
          · intro hc
            rw [isDirAtB_cons_none md dcs n r2 hld] at hc
            exact absurd hc.2 (by simp)
        | some de =>
          cases hls : lookupChild scs n with
          | none =>
            constructor
            · intro hc
              rw [isDirAtB_cons_none ms scs n r2 hls] at hc
              exact absurd hc.1 (by simp)
            · intro hc
              rw [isFileAtB_cons_none ms scs n r2 hls] at hc
              exact absurd hc.1 (by simp)
          | some se =>
            have hcsub : compatB se de = true :=
              compatChildren_lookup scs dcs n se de hcc hld hls
            have := ih se de hcsub
            constructor
            · intro hc
              rw [isDirAtB_cons_some ms scs n se r2 hls] at hc
              rw [isFileAtB_cons_some md dcs n de r2 hld] at hc
              exact this.1 hc
            · intro hc
              rw [isFileAtB_cons_some ms scs n se r2 hls] at hc
              rw [isDirAtB_cons_some md dcs n de r2 hld] at hc
              exact this.2 hc

theorem copy2_not_dir (t : Entry) (q : List String) (base : String) (m c : Nat)
    (h : isDirAtB t q = false) : copy2 t q base m c = setFileAt t q m c := by
  unfold copy2
  unfold isDirAtB at h
  cases hl : lookup t q with
  | none => rfl
  | some e =>
    cases e with
    | file m2 c2 => rfl
    | dir m2 cs2 =>
      rw [hl] at h
      simp at h

theorem copy2_dir (t : Entry) (q : List String) (base : String) (m c : Nat)
    (m2 : Nat) (cs2 : List (String × Entry)) (h : lookup t q = some (Entry.dir m2 cs2)) :
    copy2 t q base m c = setFileAt t (q ++ [base]) m c := by
  unfold copy2
  rw [h]

/-! ## Case analyses of the atomic steps of the pass -/

theorem dirStep_cases (fail : Fail) (p : List String) (fs : Entry)
    (evs : List Event) :
    (dirStep fail p ⟨fs, evs, none⟩ = ⟨fs, evs, none⟩ ∧ existsP fs p = true) ∨
    (∃ fs2, dirStep fail p ⟨fs, evs, none⟩ =
        ⟨fs2, evs ++ [Event.mkdir p], none⟩ ∧ existsP fs p = false ∧
      ∀ r, obs fs2 r =
        if r <+: p ∧ obs fs r = none then some (PathObs.dirObs 0)
        else obs fs r) ∨
    (dirStep fail p ⟨fs, evs, none⟩ =
        ⟨fs, evs, some (Err.opFail OpKind.mkdirOp p)⟩ ∧
      existsP fs p = false) := by
  unfold dirStep
  rw [Out.bind_none _ _ rfl]
  by_cases hex : existsP fs p
  · left
    exact ⟨by simp [hex], hex⟩
  · rw [if_neg hex]
    by_cases hf : fail OpKind.mkdirOp p
    · right; right
      rw [if_pos hf]
      exact ⟨rfl, by simpa using hex⟩
    · rw [if_neg hf]
      cases hmk : makedirs fs p with
      | ok fs2 =>
        right; left
        exact ⟨fs2, rfl, by simpa using hex,
          makedirs_ok_obs fs fs2 p hmk⟩
      | error e =>
        right; right
        exact ⟨rfl, by simpa using hex⟩

theorem dirStep_ok (p : List String) (fs : Entry) (evs : List Event)
    (h : ∀ r, r <+: p → r ≠ p → isFileAtB fs r = false) :
    (dirStep noFail p ⟨fs, evs, none⟩).err = none := by
  unfold dirStep
  rw [Out.bind_none _ _ rfl]
  by_cases hex : existsP fs p
  · rw [if_pos hex]
  · rw [if_neg hex]
    have hf : ¬ (noFail OpKind.mkdirOp p = true) := by simp [noFail]
    rw [if_neg hf]
    obtain ⟨t2, hmk⟩ := makedirs_ok_of fs p h
    rw [hmk]

theorem fileStep_cases (fail : Fail) (p : List String) (n : String) (m c : Nat)
    (fs : Entry) (evs : List Event) :
    (fileStep fail p (n, m, c) ⟨fs, evs, none⟩ = ⟨fs, evs, none⟩ ∧
      shouldCopy fs (p ++ [n]) m = false) ∨
    (∃ fs2, fileStep fail p (n, m, c) ⟨fs, evs, none⟩ =
        ⟨fs2, evs ++ [Event.copy (p ++ [n])], none⟩ ∧
      shouldCopy fs (p ++ [n]) m = true ∧
      ((isDirAtB fs (p ++ [n]) = false ∧
          ∀ r, obs fs2 r =
            if r = p ++ [n] then some (PathObs.fileObs m c) else obs fs r) ∨
       (isDirAtB fs (p ++ [n]) = true ∧ isDirAtB fs (p ++ [n] ++ [n]) = false ∧
          ∀ r, obs fs2 r =
            if r = p ++ [n] ++ [n] then some (PathObs.fileObs m c)
            else obs fs r))) ∨
    (fileStep fail p (n, m, c) ⟨fs, evs, none⟩ =
      ⟨fs, evs, some (Err.opFail OpKind.copyOp (p ++ [n]))⟩) := by
  unfold fileStep
  rw [Out.bind_none _ _ rfl]
  by_cases hsc : shouldCopy fs (p ++ [n]) m
  · rw [if_pos hsc]
    by_cases hf : fail OpKind.copyOp (p ++ [n])
    · right; right
      rw [if_pos hf]
    · rw [if_neg hf]
      by_cases hdir : isDirAtB fs (p ++ [n])
      · have hld : ∃ m2 cs2, lookup fs (p ++ [n]) = some (Entry.dir m2 cs2) := by
          unfold isDirAtB at hdir
          cases hl : lookup fs (p ++ [n]) with
          | none => rw [hl] at hdir; simp at hdir
          | some e =>
            cases e with
            | file m2 c2 => rw [hl] at hdir; simp at hdir
            | dir m2 cs2 => exact ⟨m2, cs2, rfl⟩
        obtain ⟨m2, cs2, hld⟩ := hld
        rw [copy2_dir fs (p ++ [n]) n m c m2 cs2 hld]
        cases hsf : setFileAt fs (p ++ [n] ++ [n]) m c with
        | ok fs2 =>
          right; left
          refine ⟨fs2, rfl, hsc, Or.inr ⟨hdir,
            ((setFileAt_ok_iff fs (p ++ [n]) n m c).mp ⟨fs2, hsf⟩).2, ?_⟩⟩
          intro r
          rw [setFileAt_ok_obs fs fs2 (p ++ [n] ++ [n]) m c hsf r]
        | error e =>
          right; right
          rfl
      · rw [copy2_not_dir fs (p ++ [n]) n m c (by simpa using hdir)]
        cases hsf : setFileAt fs (p ++ [n]) m c with
        | ok fs2 =>
          right; left
          refine ⟨fs2, rfl, hsc, Or.inl ⟨by simpa using hdir, ?_⟩⟩
          intro r
          rw [setFileAt_ok_obs fs fs2 (p ++ [n]) m c hsf r]
        | error e =>
          right; right
          rfl
  · left
    exact ⟨by simp [hsc], by simpa using hsc⟩

theorem fileStep_ok (p : List String) (n : String) (m c : Nat) (fs : Entry)
    (evs : List Event) (hpar : isDirAtB fs p = true)
    (htgt : isDirAtB fs (p ++ [n]) = false) :
    (fileStep noFail p (n, m, c) ⟨fs, evs, none⟩).err = none := by
  unfold fileStep
  rw [Out.bind_none _ _ rfl]
  by_cases hsc : shouldCopy fs (p ++ [n]) m
  · rw [if_pos hsc]
    have hf : ¬ (noFail OpKind.copyOp (p ++ [n]) = true) := by simp [noFail]
    rw [if_neg hf]
    rw [copy2_not_dir fs (p ++ [n]) n m c htgt]
    obtain ⟨fs2, hsf⟩ := (setFileAt_ok_iff fs p n m c).mpr ⟨hpar, htgt⟩
    rw [hsf]
  · rw [if_neg hsc]

theorem rmFileStep_cases (fail : Fail) (S : Entry) (p : List String)
    (n : String) (fs : Entry) (evs : List Event) :
    (rmFileStep fail S p n ⟨fs, evs, none⟩ = ⟨fs, evs, none⟩ ∧
      existsP S (p ++ [n]) = true) ∨
    (rmFileStep fail S p n ⟨fs, evs, none⟩ =
        ⟨removePath fs (p ++ [n]), evs ++ [Event.rmFile (p ++ [n])], none⟩ ∧
      existsP S (p ++ [n]) = false) ∨
    (rmFileStep fail S p n ⟨fs, evs, none⟩ =
        ⟨fs, evs, some (Err.opFail OpKind.removeOp (p ++ [n]))⟩ ∧
      existsP S (p ++ [n]) = false) := by
  unfold rmFileStep
  rw [Out.bind_none _ _ rfl]
  by_cases hex : existsP S (p ++ [n])
  · left
    exact ⟨by simp [hex], hex⟩
  · rw [if_neg hex]
    by_cases hf : fail OpKind.removeOp (p ++ [n])
    · right; right
      rw [if_pos hf]
      exact ⟨rfl, by simpa using hex⟩
    · right; left
      rw [if_neg hf]
      exact ⟨rfl, by simpa using hex⟩

theorem rmDirStep_cases (fail : Fail) (S : Entry) (p : List String)
    (n : String) (fs : Entry) (evs : List Event) :
    (rmDirStep fail S p n ⟨fs, evs, none⟩ = ⟨fs, evs, none⟩ ∧
      existsP S (p ++ [n]) = true) ∨
    (rmDirStep fail S p n ⟨fs, evs, none⟩ =
        ⟨removePath fs (p ++ [n]), evs ++ [Event.rmDir (p ++ [n])], none⟩ ∧
      existsP S (p ++ [n]) = false) ∨
    (rmDirStep fail S p n ⟨fs, evs, none⟩ =
        ⟨fs, evs, some (Err.opFail OpKind.rmtreeOp (p ++ [n]))⟩ ∧
      existsP S (p ++ [n]) = false) := by
  unfold rmDirStep
  rw [Out.bind_none _ _ rfl]
  by_cases hex : existsP S (p ++ [n])
  · left
    exact ⟨by simp [hex], hex⟩
  · rw [if_neg hex]
    by_cases hf : fail OpKind.rmtreeOp (p ++ [n])
    · right; right
      rw [if_pos hf]
      exact ⟨rfl, by simpa using hex⟩
    · right; left
      rw [if_neg hf]
      exact ⟨rfl, by simpa using hex⟩

theorem rmFileStep_noFail_err (S : Entry) (p : List String) (n : String)
    (fs : Entry) (evs : List Event) :
    (rmFileStep noFail S p n ⟨fs, evs, none⟩).err = none := by
  unfold rmFileStep
  rw [Out.bind_none _ _ rfl]
  by_cases hex : existsP S (p ++ [n])
  · rw [if_pos hex]
  · rw [if_neg hex]
    have hf : ¬ (noFail OpKind.removeOp (p ++ [n]) = true) := by simp [noFail]
    rw [if_neg hf]

theorem rmDirStep_noFail_err (S : Entry) (p : List String) (n : String)
    (fs : Entry) (evs : List Event) :
    (rmDirStep noFail S p n ⟨fs, evs, none⟩).err = none := by
  unfold rmDirStep
  rw [Out.bind_none _ _ rfl]
  by_cases hex : existsP S (p ++ [n])
  · rw [if_pos hex]
  · rw [if_neg hex]
    have hf : ¬ (noFail OpKind.rmtreeOp (p ++ [n]) = true) := by simp [noFail]
    rw [if_neg hf]

/-! ## Error pass-through: once the exception is raised nothing further runs -/

theorem dirStep_errsome (fail : Fail) (p : List String) (acc : Out) (e : Err)
    (h : acc.err = some e) : dirStep fail p acc = acc :=
  Out.bind_some acc _ e h

theorem fileStep_errsome (fail : Fail) (p : List String) (f : String × Nat × Nat)
    (acc : Out) (e : Err) (h : acc.err = some e) : fileStep fail p f acc = acc :=
  Out.bind_some acc _ e h

theorem rmFileStep_errsome (fail : Fail) (S : Entry) (p : List String)
    (n : String) (acc : Out) (e : Err) (h : acc.err = some e) :
    rmFileStep fail S p n acc = acc :=
  Out.bind_some acc _ e h

theorem rmDirStep_errsome (fail : Fail) (S : Entry) (p : List String)
    (n : String) (acc : Out) (e : Err) (h : acc.err = some e) :
    rmDirStep fail S p n acc = acc :=
  Out.bind_some acc _ e h

theorem copyFilesFold_errsome (fail : Fail) (p : List String)
    (fsl : List (String × Nat × Nat)) (acc : Out) (e : Err)
    (h : acc.err = some e) : copyFilesFold fail p fsl acc = acc := by
  induction fsl generalizing acc with
  | nil => rfl
  | cons f rest ih =>
    show copyFilesFold fail p rest (fileStep fail p f acc) = acc
    rw [fileStep_errsome fail p f acc e h]
    exact ih acc h

theorem rmFilesFold_errsome (fail : Fail) (S : Entry) (p : List String)
    (ns : List String) (acc : Out) (e : Err) (h : acc.err = some e) :
    rmFilesFold fail S p ns acc = acc := by
  induction ns generalizing acc with
  | nil => rfl
  | cons n rest ih =>
    show rmFilesFold fail S p rest (rmFileStep fail S p n acc) = acc
    rw [rmFileStep_errsome fail S p n acc e h]
    exact ih acc h

theorem rmDirsFold_errsome (fail : Fail) (S : Entry) (p : List String)
    (ns : List String) (acc : Out) (e : Err) (h : acc.err = some e) :
    rmDirsFold fail S p ns acc = acc := by
  induction ns generalizing acc with
  | nil => rfl
  | cons n rest ih =>
    show rmDirsFold fail S p rest (rmDirStep fail S p n acc) = acc
    rw [rmDirStep_errsome fail S p n acc e h]
    exact ih acc h

theorem phase1StepsAt_errsome (fail : Fail) (p : List String)
    (cs : List (String × Entry)) (acc : Out) (e : Err) (h : acc.err = some e) :
    phase1StepsAt fail p cs acc = acc := by
  unfold phase1StepsAt
  rw [dirStep_errsome fail p acc e h]
  exact copyFilesFold_errsome fail p (filesOf cs) acc e h

theorem phase2StepsAt_errsome (fail : Fail) (S : Entry) (p : List String)
    (cs : List (String × Entry)) (acc : Out) (e : Err) (h : acc.err = some e) :
    phase2StepsAt fail S p cs acc = acc :=
  Out.bind_some acc _ e h

theorem phase1Subs_nil (fail : Fail) (p : List String) (acc : Out) :
    phase1Subs fail p [] acc = acc := by
  rw [phase1Subs]

theorem phase1Subs_file (fail : Fail) (p : List String) (n : String)
    (m c : Nat) (rest : List (String × Entry)) (acc : Out) :
    phase1Subs fail p ((n, Entry.file m c) :: rest) acc =
      phase1Subs fail p rest acc := by
  rw [phase1Subs]

theorem phase1Subs_dir (fail : Fail) (p : List String) (n : String) (m : Nat)
    (cs : List (String × Entry)) (rest : List (String × Entry)) (acc : Out) :
    phase1Subs fail p ((n, Entry.dir m cs) :: rest) acc =
      phase1Subs fail p rest (phase1At fail (p ++ [n]) cs acc) := by
  rw [phase1Subs]
  rfl

theorem phase2Subs_nil (fail : Fail) (S : Entry) (p : List String) (acc : Out) :
    phase2Subs fail S p [] acc = acc := by
  rw [phase2Subs]

theorem phase2Subs_file (fail : Fail) (S : Entry) (p : List String) (n : String)
    (m c : Nat) (rest : List (String × Entry)) (acc : Out) :
    phase2Subs fail S p ((n, Entry.file m c) :: rest) acc =
      phase2Subs fail S p rest acc := by
  rw [phase2Subs]

theorem phase2Subs_dir (fail : Fail) (S : Entry) (p : List String) (n : String)
    (m : Nat) (cs : List (String × Entry)) (rest : List (String × Entry))
    (acc : Out) :
    phase2Subs fail S p ((n, Entry.dir m cs) :: rest) acc =
      phase2Subs fail S p rest (phase2At fail S (p ++ [n]) cs acc) := by
  rw [phase2Subs]
  rfl

theorem phase1Subs_errsome (fail : Fail) (p : List String)
    (l : List (String × Entry)) (acc : Out) (e : Err) (h : acc.err = some e) :
    phase1Subs fail p l acc = acc := by
  induction p, l, acc using phase1Subs.induct fail with
  | case1 p acc => rw [phase1Subs_nil]
  | case2 p acc n m c rest ih =>
    rw [phase1Subs_file]
    exact ih h
  | case3 p acc n m cs rest ih1 ih2 =>
    rw [phase1Subs_dir]
    unfold phase1At
    rw [phase1StepsAt_errsome fail (p ++ [n]) cs acc e h] at ih1 ih2 ⊢
    have h1 : phase1Subs fail (p ++ [n]) cs acc = acc := ih1 h
    rw [h1] at ih2 ⊢
    exact ih2 h

theorem phase2Subs_errsome (fail : Fail) (S : Entry) (p : List String)
    (l : List (String × Entry)) (acc : Out) (e : Err) (h : acc.err = some e) :
    phase2Subs fail S p l acc = acc := by
  induction p, l, acc using phase2Subs.induct fail S with
  | case1 p acc => rw [phase2Subs_nil]
  | case2 p acc n m c rest ih =>
    rw [phase2Subs_file]
    exact ih h
  | case3 p acc n m cs rest ih1 ih2 =>
    rw [phase2Subs_dir]
    unfold phase2At
    rw [phase2StepsAt_errsome fail S (p ++ [n]) cs acc e h] at ih1 ih2 ⊢
    have h1 : phase2Subs fail S (p ++ [n]) cs acc = acc := ih1 h
    rw [h1] at ih2 ⊢
    exact ih2 h

/-! ## Behaviour of the file-copy fold of one propagation visit -/

theorem fileStep_noCopy (fail : Fail) (p : List String) (n : String)
    (m c : Nat) (fs : Entry) (evs : List Event)
    (h : shouldCopy fs (p ++ [n]) m = false) :
    fileStep fail p (n, m, c) ⟨fs, evs, none⟩ = ⟨fs, evs, none⟩ := by
  unfold fileStep
  rw [Out.bind_none _ _ rfl]
  simp [h]

theorem shouldCopy_false_obs (fs : Entry) (q : List String) (m : Nat)
    (h : shouldCopy fs q m = false) (hd : isDirAtB fs q = false) :
    ∃ c2, obs fs q = some (PathObs.fileObs m c2) := by
  unfold shouldCopy at h
  unfold isDirAtB at hd
  unfold obs
  cases hl : lookup fs q with
  | none => rw [hl] at h; simp at h
  | some e =>
    cases e with
    | dir m2 cs2 => rw [hl] at hd; simp at hd
    | file m2 c2 =>
      rw [hl] at h
      simp only [bne_eq_false_iff_eq] at h
      have : m2 = m := h
      subst this
      exact ⟨c2, rfl⟩

theorem copyFilesFold_cons (fail : Fail) (p : List String)
    (f : String × Nat × Nat) (rest : List (String × Nat × Nat)) (acc : Out) :
    copyFilesFold fail p (f :: rest) acc =
      copyFilesFold fail p rest (fileStep fail p f acc) := rfl

theorem copyFilesFold_spec (p : List String) (F : List (String × Nat × Nat)) :
    ∀ fs evs, ∃ tl,
      (copyFilesFold noFail p F ⟨fs, evs, none⟩).evs = evs ++ tl ∧
      (∀ ev, ev ∈ tl → ∃ n m1 c1, (n, m1, c1) ∈ F ∧ ev = Event.copy (p ++ [n])) ∧
      (∀ r, obs (copyFilesFold noFail p F ⟨fs, evs, none⟩).fs r ≠ obs fs r →
        isDirAtB fs r = false ∧
        ∃ n m1 c1, (n, m1, c1) ∈ F ∧ (r = p ++ [n] ∨ r = p ++ [n] ++ [n]) ∧
          obs (copyFilesFold noFail p F ⟨fs, evs, none⟩).fs r =
            some (PathObs.fileObs m1 c1)) := by
  induction F with
  | nil =>
    intro fs evs
    exact ⟨[], by simp [copyFilesFold], by simp, by simp [copyFilesFold]⟩
  | cons f rest ih =>
    intro fs evs
    obtain ⟨n, m1, c1⟩ := f
    rw [copyFilesFold_cons]
    rcases fileStep_cases noFail p n m1 c1 fs evs with ⟨heq, _⟩ |
        ⟨fs2, heq, hsc, hkind⟩ | heq
    · rw [heq]
      obtain ⟨tl, h1, h2, h3⟩ := ih fs evs
      refine ⟨tl, h1, ?_, ?_⟩
      · intro ev hev
        obtain ⟨n2, m2, c2, hmem, hev2⟩ := h2 ev hev
        exact ⟨n2, m2, c2, List.mem_cons_of_mem _ hmem, hev2⟩
      · intro r hr
        obtain ⟨hnd, n2, m2, c2, hmem, hor, hobs⟩ := h3 r hr
        exact ⟨hnd, n2, m2, c2, List.mem_cons_of_mem _ hmem, hor, hobs⟩
    · rw [heq]
      obtain ⟨tl, h1, h2, h3⟩ := ih fs2 (evs ++ [Event.copy (p ++ [n])])
      refine ⟨Event.copy (p ++ [n]) :: tl, ?_, ?_, ?_⟩
      · rw [h1, List.append_assoc]
        rfl
      · intro ev hev
        rcases List.mem_cons.mp hev with hev | hev
        · exact ⟨n, m1, c1, List.mem_cons_self _ _, hev⟩
        · obtain ⟨n2, m2, c2, hmem, hev2⟩ := h2 ev hev
          exact ⟨n2, m2, c2, List.mem_cons_of_mem _ hmem, hev2⟩
      · intro r hr
        rcases hkind with ⟨htgt, hobs⟩ | ⟨hdir, htgt2, hobs⟩
        · -- direct copy at p ++ [n]
          by_cases hch : obs (copyFilesFold noFail p rest
              ⟨fs2, evs ++ [Event.copy (p ++ [n])], none⟩).fs r = obs fs2 r
          · -- the tail fold did not change r: the head step did
            rw [hch]
            rw [hch] at hr
            have hobs_r := hobs r
            by_cases hrt : r = p ++ [n]
            · subst hrt
              rw [if_pos rfl] at hobs_r
              exact ⟨htgt, n, m1, c1, List.mem_cons_self _ _, Or.inl rfl,
                hobs_r⟩
            · rw [if_neg hrt] at hobs_r
              exact absurd hobs_r hr
          · obtain ⟨hnd2, n2, m2, c2, hmem, hor, hobs2⟩ := h3 r hch
            refine ⟨?_, n2, m2, c2, List.mem_cons_of_mem _ hmem, hor, hobs2⟩
            have hobs_r := hobs r
            by_cases hrt : r = p ++ [n]
            · subst hrt
              exact htgt
            · rw [if_neg hrt] at hobs_r
              unfold isDirAtB at hnd2 ⊢
              unfold obs at hobs_r
              cases hl : lookup fs r with
              | none => rfl
              | some e =>
                cases e with
                | file m3 c3 => rfl
                | dir m3 cs3 =>
                  rw [hl] at hobs_r
                  cases hl2 : lookup fs2 r with
                  | none => rw [hl2] at hobs_r; simp at hobs_r
                  | some e2 =>
                    cases e2 with
                    | file m4 c4 => rw [hl2] at hobs_r; simp at hobs_r
                    | dir m4 cs4 => rw [hl2] at hnd2; simp at hnd2
        · -- copy into an existing directory: target p ++ [n] ++ [n]
          by_cases hch : obs (copyFilesFold noFail p rest
              ⟨fs2, evs ++ [Event.copy (p ++ [n])], none⟩).fs r = obs fs2 r
          · rw [hch]
            rw [hch] at hr
            have hobs_r := hobs r
            by_cases hrt : r = p ++ [n] ++ [n]
            · subst hrt
              rw [if_pos rfl] at hobs_r
              exact ⟨htgt2, n, m1, c1, List.mem_cons_self _ _, Or.inr rfl,
                hobs_r⟩
            · rw [if_neg hrt] at hobs_r
              exact absurd hobs_r hr
          · obtain ⟨hnd2, n2, m2, c2, hmem, hor, hobs2⟩ := h3 r hch
            refine ⟨?_, n2, m2, c2, List.mem_cons_of_mem _ hmem, hor, hobs2⟩
            have hobs_r := hobs r
            by_cases hrt : r = p ++ [n] ++ [n]
            · subst hrt
              exact htgt2
            · rw [if_neg hrt] at hobs_r
              unfold isDirAtB at hnd2 ⊢
              unfold obs at hobs_r
              cases hl : lookup fs r with
              | none => rfl
              | some e =>
                cases e with
                | file m3 c3 => rfl
                | dir m3 cs3 =>
                  rw [hl] at hobs_r
                  cases hl2 : lookup fs2 r with
                  | none => rw [hl2] at hobs_r; simp at hobs_r
                  | some e2 =>
                    cases e2 with
                    | file m4 c4 => rw [hl2] at hobs_r; simp at hobs_r
                    | dir m4 cs4 => rw [hl2] at hnd2; simp at hnd2
    · rw [heq]
      rw [copyFilesFold_errsome noFail p rest _ _ rfl]
      exact ⟨[], by simp, by simp, by simp⟩

theorem obs_dirObs_isDirAtB (t : Entry) (p : List String) (m0 : Nat)
    (h : obs t p = some (PathObs.dirObs m0)) : isDirAtB t p = true := by
  rw [isDirAtB_eq_obs]
  exact ⟨m0, h⟩

theorem obs_fileObs_not_dir (t : Entry) (p : List String) (m0 c0 : Nat)
    (h : obs t p = some (PathObs.fileObs m0 c0)) : isDirAtB t p = false := by
  unfold obs at h
  unfold isDirAtB
  cases hl : lookup t p with
  | none => rfl
  | some e =>
    cases e with
    | file m2 c2 => rfl
    | dir m2 cs2 => rw [hl] at h; simp at h

theorem obs_none_not_dir (t : Entry) (p : List String)
    (h : obs t p = none) : isDirAtB t p = false := by
  unfold obs at h
  unfold isDirAtB
  cases hl : lookup t p with
  | none => rfl
  | some e =>
    cases e with
    | file m2 c2 => rfl
    | dir m2 cs2 => rw [hl] at h; simp at h

theorem obs_fileObs_isFileAtB (t : Entry) (p : List String) (m0 c0 : Nat)
    (h : obs t p = some (PathObs.fileObs m0 c0)) : isFileAtB t p = true := by
  rw [isFileAtB_eq_obs]
  exact ⟨m0, c0, h⟩

theorem isDirAtB_obs_dir (t : Entry) (p : List String)
    (h : isDirAtB t p = true) : ∃ m0, obs t p = some (PathObs.dirObs m0) :=
  (isDirAtB_eq_obs t p).mp h

theorem fileStep_dir_preserve (fail : Fail) (p : List String) (n : String)
    (m c : Nat) (fs : Entry) (evs : List Event) (r : List String) (m0 : Nat)
    (h : obs fs r = some (PathObs.dirObs m0)) :
    obs (fileStep fail p (n, m, c) ⟨fs, evs, none⟩).fs r =
      some (PathObs.dirObs m0) := by
  rcases fileStep_cases fail p n m c fs evs with ⟨heq, _⟩ |
      ⟨fs2, heq, _, ⟨htgt, hobs⟩ | ⟨_, htgt2, hobs⟩⟩ | heq
  · rw [heq]
    exact h
  · rw [heq]
    show obs fs2 r = _
    rw [hobs r]
    by_cases hrt : r = p ++ [n]
    · subst hrt
      rw [obs_dirObs_isDirAtB fs _ m0 h] at htgt
      simp at htgt
    · rw [if_neg hrt]
      exact h
  · rw [heq]
    show obs fs2 r = _
    rw [hobs r]
    by_cases hrt : r = p ++ [n] ++ [n]
    · subst hrt
      rw [obs_dirObs_isDirAtB fs _ m0 h] at htgt2
      simp at htgt2
    · rw [if_neg hrt]
      exact h
  · rw [heq]
    exact h

theorem fileStep_notdir_preserve (fail : Fail) (p : List String) (n : String)
    (m c : Nat) (fs : Entry) (evs : List Event) (r : List String)
    (h : isDirAtB fs r = false) :
    isDirAtB (fileStep fail p (n, m, c) ⟨fs, evs, none⟩).fs r = false := by
  rcases fileStep_cases fail p n m c fs evs with ⟨heq, _⟩ |
      ⟨fs2, heq, _, ⟨htgt, hobs⟩ | ⟨_, htgt2, hobs⟩⟩ | heq
  · rw [heq]
    exact h
  · rw [heq]
    show isDirAtB fs2 r = false
    have hobs_r := hobs r
    by_cases hrt : r = p ++ [n]
    · subst hrt
      rw [if_pos rfl] at hobs_r
      exact obs_fileObs_not_dir fs2 _ m c hobs_r
    · rw [if_neg hrt] at hobs_r
      unfold isDirAtB
      unfold obs at hobs_r
      cases hl2 : lookup fs2 r with
      | none => rfl
      | some e2 =>
        cases e2 with
        | file m4 c4 => rfl
        | dir m4 cs4 =>
          rw [hl2] at hobs_r
          unfold isDirAtB at h
          cases hl : lookup fs r with
          | none => rw [hl] at hobs_r; simp at hobs_r
          | some e =>
            cases e with
            | file m3 c3 => rw [hl] at hobs_r; simp at hobs_r
            | dir m3 cs3 => rw [hl] at h; simp at h
  · rw [heq]
    show isDirAtB fs2 r = false
    have hobs_r := hobs r
    by_cases hrt : r = p ++ [n] ++ [n]
    · subst hrt
      rw [if_pos rfl] at hobs_r
      exact obs_fileObs_not_dir fs2 _ m c hobs_r
    · rw [if_neg hrt] at hobs_r
      unfold isDirAtB
      unfold obs at hobs_r
      cases hl2 : lookup fs2 r with
      | none => rfl
      | some e2 =>
        cases e2 with
        | file m4 c4 => rfl
        | dir m4 cs4 =>
          rw [hl2] at hobs_r
          unfold isDirAtB at h
          cases hl : lookup fs r with
          | none => rw [hl] at hobs_r; simp at hobs_r
          | some e =>
            cases e with
            | file m3 c3 => rw [hl] at hobs_r; simp at hobs_r
            | dir m3 cs3 => rw [hl] at h; simp at h
  · rw [heq]
    exact h

theorem copyFilesFold_noop (p : List String) (F : List (String × Nat × Nat)) :
    ∀ fs evs, (∀ n m1 c1, (n, m1, c1) ∈ F → shouldCopy fs (p ++ [n]) m1 = false) →
    copyFilesFold noFail p F ⟨fs, evs, none⟩ = ⟨fs, evs, none⟩ := by
  induction F with
  | nil => intro fs evs _; rfl
  | cons f rest ih =>
    intro fs evs h
    obtain ⟨n, m1, c1⟩ := f
    rw [copyFilesFold_cons,
      fileStep_noCopy noFail p n m1 c1 fs evs
        (h n m1 c1 (List.mem_cons_self _ _))]
    exact ih fs evs (fun n2 m2 c2 hm => h n2 m2 c2 (List.mem_cons_of_mem _ hm))

theorem copyFilesFold_ok (p : List String) (F : List (String × Nat × Nat)) :
    ∀ fs evs, isDirAtB fs p = true →
    (∀ n m1 c1, (n, m1, c1) ∈ F → isDirAtB fs (p ++ [n]) = false) →
    (copyFilesFold noFail p F ⟨fs, evs, none⟩).err = none := by
  induction F with
  | nil => intro fs evs _ _; rfl
  | cons f rest ih =>
    intro fs evs hpar htg
    obtain ⟨n, m1, c1⟩ := f
    rw [copyFilesFold_cons]
    have hok := fileStep_ok p n m1 c1 fs evs hpar
      (htg n m1 c1 (List.mem_cons_self _ _))
    rcases fileStep_cases noFail p n m1 c1 fs evs with ⟨heq, _⟩ |
        ⟨fs2, heq, _, hkind⟩ | heq
    · rw [heq]
      exact ih fs evs hpar (fun n2 m2 c2 hm => htg n2 m2 c2 (List.mem_cons_of_mem _ hm))
    · rw [heq]
      obtain ⟨m0, hp0⟩ := isDirAtB_obs_dir fs p hpar
      have hpar2 : isDirAtB fs2 p = true := by
        have := fileStep_dir_preserve noFail p n m1 c1 fs evs p m0 hp0
        rw [heq] at this
        exact obs_dirObs_isDirAtB fs2 p m0 this
      have htg2 : ∀ n2 m2 c2, (n2, m2, c2) ∈ rest →
          isDirAtB fs2 (p ++ [n2]) = false := by
        intro n2 m2 c2 hm
        have := fileStep_notdir_preserve noFail p n m1 c1 fs evs (p ++ [n2])
          (htg n2 m2 c2 (List.mem_cons_of_mem _ hm))
        rw [heq] at this
        exact this
      exact ih fs2 (evs ++ [Event.copy (p ++ [n])]) hpar2 htg2
    · rw [heq] at hok
      cases hok

theorem copyFilesFold_complete (p : List String) (F : List (String × Nat × Nat)) :
    ∀ fs evs, (F.map Prod.fst).Nodup →
    (∀ n m1 c1, (n, m1, c1) ∈ F → isDirAtB fs (p ++ [n]) = false) →
    (copyFilesFold noFail p F ⟨fs, evs, none⟩).err = none →
    ∀ n m1 c1, (n, m1, c1) ∈ F →
      ∃ c2, obs (copyFilesFold noFail p F ⟨fs, evs, none⟩).fs (p ++ [n]) =
        some (PathObs.fileObs m1 c2) := by
  induction F with
  | nil => intro fs evs _ _ _ n m1 c1 hm; simp at hm
  | cons f rest ih =>
    intro fs evs hnd htg herr n m1 c1 hm
    obtain ⟨nh, mh, ch⟩ := f
    rw [copyFilesFold_cons] at herr ⊢
    have hnd2 : (rest.map Prod.fst).Nodup := by
      simp only [List.map_cons, List.nodup_cons] at hnd
      exact hnd.2
    have hnh : nh ∉ rest.map Prod.fst := by
      simp only [List.map_cons, List.nodup_cons] at hnd
      exact hnd.1
    rcases fileStep_cases noFail p nh mh ch fs evs with ⟨heq, hsc⟩ |
        ⟨fs2, heq, _, hkind⟩ | heq
    · rw [heq] at herr ⊢
      rcases List.mem_cons.mp hm with hm1 | hm1
      · -- the head file: it was already in sync
        injection hm1 with h1 h2
        subst h1
        injection h2 with h2a h2b
        subst h2a
        obtain ⟨c2, hobs⟩ := shouldCopy_false_obs fs (p ++ [n]) m1 hsc
          (htg n m1 c1 hm)
        -- the tail fold leaves p ++ [n] unchanged
        obtain ⟨tl, _, _, hchg⟩ := copyFilesFold_spec p rest fs evs
        by_cases hc : obs (copyFilesFold noFail p rest ⟨fs, evs, none⟩).fs
            (p ++ [n]) = obs fs (p ++ [n])
        · exact ⟨c2, by rw [hc, hobs]⟩
        · obtain ⟨_, n2, m2, c2x, hm2, hor, _⟩ := hchg (p ++ [n]) hc
          exfalso
          rcases hor with hor | hor
          · have : n2 = n := by
              have h4 := List.append_inj_right hor (by rfl)
              injection h4 with h5 h6
              exact h5.symm
            subst this
            exact hnh (List.mem_map.mpr ⟨(n2, m2, c2x), hm2, rfl⟩)
          · have hlen := congrArg List.length hor
            simp at hlen
      · exact ih fs evs hnd2
          (fun n2 m2 c2 hm2 => htg n2 m2 c2 (List.mem_cons_of_mem _ hm2))
          herr n m1 c1 hm1
    · rw [heq] at herr ⊢
      rcases hkind with ⟨htgt, hobs⟩ | ⟨hdir, _, _⟩
      swap
      · exact absurd hdir (by simp [htg nh mh ch (List.mem_cons_self _ _)])
      rcases List.mem_cons.mp hm with hm1 | hm1
      · injection hm1 with h1 h2
        subst h1
        injection h2 with h2a h2b
        subst h2a
        subst h2b
        -- the head file was copied: fs2 has it with the source metadata
        have hafter : obs fs2 (p ++ [n]) = some (PathObs.fileObs m1 c1) := by
          rw [hobs (p ++ [n]), if_pos rfl]
        obtain ⟨tl, _, _, hchg⟩ :=
          copyFilesFold_spec p rest fs2 (evs ++ [Event.copy (p ++ [n])])
        by_cases hc : obs (copyFilesFold noFail p rest
            ⟨fs2, evs ++ [Event.copy (p ++ [n])], none⟩).fs (p ++ [n]) =
            obs fs2 (p ++ [n])
        · exact ⟨c1, by rw [hc, hafter]⟩
        · obtain ⟨_, n2, m2, c2x, hm2, hor, _⟩ := hchg (p ++ [n]) hc
          exfalso
          rcases hor with hor | hor
          · have : n2 = n := by
              have h4 := List.append_inj_right hor (by rfl)
              injection h4 with h5 h6
              exact h5.symm
            subst this
            exact hnh (List.mem_map.mpr ⟨(n2, m2, c2x), hm2, rfl⟩)
          · have hlen := congrArg List.length hor
            simp at hlen
      · have htg2 : ∀ n2 m2 c2, (n2, m2, c2) ∈ rest →
            isDirAtB fs2 (p ++ [n2]) = false := by
          intro n2 m2 c2 hm2
          have := fileStep_notdir_preserve noFail p nh mh ch fs evs (p ++ [n2])
            (htg n2 m2 c2 (List.mem_cons_of_mem _ hm2))
          rw [heq] at this
          exact this
        exact ih fs2 (evs ++ [Event.copy (p ++ [nh])]) hnd2 htg2 herr n m1 c1 hm1
    · rw [heq] at herr
      rw [copyFilesFold_errsome noFail p rest _ _ rfl] at herr
      cases herr

/-! ## Path and listing helpers -/

theorem prefix_proper_decomp (r p : List String) (h : r <+: p) (hne : r ≠ p) :
    ∃ n rest2, p = r ++ n :: rest2 := by
  obtain ⟨t, ht⟩ := h
  cases t with
  | nil => exact absurd (by rw [← ht]; simp) hne
  | cons n rest2 => exact ⟨n, rest2, ht.symm⟩

theorem existsP_proper_dir (t : Entry) (p r : List String)
    (hex : existsP t p = true) (h : r <+: p) (hne : r ≠ p) :
    isDirAtB t r = true := by
  obtain ⟨n, rest2, hp⟩ := prefix_proper_decomp r p h hne
  subst hp
  exact isDirAtB_of_append t r n rest2 hex

theorem lookupChild_of_mem_nodup (cs : List (String × Entry)) (n : String)
    (e : Entry) (hnd : (cs.map Prod.fst).Nodup) (hm : (n, e) ∈ cs) :
    lookupChild cs n = some e := by
  induction cs with
  | nil => simp at hm
  | cons hd rest ih =>
    obtain ⟨m, x⟩ := hd
    simp only [List.map_cons, List.nodup_cons] at hnd
    rcases List.mem_cons.mp hm with hm1 | hm1
    · injection hm1 with h1 h2
      subst h1
      subst h2
      simp [lookupChild]
    · have hne : ¬ m = n := by
        intro hc
        subst hc
        exact hnd.1 (List.mem_map.mpr ⟨(m, e), hm1, rfl⟩)
      simp only [lookupChild, if_neg hne]
      exact ih hnd.2 hm1

theorem filesOf_mem (cs : List (String × Entry)) (n : String) (m c : Nat) :
    (n, m, c) ∈ filesOf cs ↔ (n, Entry.file m c) ∈ cs := by
  induction cs with
  | nil => simp [filesOf]
  | cons hd rest ih =>
    obtain ⟨n2, e2⟩ := hd
    cases e2 with
    | file m2 c2 =>
      simp only [filesOf, List.mem_cons, ih]
      constructor
      · rintro (h | h)
        · injection h with h1 h2
          subst h1
          injection h2 with h2a h2b
          subst h2a
          subst h2b
          exact Or.inl rfl
        · exact Or.inr h
      · rintro (h | h)
        · injection h with h1 h2
          subst h1
          injection h2 with h2a h2b
          subst h2a
          subst h2b
          exact Or.inl rfl
        · exact Or.inr h
    | dir m2 cs2 =>
      simp only [filesOf, ih, List.mem_cons]
      constructor
      · exact fun h => Or.inr h
      · rintro (h | h)
        · cases h
        · exact h

theorem filesOf_names_sublist (cs : List (String × Entry)) :
    List.Sublist ((filesOf cs).map Prod.fst) (cs.map Prod.fst) := by
  induction cs with
  | nil => exact List.Sublist.refl _
  | cons hd rest ih =>
    obtain ⟨n2, e2⟩ := hd
    cases e2 with
    | file m2 c2 => exact List.Sublist.cons₂ _ ih
    | dir m2 cs2 => exact List.Sublist.cons _ ih

theorem dirNamesOf_mem (cs : List (String × Entry)) (n : String) :
    n ∈ dirNamesOf cs ↔ ∃ m2 cs2, (n, Entry.dir m2 cs2) ∈ cs := by
  induction cs with
  | nil => simp [dirNamesOf]
  | cons hd rest ih =>
    obtain ⟨n2, e2⟩ := hd
    cases e2 with
    | file m2 c2 =>
      simp only [dirNamesOf, ih, List.mem_cons]
      constructor
      · rintro ⟨m3, cs3, h⟩
        exact ⟨m3, cs3, Or.inr h⟩
      · rintro ⟨m3, cs3, h | h⟩
        · cases h
        · exact ⟨m3, cs3, h⟩
    | dir m2 cs2 =>
      simp only [dirNamesOf, List.mem_cons, ih]
      constructor
      · rintro (h | ⟨m3, cs3, h⟩)
        · subst h
          exact ⟨m2, cs2, Or.inl rfl⟩
        · exact ⟨m3, cs3, Or.inr h⟩
      · rintro ⟨m3, cs3, h | h⟩
        · injection h with h1 h2
          subst h1
          exact Or.inl rfl
        · exact Or.inr ⟨m3, cs3, h⟩

theorem fileNamesOf_mem (cs : List (String × Entry)) (n : String) :
    n ∈ fileNamesOf cs ↔ ∃ m2 c2, (n, Entry.file m2 c2) ∈ cs := by
  induction cs with
  | nil => simp [fileNamesOf]
  | cons hd rest ih =>
    obtain ⟨n2, e2⟩ := hd
    cases e2 with
    | file m2 c2 =>
      simp only [fileNamesOf, List.mem_cons, ih]
      constructor
      · rintro (h | ⟨m3, c3, h⟩)
        · subst h
          exact ⟨m2, c2, Or.inl rfl⟩
        · exact ⟨m3, c3, Or.inr h⟩
      · rintro ⟨m3, c3, h | h⟩
        · injection h with h1 h2
          subst h1
          exact Or.inl rfl
        · exact Or.inr ⟨m3, c3, h⟩
    | dir m2 cs2 =>
      simp only [fileNamesOf, ih, List.mem_cons]
      constructor
      · rintro ⟨m3, cs3, h⟩
        exact ⟨m3, cs3, Or.inr h⟩
      · rintro ⟨m3, cs3, h | h⟩
        · cases h
        · exact ⟨m3, cs3, h⟩

theorem dirStep_obs_preserve (fail : Fail) (p : List String) (fs : Entry)
    (evs : List Event) (r : List String) (o : PathObs)
    (h : obs fs r = some o) :
    obs (dirStep fail p ⟨fs, evs, none⟩).fs r = some o := by
  rcases dirStep_cases fail p fs evs with ⟨heq, _⟩ | ⟨fs2, heq, _, hobs⟩ |
      ⟨heq, _⟩
  · rw [heq]
    exact h
  · rw [heq]
    show obs fs2 r = _
    rw [hobs r, if_neg (fun hc => by rw [h] at hc; cases hc.2)]
    exact h
  · rw [heq]
    exact h

theorem obs_kind_eq (t1 t2 : Entry) (r : List String)
    (h : obs t1 r = obs t2 r) : isDirAtB t1 r = isDirAtB t2 r := by
  unfold isDirAtB
  unfold obs at h
  cases h1 : lookup t1 r with
  | none =>
    rw [h1] at h
    cases h2 : lookup t2 r with
    | none => rfl
    | some e2 =>
      rw [h2] at h
      cases e2 <;> simp at h
  | some e1 =>
    rw [h1] at h
    cases h2 : lookup t2 r with
    | none =>
      rw [h2] at h
      cases e1 <;> simp at h
    | some e2 =>
      rw [h2] at h
      cases e1 <;> cases e2 <;> first | rfl | simp_all

theorem copyFilesFold_changes_nodir (p : List String)
    (F : List (String × Nat × Nat)) :
    ∀ fs evs, (∀ n m1 c1, (n, m1, c1) ∈ F → isDirAtB fs (p ++ [n]) = false) →
    ∀ r, obs (copyFilesFold noFail p F ⟨fs, evs, none⟩).fs r ≠ obs fs r →
      isDirAtB fs r = false ∧
      ∃ n m1 c1, (n, m1, c1) ∈ F ∧ r = p ++ [n] ∧
        obs (copyFilesFold noFail p F ⟨fs, evs, none⟩).fs r =
          some (PathObs.fileObs m1 c1) := by
  induction F with
  | nil =>
    intro fs evs _ r hr
    exact absurd rfl hr
  | cons f rest ih =>
    intro fs evs htg r hr
    obtain ⟨n, m1, c1⟩ := f
    rw [copyFilesFold_cons] at hr ⊢
    rcases fileStep_cases noFail p n m1 c1 fs evs with ⟨heq, _⟩ |
        ⟨fs2, heq, _, hkind⟩ | heq
    · rw [heq] at hr ⊢
      obtain ⟨hnd, n2, m2, c2, hm2, hrt, hobs⟩ := ih fs evs
        (fun n2 m2 c2 hm => htg n2 m2 c2 (List.mem_cons_of_mem _ hm)) r hr
      exact ⟨hnd, n2, m2, c2, List.mem_cons_of_mem _ hm2, hrt, hobs⟩
    · rcases hkind with ⟨htgt, hobs⟩ | ⟨hdir, _, _⟩
      swap
      · exact absurd hdir (by simp [htg n m1 c1 (List.mem_cons_self _ _)])
      rw [heq] at hr ⊢
      have htg2 : ∀ n2 m2 c2, (n2, m2, c2) ∈ rest →
          isDirAtB fs2 (p ++ [n2]) = false := by
        intro n2 m2 c2 hm
        have := fileStep_notdir_preserve noFail p n m1 c1 fs evs (p ++ [n2])
          (htg n2 m2 c2 (List.mem_cons_of_mem _ hm))
        rw [heq] at this
        exact this
      by_cases hch : obs (copyFilesFold noFail p rest
          ⟨fs2, evs ++ [Event.copy (p ++ [n])], none⟩).fs r = obs fs2 r
      · rw [hch] at hr ⊢
        have hobs_r := hobs r
        by_cases hrt : r = p ++ [n]
        · subst hrt
          rw [if_pos rfl] at hobs_r
          exact ⟨htgt, n, m1, c1, List.mem_cons_self _ _, rfl, hobs_r⟩
        · rw [if_neg hrt] at hobs_r
          exact absurd hobs_r hr
      · obtain ⟨hnd2, n2, m2, c2, hm2, hrt, hobs2⟩ := ih fs2
          (evs ++ [Event.copy (p ++ [n])]) htg2 r hch
        refine ⟨?_, n2, m2, c2, List.mem_cons_of_mem _ hm2, hrt, hobs2⟩
        subst hrt
        have hobs_r := hobs (p ++ [n2])
        by_cases hrt2 : p ++ [n2] = p ++ [n]
        · rw [hrt2]
          exact htgt
        · rw [if_neg hrt2] at hobs_r
          rw [← obs_kind_eq fs2 fs (p ++ [n2]) hobs_r]
          exact hnd2
    · rw [heq] at hr ⊢
      rw [copyFilesFold_errsome noFail p rest _ _ rfl] at hr ⊢
      exact absurd rfl hr

theorem copyFilesFold_keep (p : List String) (F : List (String × Nat × Nat)) :
    ∀ fs evs (r : List String) (m c : Nat),
    obs fs r = some (PathObs.fileObs m c) →
    (∀ n m1 c1, (n, m1, c1) ∈ F →
      (r = p ++ [n] → m1 = m) ∧ isDirAtB fs (p ++ [n]) = false) →
    obs (copyFilesFold noFail p F ⟨fs, evs, none⟩).fs r =
      some (PathObs.fileObs m c) := by
  induction F with
  | nil =>
    intro fs evs r m c h _
    exact h
  | cons f rest ih =>
    intro fs evs r m c h hside
    obtain ⟨n, m1, c1⟩ := f
    rw [copyFilesFold_cons]
    have hstep : obs (fileStep noFail p (n, m1, c1) ⟨fs, evs, none⟩).fs r =
        some (PathObs.fileObs m c) := by
      rcases fileStep_cases noFail p n m1 c1 fs evs with ⟨heq, _⟩ |
          ⟨fs2, heq, hsc, hkind⟩ | heq
      · rw [heq]
        exact h
      · rw [heq]
        show obs fs2 r = _
        rcases hkind with ⟨htgt, hobs⟩ | ⟨hdir, htgt2, hobs⟩
        · rw [hobs r]
          by_cases hrt : r = p ++ [n]
          · subst hrt
            have hm1 : m1 = m :=
              (hside n m1 c1 (List.mem_cons_self _ _)).1 rfl
            subst hm1
            unfold shouldCopy at hsc
            unfold obs at h
            cases hl : lookup fs (p ++ [n]) with
            | none => rw [hl] at h; cases h
            | some e =>
              cases e with
              | dir m3 cs3 => rw [hl] at h; cases h
              | file m3 c3 =>
                rw [hl] at h hsc
                injection h with h2
                injection h2 with h3 h4
                subst h3
                simp [Entry.mtime] at hsc
          · rw [if_neg hrt]
            exact h
        · exact absurd hdir
            (by simp [(hside n m1 c1 (List.mem_cons_self _ _)).2])
      · rw [heq]
        exact h
    have hside2 : ∀ n2 m2 c2, (n2, m2, c2) ∈ rest →
        (r = p ++ [n2] → m2 = m) ∧
        isDirAtB (fileStep noFail p (n, m1, c1) ⟨fs, evs, none⟩).fs
          (p ++ [n2]) = false := by
      intro n2 m2 c2 hm
      refine ⟨(hside n2 m2 c2 (List.mem_cons_of_mem _ hm)).1, ?_⟩
      exact fileStep_notdir_preserve noFail p n m1 c1 fs evs (p ++ [n2])
        (hside n2 m2 c2 (List.mem_cons_of_mem _ hm)).2
    rcases hcase : fileStep noFail p (n, m1, c1) ⟨fs, evs, none⟩ with ⟨fs3, evs3, err3⟩
    rw [hcase] at hstep hside2
    cases err3 with
    | none =>
      exact ih fs3 evs3 r m c hstep hside2
    | some e =>
      rw [copyFilesFold_errsome noFail p rest _ e rfl]
      exact hstep

/-! ## Event kinds emitted by each phase -/

theorem dirStep_evs (fail : Fail) (p : List String) (acc : Out) :
    ∃ tl, (dirStep fail p acc).evs = acc.evs ++ tl ∧
      ∀ ev, ev ∈ tl → ev.isMkdir = true := by
  cases herr : acc.err with
  | some e =>
    rw [dirStep_errsome fail p acc e herr]
    exact ⟨[], by simp, by simp⟩
  | none =>
    unfold dirStep
    rw [Out.bind_none _ _ herr]
    by_cases hex : existsP acc.fs p
    · rw [if_pos hex]
      exact ⟨[], by simp, by simp⟩
    · rw [if_neg hex]
      by_cases hf : fail OpKind.mkdirOp p
      · rw [if_pos hf]
        exact ⟨[], by simp, by simp⟩
      · rw [if_neg hf]
        cases hmk : makedirs acc.fs p with
        | ok fs2 =>
          exact ⟨[Event.mkdir p], by simp, by
            intro ev hev
            rw [List.mem_singleton.mp hev]
            rfl⟩
        | error e =>
          exact ⟨[], by simp, by simp⟩

theorem fileStep_evs (fail : Fail) (p : List String) (f : String × Nat × Nat)
    (acc : Out) :
    ∃ tl, (fileStep fail p f acc).evs = acc.evs ++ tl ∧
      ∀ ev, ev ∈ tl → ev.isCopy = true := by
  cases herr : acc.err with
  | some e =>
    rw [fileStep_errsome fail p f acc e herr]
    exact ⟨[], by simp, by simp⟩
  | none =>
    obtain ⟨fs, evs, err⟩ := acc
    cases herr
    obtain ⟨n, m, c⟩ := f
    rcases fileStep_cases fail p n m c fs evs with ⟨heq, _⟩ |
        ⟨fs2, heq, _, _⟩ | heq
    · rw [heq]
      exact ⟨[], by simp, by simp⟩
    · rw [heq]
      exact ⟨[Event.copy (p ++ [n])], by simp, by
        intro ev hev
        rw [List.mem_singleton.mp hev]
        rfl⟩
    · rw [heq]
      exact ⟨[], by simp, by simp⟩

theorem copyFilesFold_evs (fail : Fail) (p : List String)
    (F : List (String × Nat × Nat)) :
    ∀ acc, ∃ tl, (copyFilesFold fail p F acc).evs = acc.evs ++ tl ∧
      ∀ ev, ev ∈ tl → ev.isCopy = true := by
  induction F with
  | nil => intro acc; exact ⟨[], by simp [copyFilesFold], by simp⟩
  | cons f rest ih =>
    intro acc
    rw [copyFilesFold_cons]
    obtain ⟨tl1, h1, h2⟩ := fileStep_evs fail p f acc
    obtain ⟨tl2, h3, h4⟩ := ih (fileStep fail p f acc)
    refine ⟨tl1 ++ tl2, ?_, ?_⟩
    · rw [h3, h1, List.append_assoc]
    · intro ev hev
      rcases List.mem_append.mp hev with hev | hev
      · exact h2 ev hev
      · exact h4 ev hev

theorem phase1StepsAt_evs (fail : Fail) (p : List String)
    (cs : List (String × Entry)) (acc : Out) :
    ∃ tl, (phase1StepsAt fail p cs acc).evs = acc.evs ++ tl ∧
      ∀ ev, ev ∈ tl → ev.isMkdir = true ∨ ev.isCopy = true := by
  unfold phase1StepsAt
  obtain ⟨tl1, h1, h2⟩ := dirStep_evs fail p acc
  obtain ⟨tl2, h3, h4⟩ := copyFilesFold_evs fail p (filesOf cs) (dirStep fail p acc)
  refine ⟨tl1 ++ tl2, ?_, ?_⟩
  · rw [h3, h1, List.append_assoc]
  · intro ev hev
    rcases List.mem_append.mp hev with hev | hev
    · exact Or.inl (h2 ev hev)
    · exact Or.inr (h4 ev hev)

theorem phase1Subs_evs (fail : Fail) :
    ∀ (p : List String) (l : List (String × Entry)) (acc : Out),
    ∃ tl, (phase1Subs fail p l acc).evs = acc.evs ++ tl ∧
      ∀ ev, ev ∈ tl → ev.isMkdir = true ∨ ev.isCopy = true := by
  intro p l acc
  induction p, l, acc using phase1Subs.induct fail with
  | case1 p acc => exact ⟨[], by rw [phase1Subs_nil]; simp, by simp⟩
  | case2 p acc n m c rest ih =>
    rw [phase1Subs_file]
    exact ih
  | case3 p acc n m cs rest ih1 ih2 =>
    rw [phase1Subs_dir]
    unfold phase1At
    obtain ⟨tl0, h0, h0k⟩ := phase1StepsAt_evs fail (p ++ [n]) cs acc
    obtain ⟨tl1, h1, h1k⟩ := ih1
    obtain ⟨tl2, h2, h2k⟩ := ih2
    refine ⟨tl0 ++ tl1 ++ tl2, ?_, ?_⟩
    · rw [h2, h1, h0]
      simp [List.append_assoc]
    · intro ev hev
      rcases List.mem_append.mp hev with hev | hev
      · rcases List.mem_append.mp hev with hev | hev
        · exact h0k ev hev
        · exact h1k ev hev
      · exact h2k ev hev

theorem rmFileStep_evs (fail : Fail) (S : Entry) (p : List String) (n : String)
    (acc : Out) :
    ∃ tl, (rmFileStep fail S p n acc).evs = acc.evs ++ tl ∧
      ∀ ev, ev ∈ tl → ev.isRmFile = true := by
  cases herr : acc.err with
  | some e =>
    rw [rmFileStep_errsome fail S p n acc e herr]
    exact ⟨[], by simp, by simp⟩
  | none =>
    obtain ⟨fs, evs, err⟩ := acc
    cases herr
    rcases rmFileStep_cases fail S p n fs evs with ⟨heq, _⟩ | ⟨heq, _⟩ | ⟨heq, _⟩
    · rw [heq]
      exact ⟨[], by simp, by simp⟩
    · rw [heq]
      exact ⟨[Event.rmFile (p ++ [n])], by simp, by
        intro ev hev
        rw [List.mem_singleton.mp hev]
        rfl⟩
    · rw [heq]
      exact ⟨[], by simp, by simp⟩

theorem rmDirStep_evs (fail : Fail) (S : Entry) (p : List String) (n : String)
    (acc : Out) :
    ∃ tl, (rmDirStep fail S p n acc).evs = acc.evs ++ tl ∧
      ∀ ev, ev ∈ tl → ev.isRmDir = true := by
  cases herr : acc.err with
  | some e =>
    rw [rmDirStep_errsome fail S p n acc e herr]
    exact ⟨[], by simp, by simp⟩
  | none =>
    obtain ⟨fs, evs, err⟩ := acc
    cases herr
    rcases rmDirStep_cases fail S p n fs evs with ⟨heq, _⟩ | ⟨heq, _⟩ | ⟨heq, _⟩
    · rw [heq]
      exact ⟨[], by simp, by simp⟩
    · rw [heq]
      exact ⟨[Event.rmDir (p ++ [n])], by simp, by
        intro ev hev
        rw [List.mem_singleton.mp hev]
        rfl⟩
    · rw [heq]
      exact ⟨[], by simp, by simp⟩

theorem rmFilesFold_evs (fail : Fail) (S : Entry) (p : List String)
    (ns : List String) :
    ∀ acc, ∃ tl, (rmFilesFold fail S p ns acc).evs = acc.evs ++ tl ∧
      ∀ ev, ev ∈ tl → ev.isRmFile = true := by
  induction ns with
  | nil => intro acc; exact ⟨[], by simp [rmFilesFold], by simp⟩
  | cons n rest ih =>
    intro acc
    show ∃ tl, (rmFilesFold fail S p rest (rmFileStep fail S p n acc)).evs = _ ∧ _
    obtain ⟨tl1, h1, h2⟩ := rmFileStep_evs fail S p n acc
    obtain ⟨tl2, h3, h4⟩ := ih (rmFileStep fail S p n acc)
    refine ⟨tl1 ++ tl2, ?_, ?_⟩
    · rw [h3, h1, List.append_assoc]
    · intro ev hev
      rcases List.mem_append.mp hev with hev | hev
      · exact h2 ev hev
      · exact h4 ev hev

theorem rmDirsFold_evs (fail : Fail) (S : Entry) (p : List String)
    (ns : List String) :
    ∀ acc, ∃ tl, (rmDirsFold fail S p ns acc).evs = acc.evs ++ tl ∧
      ∀ ev, ev ∈ tl → ev.isRmDir = true := by
  induction ns with
  | nil => intro acc; exact ⟨[], by simp [rmDirsFold], by simp⟩
  | cons n rest ih =>
    intro acc
    show ∃ tl, (rmDirsFold fail S p rest (rmDirStep fail S p n acc)).evs = _ ∧ _
    obtain ⟨tl1, h1, h2⟩ := rmDirStep_evs fail S p n acc
    obtain ⟨tl2, h3, h4⟩ := ih (rmDirStep fail S p n acc)
    refine ⟨tl1 ++ tl2, ?_, ?_⟩
    · rw [h3, h1, List.append_assoc]
    · intro ev hev
      rcases List.mem_append.mp hev with hev | hev
      · exact h2 ev hev
      · exact h4 ev hev

theorem phase2StepsAt_evs (fail : Fail) (S : Entry) (p : List String)
    (cs : List (String × Entry)) (acc : Out) :
    ∃ tl, (phase2StepsAt fail S p cs acc).evs = acc.evs ++ tl ∧
      ∀ ev, ev ∈ tl → ev.isRmFile = true ∨ ev.isRmDir = true := by
  cases herr : acc.err with
  | some e =>
    rw [phase2StepsAt_errsome fail S p cs acc e herr]
    exact ⟨[], by simp, by simp⟩
  | none =>
    unfold phase2StepsAt
    rw [Out.bind_none _ _ herr]
    by_cases hex : existsP acc.fs p
    · rw [if_pos hex]
      obtain ⟨tl1, h1, h2⟩ :=
        rmFilesFold_evs fail S p (fileNamesOf cs) ⟨acc.fs, acc.evs, none⟩
      obtain ⟨tl2, h3, h4⟩ := rmDirsFold_evs fail S p (dirNamesOf cs)
        (rmFilesFold fail S p (fileNamesOf cs) ⟨acc.fs, acc.evs, none⟩)
      refine ⟨tl1 ++ tl2, ?_, ?_⟩
      · rw [h3, h1]
        simp [List.append_assoc]
      · intro ev hev
        rcases List.mem_append.mp hev with hev | hev
        · exact Or.inl (h2 ev hev)
        · exact Or.inr (h4 ev hev)
    · rw [if_neg hex]
      exact ⟨[], by simp, by simp⟩

theorem phase2Subs_evs (fail : Fail) (S : Entry) :
    ∀ (p : List String) (l : List (String × Entry)) (acc : Out),
    ∃ tl, (phase2Subs fail S p l acc).evs = acc.evs ++ tl ∧
      ∀ ev, ev ∈ tl → ev.isRmFile = true ∨ ev.isRmDir = true := by
  intro p l acc
  induction p, l, acc using phase2Subs.induct fail S with
  | case1 p acc => exact ⟨[], by rw [phase2Subs_nil]; simp, by simp⟩
  | case2 p acc n m c rest ih =>
    rw [phase2Subs_file]
    exact ih
  | case3 p acc n m cs rest ih1 ih2 =>
    rw [phase2Subs_dir]
    unfold phase2At
    obtain ⟨tl0, h0, h0k⟩ := phase2StepsAt_evs fail S (p ++ [n]) cs acc
    obtain ⟨tl1, h1, h1k⟩ := ih1
    obtain ⟨tl2, h2, h2k⟩ := ih2
    refine ⟨tl0 ++ tl1 ++ tl2, ?_, ?_⟩
    · rw [h2, h1, h0]
      simp [List.append_assoc]
    · intro ev hev
      rcases List.mem_append.mp hev with hev | hev
      · rcases List.mem_append.mp hev with hev | hev
        · exact h0k ev hev
        · exact h1k ev hev
      · exact h2k ev hev

/-! ## The propagation visit of one source directory -/

theorem noClash_file_false (S t : Entry) (hnc : noClash S t) (r : List String)
    (h : isDirAtB S r = true) : isFileAtB t r = false := by
  cases hfb : isFileAtB t r
  · rfl
  · exact absurd ⟨h, hfb⟩ (hnc r).1

theorem noClash_dir_false (S t : Entry) (hnc : noClash S t) (r : List String)
    (h : isFileAtB S r = true) : isDirAtB t r = false := by
  cases hfb : isDirAtB t r
  · rfl
  · exact absurd ⟨h, hfb⟩ (hnc r).2

theorem exists_not_file_dir (t : Entry) (r : List String)
    (hex : existsP t r = true) (hnf : isFileAtB t r = false) :
    isDirAtB t r = true := by
  rw [existsP_eq_obs] at hex
  cases ho : obs t r with
  | none => rw [ho] at hex; simp at hex
  | some o =>
    cases o with
    | fileObs m0 c0 =>
      rw [obs_fileObs_isFileAtB t r m0 c0 ho] at hnf
      cases hnf
    | dirObs m0 => exact obs_dirObs_isDirAtB t r m0 ho

theorem existsP_prefix (t : Entry) (p r : List String) (hex : existsP t p = true)
    (h : r <+: p) : existsP t r = true := by
  obtain ⟨t2, ht⟩ := h
  subst ht
  exact existsP_of_append t r t2 hex

theorem phase1StepsAt_spec (S : Entry) (hwfS : wfE S = true) (p2 : List String)
    (ms : Nat) (cs : List (String × Entry))
    (hsub : lookup S p2 = some (Entry.dir ms cs))
    (fs : Entry) (evs : List Event)
    (hnc : noClash S fs)
    (hanc : ∀ r, r <+: p2 → r ≠ p2 → existsP fs r = true) :
    (phase1StepsAt noFail p2 cs ⟨fs, evs, none⟩).err = none ∧
    isDirAtB (phase1StepsAt noFail p2 cs ⟨fs, evs, none⟩).fs p2 = true ∧
    (∀ r, obs (phase1StepsAt noFail p2 cs ⟨fs, evs, none⟩).fs r ≠ obs fs r →
      (r = p2 ∧ obs fs r = none ∧
        obs (phase1StepsAt noFail p2 cs ⟨fs, evs, none⟩).fs r =
          some (PathObs.dirObs 0)) ∨
      (∃ n m1 c1, (n, Entry.file m1 c1) ∈ cs ∧ r = p2 ++ [n] ∧
        isDirAtB fs r = false ∧
        obs (phase1StepsAt noFail p2 cs ⟨fs, evs, none⟩).fs r =
          some (PathObs.fileObs m1 c1))) ∧
    (∀ n m1 c1, (n, Entry.file m1 c1) ∈ cs →
      ∃ c2, obs (phase1StepsAt noFail p2 cs ⟨fs, evs, none⟩).fs (p2 ++ [n]) =
        some (PathObs.fileObs m1 c2)) := by
  have hwfsub : wfE (Entry.dir ms cs) = true := wf_lookup S _ p2 hwfS hsub
  have hnd : (cs.map Prod.fst).Nodup := wfE_dir_nodup ms cs hwfsub
  have hsdir : isDirAtB S p2 = true := by
    unfold isDirAtB
    rw [hsub]
  have hsrcfile : ∀ n m1 c1, (n, Entry.file m1 c1) ∈ cs →
      lookup S (p2 ++ [n]) = some (Entry.file m1 c1) := by
    intro n m1 c1 hm
    rw [lookup_append, hsub, Option.some_bind,
      lookup_cons_some ms cs n _ [] (lookupChild_of_mem_nodup cs n _ hnd hm),
      lookup_nil]
  have hsrcfileB : ∀ n m1 c1, (n, Entry.file m1 c1) ∈ cs →
      isFileAtB S (p2 ++ [n]) = true := by
    intro n m1 c1 hm
    unfold isFileAtB
    rw [hsrcfile n m1 c1 hm]
  -- the mkdir step succeeds and leaves a directory at p2
  have hds_ok : (dirStep noFail p2 ⟨fs, evs, none⟩).err = none := by
    apply dirStep_ok
    intro r hpre hne
    exact noClash_file_false S fs hnc r
      (existsP_proper_dir S p2 r (isDirAtB_exists S p2 hsdir) hpre hne)
  rcases dirStep_cases noFail p2 fs evs with ⟨heq, hex⟩ |
      ⟨fs2, heq, hex, hobs⟩ | ⟨heq, _⟩
  · -- the destination entry already existed
    have hd1 : isDirAtB fs p2 = true :=
      exists_not_file_dir fs p2 hex (noClash_file_false S fs hnc p2 hsdir)
    have htg : ∀ n m1 c1, (n, m1, c1) ∈ filesOf cs →
        isDirAtB fs (p2 ++ [n]) = false := by
      intro n m1 c1 hm
      exact noClash_dir_false S fs hnc (p2 ++ [n])
        (hsrcfileB n m1 c1 ((filesOf_mem cs n m1 c1).mp hm))
    have hndF : ((filesOf cs).map Prod.fst).Nodup :=
      hnd.sublist (filesOf_names_sublist cs)
    have herr2 : (copyFilesFold noFail p2 (filesOf cs) ⟨fs, evs, none⟩).err =
        none := copyFilesFold_ok p2 (filesOf cs) fs evs hd1 htg
    unfold phase1StepsAt
    rw [heq]
    refine ⟨herr2, ?_, ?_, ?_⟩
    · -- p2 stays a directory
      obtain ⟨m0, ho⟩ := isDirAtB_obs_dir fs p2 hd1
      by_cases hch : obs (copyFilesFold noFail p2 (filesOf cs)
          ⟨fs, evs, none⟩).fs p2 = obs fs p2
      · exact obs_dirObs_isDirAtB _ p2 m0 (by rw [hch, ho])
      · obtain ⟨hnd3, _⟩ := copyFilesFold_changes_nodir p2 (filesOf cs) fs evs
          htg p2 hch
        rw [hnd3] at hd1
        cases hd1
    · intro r hr
      obtain ⟨hnd3, n, m1, c1, hm, hrt, hobs2⟩ :=
        copyFilesFold_changes_nodir p2 (filesOf cs) fs evs htg r hr
      exact Or.inr ⟨n, m1, c1, (filesOf_mem cs n m1 c1).mp hm, hrt, hnd3, hobs2⟩
    · intro n m1 c1 hm
      exact copyFilesFold_complete p2 (filesOf cs) fs evs hndF htg herr2
        n m1 c1 ((filesOf_mem cs n m1 c1).mpr hm)
  · -- the destination directory was created by makedirs
    have hobs_p2 : obs fs2 p2 = some (PathObs.dirObs 0) := by
      rw [hobs p2, if_pos ⟨List.prefix_refl p2, by
        rw [existsP_eq_obs] at hex
        cases ho : obs fs p2 with
        | none => rfl
        | some o => rw [ho] at hex; simp at hex⟩]
    have hobs_off : ∀ r, r ≠ p2 → obs fs2 r = obs fs r := by
      intro r hne
      rw [hobs r]
      by_cases hpre : r <+: p2 ∧ obs fs r = none
      · exfalso
        have := hanc r hpre.1 hne
        rw [existsP_eq_obs, hpre.2] at this
        cases this
      · rw [if_neg hpre]
    have hd1 : isDirAtB fs2 p2 = true := obs_dirObs_isDirAtB fs2 p2 0 hobs_p2
    have htg : ∀ n m1 c1, (n, m1, c1) ∈ filesOf cs →
        isDirAtB fs2 (p2 ++ [n]) = false := by
      intro n m1 c1 hm
      have h1 : isDirAtB fs (p2 ++ [n]) = false :=
        noClash_dir_false S fs hnc (p2 ++ [n])
          (hsrcfileB n m1 c1 ((filesOf_mem cs n m1 c1).mp hm))
      rw [obs_kind_eq fs2 fs (p2 ++ [n]) (hobs_off (p2 ++ [n]) (by simp))]
      exact h1
    have hndF : ((filesOf cs).map Prod.fst).Nodup :=
      hnd.sublist (filesOf_names_sublist cs)
    have herr2 : (copyFilesFold noFail p2 (filesOf cs)
        ⟨fs2, evs ++ [Event.mkdir p2], none⟩).err = none :=
      copyFilesFold_ok p2 (filesOf cs) fs2 (evs ++ [Event.mkdir p2]) hd1 htg
    unfold phase1StepsAt
    rw [heq]
    refine ⟨herr2, ?_, ?_, ?_⟩
    · by_cases hch : obs (copyFilesFold noFail p2 (filesOf cs)
          ⟨fs2, evs ++ [Event.mkdir p2], none⟩).fs p2 = obs fs2 p2
      · exact obs_dirObs_isDirAtB _ p2 0 (by rw [hch, hobs_p2])
      · obtain ⟨hnd3, _⟩ := copyFilesFold_changes_nodir p2 (filesOf cs) fs2
          (evs ++ [Event.mkdir p2]) htg p2 hch
        rw [hnd3] at hd1
        cases hd1
    · intro r hr
      by_cases hch : obs (copyFilesFold noFail p2 (filesOf cs)
          ⟨fs2, evs ++ [Event.mkdir p2], none⟩).fs r = obs fs2 r
      · -- only the mkdir changed r, so r = p2
        rw [hch] at hr ⊢
        by_cases hrp : r = p2
        · subst hrp
          refine Or.inl ⟨rfl, ?_, hobs_p2⟩
          rw [existsP_eq_obs] at hex
          cases ho : obs fs r with
          | none => rfl
          | some o => rw [ho] at hex; simp at hex
        · rw [hobs_off r hrp] at hr
          exact absurd rfl hr
      · obtain ⟨hnd3, n, m1, c1, hm, hrt, hobs2⟩ :=
          copyFilesFold_changes_nodir p2 (filesOf cs) fs2
            (evs ++ [Event.mkdir p2]) htg r hch
        refine Or.inr ⟨n, m1, c1, (filesOf_mem cs n m1 c1).mp hm, hrt, ?_, hobs2⟩
        have hne : r ≠ p2 := by
          subst hrt
          simp
        rw [← obs_kind_eq fs2 fs r (hobs_off r hne)]
        exact hnd3
    · intro n m1 c1 hm
      exact copyFilesFold_complete p2 (filesOf cs) fs2 (evs ++ [Event.mkdir p2])
        hndF htg herr2 n m1 c1 ((filesOf_mem cs n m1 c1).mpr hm)
  · -- the mkdir step cannot fail here
    rw [heq] at hds_ok
    cases hds_ok

/-! ## Change descriptors and their composition -/

theorem kinds_exclusive (t : Entry) (p : List String)
    (h1 : isDirAtB t p = true) (h2 : isFileAtB t p = true) : False := by
  unfold isDirAtB at h1
  unfold isFileAtB at h2
  cases hl : lookup t p with
  | none =>
    rw [hl] at h1
    cases h1
  | some e =>
    cases e with
    | file m c => rw [hl] at h1; cases h1
    | dir m cs => rw [hl] at h2; cases h2

theorem obs_kind_eq_file (t1 t2 : Entry) (r : List String)
    (h : obs t1 r = obs t2 r) : isFileAtB t1 r = isFileAtB t2 r := by
  unfold isFileAtB
  unfold obs at h
  cases h1 : lookup t1 r with
  | none =>
    rw [h1] at h
    cases h2 : lookup t2 r with
    | none => rfl
    | some e2 =>
      rw [h2] at h
      cases e2 <;> simp at h
  | some e1 =>
    rw [h1] at h
    cases h2 : lookup t2 r with
    | none =>
      rw [h2] at h
      cases e1 <;> simp at h
    | some e2 =>
      rw [h2] at h
      cases e1 <;> cases e2 <;> first | rfl | simp_all

theorem chg_of_eq_post (S fsA fsB fsC : Entry) (r : List String)
    (h : obs fsC r = obs fsB r) (hc : chg S fsA fsB r) : chg S fsA fsC r := by
  rcases hc with ⟨h1, h2, h3⟩ | ⟨h1, h2, m1, c1, h3, h4⟩
  · exact Or.inl ⟨h1, by rw [h, h2], h3⟩
  · exact Or.inr ⟨h1, h2, m1, c1, by rw [h, h3], h4⟩

theorem chg_of_eq_pre (S fsA fsB fsC : Entry) (r : List String)
    (h : obs fsB r = obs fsA r) (hc : chg S fsB fsC r) : chg S fsA fsC r := by
  rcases hc with ⟨h1, h2, h3⟩ | ⟨h1, h2, m1, c1, h3, h4⟩
  · exact Or.inl ⟨h1, h2, by rw [← h, h3]⟩
  · refine Or.inr ⟨h1, ?_, m1, c1, h3, h4⟩
    rw [← obs_kind_eq fsB fsA r h]
    exact h2

theorem chg_trans (S fsA fsB fsC : Entry) (r : List String)
    (h1 : chg S fsA fsB r) (h2 : chg S fsB fsC r) : chg S fsA fsC r := by
  rcases h1 with ⟨ha1, ha2, ha3⟩ | ⟨ha1, ha2, m1, c1, ha3, ha4⟩
  · rcases h2 with ⟨hb1, hb2, hb3⟩ | ⟨hb1, _, m2, c2, hb3, hb4⟩
    · rw [ha2] at hb3
      cases hb3
    · exact absurd ha1 (fun hc => kinds_exclusive S r hc hb1)
  · rcases h2 with ⟨hb1, hb2, hb3⟩ | ⟨hb1, _, m2, c2, hb3, hb4⟩
    · exact absurd hb1 (fun hc => kinds_exclusive S r hc ha1)
    · exact Or.inr ⟨ha1, ha2, m2, c2, hb3, hb4⟩

theorem chg_dir_preserve (S fsA fsB : Entry) (r : List String)
    (hd : isDirAtB fsA r = true)
    (hch : obs fsB r ≠ obs fsA r → chg S fsA fsB r) :
    isDirAtB fsB r = true := by
  by_cases h : obs fsB r = obs fsA r
  · rw [obs_kind_eq fsB fsA r h]
    exact hd
  · rcases hch h with ⟨_, h2, _⟩ | ⟨_, h2, _⟩
    · exact obs_dirObs_isDirAtB fsB r 0 h2
    · rw [h2] at hd
      cases hd

theorem chg_file_preserve (S fsA fsB : Entry) (r : List String) (m1 c0 : Nat)
    (ho : obs fsA r = some (PathObs.fileObs m1 c0))
    (hmt : mtimeAt S r = some m1)
    (hch : obs fsB r ≠ obs fsA r → chg S fsA fsB r) :
    ∃ c2, obs fsB r = some (PathObs.fileObs m1 c2) := by
  by_cases h : obs fsB r = obs fsA r
  · exact ⟨c0, by rw [h, ho]⟩
  · rcases hch h with ⟨_, _, h3⟩ | ⟨_, _, m2, c2, h3, h4⟩
    · rw [ho] at h3
      cases h3
    · rw [hmt] at h4
      injection h4 with h5
      subst h5
      exact ⟨c2, h3⟩

theorem chg_none_preserve (S fsA fsB : Entry) (r : List String)
    (hd : isDirAtB S r = false) (hf : isFileAtB S r = false)
    (hch : obs fsB r ≠ obs fsA r → chg S fsA fsB r) :
    obs fsB r = obs fsA r := by
  by_cases h : obs fsB r = obs fsA r
  · exact h
  · rcases hch h with ⟨h1, _, _⟩ | ⟨h1, _, _⟩
    · rw [h1] at hd
      cases hd
    · rw [h1] at hf
      cases hf

theorem noClash_update (S fsA fsB : Entry) (hnc : noClash S fsA)
    (hch : ∀ r, obs fsB r ≠ obs fsA r → chg S fsA fsB r) :
    noClash S fsB := by
  intro r
  constructor
  · rintro ⟨h1, h2⟩
    by_cases h : obs fsB r = obs fsA r
    · rw [obs_kind_eq_file fsB fsA r h] at h2
      exact (hnc r).1 ⟨h1, h2⟩
    · rcases hch r h with ⟨_, h3, _⟩ | ⟨h3, _, _⟩
      · exact kinds_exclusive fsB r (obs_dirObs_isDirAtB fsB r 0 h3) h2
      · exact kinds_exclusive S r h1 h3
  · rintro ⟨h1, h2⟩
    by_cases h : obs fsB r = obs fsA r
    · rw [obs_kind_eq fsB fsA r h] at h2
      exact (hnc r).2 ⟨h1, h2⟩
    · rcases hch r h with ⟨h3, _, _⟩ | ⟨_, _, m1, c1, h3, _⟩
      · exact kinds_exclusive S r h3 h1
      · rw [obs_fileObs_not_dir fsB r m1 c1 h3] at h2
        cases h2

theorem prefix_snoc_cases (r p : List String) (n : String)
    (h : r <+: p ++ [n]) : r = p ++ [n] ∨ r <+: p := by
  induction p generalizing r with
  | nil =>
    cases r with
    | nil => exact Or.inr (List.nil_prefix)
    | cons b r2 =>
      obtain ⟨hb, h2⟩ := List.cons_prefix_cons.mp h
      subst hb
      have : r2 = [] := List.prefix_nil.mp h2
      subst this
      exact Or.inl rfl
  | cons a p2 ih =>
    cases r with
    | nil => exact Or.inr (List.nil_prefix)
    | cons b r2 =>
      rw [List.cons_append] at h
      obtain ⟨hb, h2⟩ := List.cons_prefix_cons.mp h
      subst hb
      rcases ih r2 h2 with h3 | h3
      · exact Or.inl (by rw [h3, List.cons_append])
      · exact Or.inr (List.cons_prefix_cons.mpr ⟨rfl, h3⟩)

theorem strict_of_snoc (p r : List String) (n : String)
    (h : (p ++ [n]) <+: r) : p <+: r ∧ r ≠ p := by
  constructor
  · exact List.IsPrefix.trans (List.prefix_append p [n]) h
  · intro hc
    subst hc
    have := h.length_le
    simp at this

theorem append_cons_eq (p : List String) (a : String) (x : List String) :
    (p ++ [a]) ++ x = p ++ a :: x := by
  simp

theorem phase1_main (S : Entry) (hwfS : wfE S = true) :
    ∀ (p : List String) (l : List (String × Entry)) (acc : Out),
    (∀ n e, (n, e) ∈ l → lookup S (p ++ [n]) = some e) →
    noClash S acc.fs →
    acc.err = none →
    existsP acc.fs p = true →
    (phase1Subs noFail p l acc).err = none ∧
    noClash S (phase1Subs noFail p l acc).fs ∧
    (∀ r, obs (phase1Subs noFail p l acc).fs r ≠ obs acc.fs r →
      (p <+: r ∧ r ≠ p) ∧ chg S acc.fs (phase1Subs noFail p l acc).fs r) ∧
    (∀ n m2 cs2, (n, Entry.dir m2 cs2) ∈ l → ∀ q e2,
      lookup (Entry.dir m2 cs2) q = some e2 →
      (∀ m3 cs3, e2 = Entry.dir m3 cs3 →
        isDirAtB (phase1Subs noFail p l acc).fs (p ++ n :: q) = true) ∧
      (∀ m3 c3, e2 = Entry.file m3 c3 →
        ∃ c2, obs (phase1Subs noFail p l acc).fs (p ++ n :: q) =
          some (PathObs.fileObs m3 c2))) := by
  intro p l acc
  induction p, l, acc using phase1Subs.induct noFail with
  | case1 p acc =>
    intro hmem hnc herr hex
    rw [phase1Subs_nil]
    refine ⟨herr, hnc, ?_, ?_⟩
    · intro r hr
      exact absurd rfl hr
    · intro n m2 cs2 hm
      simp at hm
  | case2 p acc n m c rest ih =>
    intro hmem hnc herr hex
    rw [phase1Subs_file]
    obtain ⟨f1, f2, f3, f4⟩ := ih
      (fun n2 e2 hm => hmem n2 e2 (List.mem_cons_of_mem _ hm)) hnc herr hex
    refine ⟨f1, f2, f3, ?_⟩
    intro n2 m2 cs2 hm
    rcases List.mem_cons.mp hm with hm1 | hm1
    · exact absurd hm1 (by simp)
    · exact f4 n2 m2 cs2 hm1
  | case3 p acc fst mtime children rest ih1 ih2 =>
    intro hmem hnc herr hex
    rw [phase1Subs_dir]
    unfold phase1At
    obtain ⟨fs0, evs0, err0⟩ := acc
    simp only at herr
    subst herr
    -- facts about the source subtree at p ++ [fst]
    have hsub2 : lookup S (p ++ [fst]) = some (Entry.dir mtime children) :=
      hmem fst _ (List.mem_cons_self _ _)
    have hwfc : wfE (Entry.dir mtime children) = true :=
      wf_lookup S _ (p ++ [fst]) hwfS hsub2
    have hndc : (children.map Prod.fst).Nodup := wfE_dir_nodup _ children hwfc
    have hmemc : ∀ n e, (n, e) ∈ children →
        lookup S ((p ++ [fst]) ++ [n]) = some e := by
      intro n e hm
      rw [lookup_append, hsub2, Option.some_bind,
        lookup_cons_some mtime children n _ []
          (lookupChild_of_mem_nodup children n e hndc hm), lookup_nil]
    have hsdir2 : isDirAtB S (p ++ [fst]) = true := by
      unfold isDirAtB
      rw [hsub2]
    have hanc : ∀ r, r <+: p ++ [fst] → r ≠ p ++ [fst] →
        existsP fs0 r = true := by
      intro r hpre hne
      rcases prefix_snoc_cases r p fst hpre with h1 | h1
      · exact absurd h1 hne
      · exact existsP_prefix fs0 p r hex h1
    obtain ⟨s1, s2, s3, s5⟩ := phase1StepsAt_spec S hwfS (p ++ [fst]) mtime
      children hsub2 fs0 evs0 hnc hanc
    -- change description of the visit, relative to the source
    have s3chg : ∀ r,
        obs (phase1StepsAt noFail (p ++ [fst]) children ⟨fs0, evs0, none⟩).fs r ≠
          obs fs0 r →
        ((p ++ [fst]) <+: r) ∧
        chg S fs0
          (phase1StepsAt noFail (p ++ [fst]) children ⟨fs0, evs0, none⟩).fs r := by
      intro r hr
      rcases s3 r hr with ⟨hr1, hr2, hr3⟩ | ⟨n, m1, c1, hm, hr1, hr2, hr3⟩
      · subst hr1
        exact ⟨List.prefix_refl _, Or.inl ⟨hsdir2, hr3, hr2⟩⟩
      · subst hr1
        have hlk : lookup S ((p ++ [fst]) ++ [n]) = some (Entry.file m1 c1) :=
          hmemc n _ hm
        refine ⟨List.prefix_append _ _, Or.inr ⟨?_, hr2, m1, c1, hr3, ?_⟩⟩
        · unfold isFileAtB
          rw [hlk]
        · unfold mtimeAt
          rw [hlk]
          rfl
    have hnc1 : noClash S
        (phase1StepsAt noFail (p ++ [fst]) children ⟨fs0, evs0, none⟩).fs :=
      noClash_update S fs0 _ hnc (fun r hr => (s3chg r hr).2)
    have hex1 : existsP
        (phase1StepsAt noFail (p ++ [fst]) children ⟨fs0, evs0, none⟩).fs
        (p ++ [fst]) = true := isDirAtB_exists _ _ s2
    obtain ⟨t1, t2, t3, t4⟩ := ih1 hmemc hnc1 s1 hex1
    -- name the two intermediate states
    have hobs_p : obs (phase1Subs noFail (p ++ [fst]) children
        (phase1StepsAt noFail (p ++ [fst]) children ⟨fs0, evs0, none⟩)).fs p =
        obs fs0 p := by
      by_cases h23 : obs (phase1Subs noFail (p ++ [fst]) children
          (phase1StepsAt noFail (p ++ [fst]) children ⟨fs0, evs0, none⟩)).fs p =
          obs (phase1StepsAt noFail (p ++ [fst]) children ⟨fs0, evs0, none⟩).fs p
      · rw [h23]
        by_cases h12 : obs
            (phase1StepsAt noFail (p ++ [fst]) children ⟨fs0, evs0, none⟩).fs p =
            obs fs0 p
        · exact h12
        · obtain ⟨hpre, _⟩ := s3chg p h12
          exact absurd (strict_of_snoc p p fst hpre).2 (by simp)
      · obtain ⟨⟨hpre, hne⟩, _⟩ := t3 p h23
        exact absurd (strict_of_snoc p p fst hpre).2 (by simp)
    have hex2 : existsP (phase1Subs noFail (p ++ [fst]) children
        (phase1StepsAt noFail (p ++ [fst]) children ⟨fs0, evs0, none⟩)).fs p =
        true := by
      rw [existsP_eq_obs, hobs_p, ← existsP_eq_obs]
      exact hex
    obtain ⟨u1, u2, u3, u4⟩ := ih2
      (fun n2 e2 hm => hmem n2 e2 (List.mem_cons_of_mem _ hm)) t2 t1 hex2
    -- combined change description from fs0 to the final state
    have hcomb : ∀ r,
        obs (phase1Subs noFail p rest (phase1Subs noFail (p ++ [fst]) children
          (phase1StepsAt noFail (p ++ [fst]) children ⟨fs0, evs0, none⟩))).fs r ≠
          obs fs0 r →
        (p <+: r ∧ r ≠ p) ∧
        chg S fs0 (phase1Subs noFail p rest
          (phase1Subs noFail (p ++ [fst]) children
            (phase1StepsAt noFail (p ++ [fst]) children ⟨fs0, evs0, none⟩))).fs r := by
      intro r hr
      by_cases e23 : obs (phase1Subs noFail p rest
          (phase1Subs noFail (p ++ [fst]) children
            (phase1StepsAt noFail (p ++ [fst]) children ⟨fs0, evs0, none⟩))).fs r =
          obs (phase1Subs noFail (p ++ [fst]) children
            (phase1StepsAt noFail (p ++ [fst]) children ⟨fs0, evs0, none⟩)).fs r
      · by_cases e12 : obs (phase1Subs noFail (p ++ [fst]) children
            (phase1StepsAt noFail (p ++ [fst]) children ⟨fs0, evs0, none⟩)).fs r =
            obs (phase1StepsAt noFail (p ++ [fst]) children ⟨fs0, evs0, none⟩).fs r
        · have e01 : obs
              (phase1StepsAt noFail (p ++ [fst]) children ⟨fs0, evs0, none⟩).fs r ≠
              obs fs0 r := by
            intro hc
            exact hr (by rw [e23, e12, hc])
          obtain ⟨hpre, hchg⟩ := s3chg r e01
          exact ⟨strict_of_snoc p r fst hpre,
            chg_of_eq_post S fs0 _ _ r (by rw [e23, e12]) hchg⟩
        · obtain ⟨⟨hpre2, _⟩, hchg2⟩ := t3 r e12
          have hpre := strict_of_snoc p r fst hpre2
          by_cases e01 : obs
              (phase1StepsAt noFail (p ++ [fst]) children ⟨fs0, evs0, none⟩).fs r =
              obs fs0 r
          · exact ⟨hpre, chg_of_eq_post S fs0 _ _ r e23
              (chg_of_eq_pre S fs0 _ _ r e01 hchg2)⟩
          · obtain ⟨_, hchg1⟩ := s3chg r e01
            exact ⟨hpre, chg_of_eq_post S fs0 _ _ r e23
              (chg_trans S fs0 _ _ r hchg1 hchg2)⟩
      · obtain ⟨hpre, hchg3⟩ := u3 r e23
        refine ⟨hpre, ?_⟩
        by_cases e12 : obs (phase1Subs noFail (p ++ [fst]) children
            (phase1StepsAt noFail (p ++ [fst]) children ⟨fs0, evs0, none⟩)).fs r =
            obs (phase1StepsAt noFail (p ++ [fst]) children ⟨fs0, evs0, none⟩).fs r
        · by_cases e01 : obs
              (phase1StepsAt noFail (p ++ [fst]) children ⟨fs0, evs0, none⟩).fs r =
              obs fs0 r
          · exact chg_of_eq_pre S fs0 _ _ r (by rw [e12, e01]) hchg3
          · obtain ⟨_, hchg1⟩ := s3chg r e01
            exact chg_trans S fs0 _ _ r
              (chg_of_eq_post S fs0 _ _ r e12 hchg1) hchg3
        · obtain ⟨_, hchg2⟩ := t3 r e12
          by_cases e01 : obs
              (phase1StepsAt noFail (p ++ [fst]) children ⟨fs0, evs0, none⟩).fs r =
              obs fs0 r
          · exact chg_trans S fs0 _ _ r
              (chg_of_eq_pre S fs0 _ _ r e01 hchg2) hchg3
          · obtain ⟨_, hchg1⟩ := s3chg r e01
            exact chg_trans S fs0 _ _ r
              (chg_trans S fs0 _ _ r hchg1 hchg2) hchg3
    refine ⟨u1, u2, hcomb, ?_⟩
    -- coverage of the subtree
    intro n m2 cs2 hm q e2 hlk
    rcases List.mem_cons.mp hm with hm1 | hm1
    · -- the head directory (fst, children)
      injection hm1 with hn1 hn2
      subst hn1
      injection hn2 with hn2a hn2b
      subst hn2a
      subst hn2b
      -- later-stage change descriptions, for preservation
      have hch23 : ∀ r, obs (phase1Subs noFail p rest
          (phase1Subs noFail (p ++ [n]) cs2
            (phase1StepsAt noFail (p ++ [n]) cs2 ⟨fs0, evs0, none⟩))).fs r ≠
          obs (phase1Subs noFail (p ++ [n]) cs2
            (phase1StepsAt noFail (p ++ [n]) cs2 ⟨fs0, evs0, none⟩)).fs r →
          chg S (phase1Subs noFail (p ++ [n]) cs2
            (phase1StepsAt noFail (p ++ [n]) cs2 ⟨fs0, evs0, none⟩)).fs
            (phase1Subs noFail p rest
              (phase1Subs noFail (p ++ [n]) cs2
                (phase1StepsAt noFail (p ++ [n]) cs2 ⟨fs0, evs0, none⟩))).fs
            r := fun r hr => (u3 r hr).2
      have hch12 : ∀ r, obs (phase1Subs noFail (p ++ [n]) cs2
          (phase1StepsAt noFail (p ++ [n]) cs2 ⟨fs0, evs0, none⟩)).fs r ≠
          obs (phase1StepsAt noFail (p ++ [n]) cs2 ⟨fs0, evs0, none⟩).fs r →
          chg S (phase1StepsAt noFail (p ++ [n]) cs2 ⟨fs0, evs0, none⟩).fs
            (phase1Subs noFail (p ++ [n]) cs2
              (phase1StepsAt noFail (p ++ [n]) cs2 ⟨fs0, evs0, none⟩)).fs
            r := fun r hr => (t3 r hr).2
      cases q with
      | nil =>
        rw [lookup_nil] at hlk
        injection hlk with hlk
        constructor
        · intro m3 cs3 he2
          have hd2 : isDirAtB (phase1Subs noFail (p ++ [n]) cs2
              (phase1StepsAt noFail (p ++ [n]) cs2 ⟨fs0, evs0, none⟩)).fs
              (p ++ [n]) = true :=
            chg_dir_preserve S _ _ (p ++ [n]) s2 (hch12 (p ++ [n]))
          have hd3 := chg_dir_preserve S _ _ (p ++ [n]) hd2 (hch23 (p ++ [n]))
          simpa using hd3
        · intro m3 c3 he2
          rw [← hlk] at he2
          exact absurd he2 (by simp)
      | cons n2 q2 =>
        cases hlc : lookupChild cs2 n2 with
        | none =>
          rw [lookup_cons_none m2 cs2 n2 q2 hlc] at hlk
          cases hlk
        | some child =>
          rw [lookup_cons_some m2 cs2 n2 child q2 hlc] at hlk
          cases child with
          | dir m4 cs4 =>
            have hcov := t4 n2 m4 cs4 (lookupChild_mem cs2 n2 _ hlc) q2 e2 hlk
            constructor
            · intro m3 cs3 he2
              have hd2 := hcov.1 m3 cs3 he2
              have heqp : (p ++ [n]) ++ n2 :: q2 = p ++ n :: n2 :: q2 := by
                simp
              rw [heqp] at hd2
              exact chg_dir_preserve S _ _ (p ++ n :: n2 :: q2) hd2
                (hch23 (p ++ n :: n2 :: q2))
            · intro m3 c3 he2
              obtain ⟨c2, hf2⟩ := hcov.2 m3 c3 he2
              have heqp : (p ++ [n]) ++ n2 :: q2 = p ++ n :: n2 :: q2 := by
                simp
              rw [heqp] at hf2
              have hmt : mtimeAt S (p ++ n :: n2 :: q2) = some m3 := by
                unfold mtimeAt
                have : lookup S (p ++ n :: n2 :: q2) = some e2 := by
                  rw [← heqp, ← append_cons_eq, lookup_append,
                    hmemc n2 _ (lookupChild_mem cs2 n2 _ hlc),
                    Option.some_bind]
                  exact hlk
                rw [this, he2]
                rfl
              exact chg_file_preserve S _ _ (p ++ n :: n2 :: q2) m3 c2 hf2 hmt
                (hch23 (p ++ n :: n2 :: q2))
          | file m4 c4 =>
            cases q2 with
            | nil =>
              rw [lookup_nil] at hlk
              injection hlk with hlk
              constructor
              · intro m3 cs3 he2
                rw [← hlk] at he2
                exact absurd he2 (by simp)
              · intro m3 c3 he2
                rw [← hlk] at he2
                injection he2 with he2a he2b
                subst he2a
                obtain ⟨c2, hf1⟩ := s5 n2 m4 c4 (lookupChild_mem cs2 n2 _ hlc)
                have hmt : mtimeAt S ((p ++ [n]) ++ [n2]) = some m4 := by
                  unfold mtimeAt
                  rw [hmemc n2 _ (lookupChild_mem cs2 n2 _ hlc)]
                  rfl
                obtain ⟨c3x, hf2⟩ := chg_file_preserve S _ _ ((p ++ [n]) ++ [n2])
                  m4 c2 hf1 hmt (hch12 ((p ++ [n]) ++ [n2]))
                obtain ⟨c4x, hf3⟩ := chg_file_preserve S _ _ ((p ++ [n]) ++ [n2])
                  m4 c3x hf2 hmt (hch23 ((p ++ [n]) ++ [n2]))
                refine ⟨c4x, ?_⟩
                have heqp : (p ++ [n]) ++ [n2] = p ++ n :: [n2] := by simp
                rw [← heqp]
                exact hf3
            | cons a q3 =>
              simp [lookup] at hlk
    · -- an entry of the remaining siblings
      exact u4 n m2 cs2 hm1 q e2 hlk

theorem existsP_nil (t : Entry) : existsP t [] = true := by
  unfold existsP
  rw [lookup_nil]
  rfl

theorem phase1_total (S D : Entry) (hwfS : wfE S = true)
    (msr : Nat) (scs : List (String × Entry)) (hS : S = Entry.dir msr scs)
    (hnc : noClash S D) :
    (phase1Subs noFail [] scs
      (phase1StepsAt noFail [] scs ⟨D, [], none⟩)).err = none ∧
    noClash S (phase1Subs noFail [] scs
      (phase1StepsAt noFail [] scs ⟨D, [], none⟩)).fs ∧
    (∀ r, obs (phase1Subs noFail [] scs
        (phase1StepsAt noFail [] scs ⟨D, [], none⟩)).fs r ≠ obs D r →
      r ≠ [] ∧ chg S D (phase1Subs noFail [] scs
        (phase1StepsAt noFail [] scs ⟨D, [], none⟩)).fs r) ∧
    (∀ r, isDirAtB S r = true → isDirAtB D r = true →
      isDirAtB (phase1Subs noFail [] scs
        (phase1StepsAt noFail [] scs ⟨D, [], none⟩)).fs r = true) ∧
    (∀ r, r ≠ [] → isDirAtB S r = true →
      isDirAtB (phase1Subs noFail [] scs
        (phase1StepsAt noFail [] scs ⟨D, [], none⟩)).fs r = true) ∧
    (∀ r m1 c1, r ≠ [] → obs S r = some (PathObs.fileObs m1 c1) →
      ∃ c2, obs (phase1Subs noFail [] scs
        (phase1StepsAt noFail [] scs ⟨D, [], none⟩)).fs r =
          some (PathObs.fileObs m1 c2)) := by
  have hsub : lookup S [] = some (Entry.dir msr scs) := by
    rw [lookup_nil, hS]
  have hnds : (scs.map Prod.fst).Nodup := by
    have : wfE (Entry.dir msr scs) = true := by rw [← hS]; exact hwfS
    exact wfE_dir_nodup msr scs this
  have hanc : ∀ r, r <+: ([] : List String) → r ≠ [] → existsP D r = true := by
    intro r hpre hne
    exact absurd (List.prefix_nil.mp hpre) hne
  obtain ⟨s1, s2, s3, s5⟩ :=
    phase1StepsAt_spec S hwfS [] msr scs hsub D [] hnc hanc
  have hmem : ∀ n e, (n, e) ∈ scs → lookup S ([] ++ [n]) = some e := by
    intro n e hm
    rw [List.nil_append, hS,
      lookup_cons_some msr scs n e [] (lookupChild_of_mem_nodup scs n e hnds hm),
      lookup_nil]
  have s3chg : ∀ r,
      obs (phase1StepsAt noFail [] scs ⟨D, [], none⟩).fs r ≠ obs D r →
      r ≠ [] ∧ chg S D (phase1StepsAt noFail [] scs ⟨D, [], none⟩).fs r := by
    intro r hr
    rcases s3 r hr with ⟨hr1, hr2, hr3⟩ | ⟨n, m1, c1, hm, hr1, hr2, hr3⟩
    · subst hr1
      exact absurd hr2 (obs_nil_ne_none D)
    · subst hr1
      have hlk : lookup S ([] ++ [n]) = some (Entry.file m1 c1) := hmem n _ hm
      refine ⟨by simp, Or.inr ⟨?_, hr2, m1, c1, hr3, ?_⟩⟩
      · unfold isFileAtB
        rw [hlk]
      · unfold mtimeAt
        rw [hlk]
        rfl
  have hnc1 : noClash S (phase1StepsAt noFail [] scs ⟨D, [], none⟩).fs :=
    noClash_update S D _ hnc (fun r hr => (s3chg r hr).2)
  obtain ⟨u1, u2, u3, u4⟩ := phase1_main S hwfS [] scs
    (phase1StepsAt noFail [] scs ⟨D, [], none⟩) hmem hnc1 s1
    (existsP_nil _)
  have hcomb : ∀ r, obs (phase1Subs noFail [] scs
      (phase1StepsAt noFail [] scs ⟨D, [], none⟩)).fs r ≠ obs D r →
      r ≠ [] ∧ chg S D (phase1Subs noFail [] scs
        (phase1StepsAt noFail [] scs ⟨D, [], none⟩)).fs r := by
    intro r hr
    by_cases e12 : obs (phase1Subs noFail [] scs
        (phase1StepsAt noFail [] scs ⟨D, [], none⟩)).fs r =
        obs (phase1StepsAt noFail [] scs ⟨D, [], none⟩).fs r
    · have e01 : obs (phase1StepsAt noFail [] scs ⟨D, [], none⟩).fs r ≠
          obs D r := by
        intro hc
        exact hr (by rw [e12, hc])
      obtain ⟨hne, hchg⟩ := s3chg r e01
      exact ⟨hne, chg_of_eq_post S D _ _ r e12 hchg⟩
    · obtain ⟨⟨hpre, hne⟩, hchg2⟩ := u3 r e12
      refine ⟨hne, ?_⟩
      by_cases e01 : obs (phase1StepsAt noFail [] scs ⟨D, [], none⟩).fs r =
          obs D r
      · exact chg_of_eq_pre S D _ _ r e01 hchg2
      · obtain ⟨_, hchg1⟩ := s3chg r e01
        exact chg_trans S D _ _ r hchg1 hchg2
  have hch12 : ∀ r, obs (phase1Subs noFail [] scs
      (phase1StepsAt noFail [] scs ⟨D, [], none⟩)).fs r ≠
      obs (phase1StepsAt noFail [] scs ⟨D, [], none⟩).fs r →
      chg S (phase1StepsAt noFail [] scs ⟨D, [], none⟩).fs
        (phase1Subs noFail [] scs
          (phase1StepsAt noFail [] scs ⟨D, [], none⟩)).fs r :=
    fun r hr => (u3 r hr).2
  refine ⟨u1, u2, hcomb, ?_, ?_, ?_⟩
  · -- directories that exist on both sides stay directories
    intro r hs hd
    by_cases hch : obs (phase1Subs noFail [] scs
        (phase1StepsAt noFail [] scs ⟨D, [], none⟩)).fs r = obs D r
    · rw [obs_kind_eq _ D r hch]
      exact hd
    · rcases (hcomb r hch).2 with ⟨_, h2, _⟩ | ⟨h1, _, _⟩
      · exact obs_dirObs_isDirAtB _ r 0 h2
      · exact absurd hs (fun hc => kinds_exclusive S r hc h1)
  · -- every source directory is present afterwards
    intro r hne hs
    cases hrc : r with
    | nil => exact absurd hrc hne
    | cons n q =>
      subst hrc
      have hlk : ∃ c, lookupChild scs n = some c ∧ lookup c q ≠ none := by
        unfold isDirAtB at hs
        rw [hS] at hs
        cases hlc : lookupChild scs n with
        | none => rw [lookup_cons_none msr scs n q hlc] at hs; cases hs
        | some c =>
          rw [lookup_cons_some msr scs n c q hlc] at hs
          refine ⟨c, rfl, ?_⟩
          intro hcn
          rw [hcn] at hs
          cases hs
      obtain ⟨c, hlc, hlq⟩ := hlk
      have hmc : (n, c) ∈ scs := lookupChild_mem scs n c hlc
      have hsv : lookup S (n :: q) = lookup c q := by
        rw [hS]
        exact lookup_cons_some msr scs n c q hlc
      cases q with
      | nil =>
        -- r = [n]: the entry c itself is a directory
        cases c with
        | file m1 c1 =>
          unfold isDirAtB at hs
          rw [hsv, lookup_nil] at hs
          cases hs
        | dir m2 cs2 =>
          have := (u4 n m2 cs2 hmc [] (Entry.dir m2 cs2) (lookup_nil _)).1 m2 cs2 rfl
          simpa using this
      | cons a q2 =>
        cases c with
        | file m1 c1 =>
          exact absurd (by rw [lookup]) hlq
        | dir m2 cs2 =>
          have hlk2 : ∃ e2, lookup (Entry.dir m2 cs2) (a :: q2) = some e2 := by
            cases hl2 : lookup (Entry.dir m2 cs2) (a :: q2) with
            | none => exact absurd hl2 hlq
            | some e2 => exact ⟨e2, rfl⟩
          obtain ⟨e2, hlk2⟩ := hlk2
          have he2 : ∃ m3 cs3, e2 = Entry.dir m3 cs3 := by
            unfold isDirAtB at hs
            rw [hsv, hlk2] at hs
            cases e2 with
            | file m3 c3 => cases hs
            | dir m3 cs3 => exact ⟨m3, cs3, rfl⟩
          obtain ⟨m3, cs3, he2⟩ := he2
          have := (u4 n m2 cs2 hmc (a :: q2) e2 hlk2).1 m3 cs3 he2
          simpa using this
  · -- every source file is present afterwards with the source timestamp
    intro r m1 c1 hne hs
    cases hrc : r with
    | nil => exact absurd hrc hne
    | cons n q =>
      subst hrc
      have hlk : ∃ c, lookupChild scs n = some c ∧
          obs c q = some (PathObs.fileObs m1 c1) := by
        unfold obs at hs
        rw [hS] at hs
        cases hlc : lookupChild scs n with
        | none =>
          rw [lookup_cons_none msr scs n q hlc] at hs
          cases hs
        | some c =>
          rw [lookup_cons_some msr scs n c q hlc] at hs
          refine ⟨c, rfl, ?_⟩
          unfold obs
          cases hl2 : lookup c q with
          | none => rw [hl2] at hs; cases hs
          | some e2 =>
            rw [hl2] at hs
            cases e2 with
            | file m3 c3 => exact hs
            | dir m3 cs3 => exact hs
      obtain ⟨c, hlc, hobsq⟩ := hlk
      have hmc : (n, c) ∈ scs := lookupChild_mem scs n c hlc
      cases q with
      | nil =>
        cases c with
        | dir m2 cs2 =>
          rw [obs_nil] at hobsq
          cases hobsq
        | file m2 c2 =>
          rw [obs_nil] at hobsq
          injection hobsq with hobsq
          injection hobsq with h1 h2
          subst h1
          subst h2
          obtain ⟨c4, hf1⟩ := s5 n m2 c2 hmc
          have hmt : mtimeAt S ([] ++ [n]) = some m2 := by
            unfold mtimeAt
            rw [hmem n _ hmc]
            rfl
          obtain ⟨c3, hf2⟩ := chg_file_preserve S _ _ ([] ++ [n]) m2 c4 hf1 hmt
            (hch12 ([] ++ [n]))
          exact ⟨c3, by simpa using hf2⟩
      | cons a q2 =>
        cases c with
        | file m2 c2 =>
          unfold obs at hobsq
          simp [lookup] at hobsq
        | dir m2 cs2 =>
          have hlk2 : lookup (Entry.dir m2 cs2) (a :: q2) =
              some (Entry.file m1 c1) := by
            unfold obs at hobsq
            cases hl2 : lookup (Entry.dir m2 cs2) (a :: q2) with
            | none => rw [hl2] at hobsq; cases hobsq
            | some e2 =>
              rw [hl2] at hobsq
              cases e2 with
              | file m3 c3 =>
                injection hobsq with h2
                injection h2 with h3 h4
                subst h3
                subst h4
                rfl
              | dir m3 cs3 => cases hobsq
          have := (u4 n m2 cs2 hmc (a :: q2) (Entry.file m1 c1) hlk2).2 m1 c1 rfl
          simpa using this

theorem noClash_mkdir (S fs fs2 : Entry) (p2 : List String)
    (hnc : noClash S fs)
    (hsd : isDirAtB S p2 = true)
    (hobs : ∀ r, obs fs2 r =
      if r <+: p2 ∧ obs fs r = none then some (PathObs.dirObs 0)
      else obs fs r) :
    noClash S fs2 := by
  intro r
  by_cases hc : r <+: p2 ∧ obs fs r = none
  · have h2 : obs fs2 r = some (PathObs.dirObs 0) := by rw [hobs r, if_pos hc]
    have hd2 : isDirAtB fs2 r = true := obs_dirObs_isDirAtB fs2 r 0 h2
    constructor
    · rintro ⟨_, hf⟩
      exact kinds_exclusive fs2 r hd2 hf
    · rintro ⟨hsf, _⟩
      by_cases hrp : r = p2
      · subst hrp
        exact kinds_exclusive S r hsd hsf
      · exact kinds_exclusive S r
          (existsP_proper_dir S p2 r (isDirAtB_exists S p2 hsd) hc.1 hrp) hsf
  · have h2 : obs fs2 r = obs fs r := by rw [hobs r, if_neg hc]
    constructor
    · rintro ⟨hs, hf⟩
      rw [obs_kind_eq_file fs2 fs r h2] at hf
      exact (hnc r).1 ⟨hs, hf⟩
    · rintro ⟨hs, hd⟩
      rw [obs_kind_eq fs2 fs r h2] at hd
      exact (hnc r).2 ⟨hs, hd⟩

theorem phase1StepsAt_frozen (S : Entry) (p2 : List String)
    (ms : Nat) (cs : List (String × Entry))
    (hsub : lookup S p2 = some (Entry.dir ms cs))
    (hnd : (cs.map Prod.fst).Nodup)
    (fs : Entry) (evs : List Event)
    (hnc : noClash S fs)
    (r : List String) (m c : Nat)
    (hobs : obs fs r = some (PathObs.fileObs m c))
    (hmtr : isFileAtB S r = true → mtimeAt S r = some m) :
    obs (phase1StepsAt noFail p2 cs ⟨fs, evs, none⟩).fs r =
      some (PathObs.fileObs m c) := by
  have hsdir : isDirAtB S p2 = true := by
    unfold isDirAtB
    rw [hsub]
  have hsrcfile : ∀ n m1 c1, (n, Entry.file m1 c1) ∈ cs →
      lookup S (p2 ++ [n]) = some (Entry.file m1 c1) := by
    intro n m1 c1 hm
    rw [lookup_append, hsub, Option.some_bind,
      lookup_cons_some ms cs n _ [] (lookupChild_of_mem_nodup cs n _ hnd hm),
      lookup_nil]
  have hside : ∀ fs2, noClash S fs2 → ∀ n m1 c1, (n, m1, c1) ∈ filesOf cs →
      ((r = p2 ++ [n] → m1 = m) ∧ isDirAtB fs2 (p2 ++ [n]) = false) := by
    intro fs2 hnc2 n m1 c1 hm
    have hmem := (filesOf_mem cs n m1 c1).mp hm
    have hlk := hsrcfile n m1 c1 hmem
    have hsf : isFileAtB S (p2 ++ [n]) = true := by
      unfold isFileAtB
      rw [hlk]
    constructor
    · intro hrq
      subst hrq
      have h1 : mtimeAt S (p2 ++ [n]) = some m := hmtr hsf
      have h2 : mtimeAt S (p2 ++ [n]) = some m1 := by
        unfold mtimeAt
        rw [hlk]
        rfl
      rw [h1] at h2
      injection h2 with h2
      exact h2.symm
    · exact noClash_dir_false S fs2 hnc2 (p2 ++ [n]) hsf
  unfold phase1StepsAt
  rcases dirStep_cases noFail p2 fs evs with ⟨heq, _⟩ |
      ⟨fs2, heq, _, hobs2⟩ | ⟨heq, _⟩
  · rw [heq]
    exact copyFilesFold_keep p2 (filesOf cs) fs evs r m c hobs (hside fs hnc)
  · rw [heq]
    have hnc2 : noClash S fs2 := noClash_mkdir S fs fs2 p2 hnc hsdir hobs2
    have hobs2r : obs fs2 r = some (PathObs.fileObs m c) := by
      rw [hobs2 r, if_neg (fun hc => by rw [hobs] at hc; cases hc.2)]
      exact hobs
    exact copyFilesFold_keep p2 (filesOf cs) fs2 (evs ++ [Event.mkdir p2]) r m c
      hobs2r (hside fs2 hnc2)
  · rw [heq, copyFilesFold_errsome noFail p2 (filesOf cs) _
      (Err.opFail OpKind.mkdirOp p2) rfl]
    exact hobs

theorem phase1Subs_frozen (S : Entry) (hwfS : wfE S = true) :
    ∀ (p : List String) (l : List (String × Entry)) (acc : Out),
    (∀ n e, (n, e) ∈ l → lookup S (p ++ [n]) = some e) →
    noClash S acc.fs →
    acc.err = none →
    existsP acc.fs p = true →
    ∀ (r : List String) (m c : Nat),
    obs acc.fs r = some (PathObs.fileObs m c) →
    (isFileAtB S r = true → mtimeAt S r = some m) →
    obs (phase1Subs noFail p l acc).fs r = some (PathObs.fileObs m c) := by
  intro p l acc
  induction p, l, acc using phase1Subs.induct noFail with
  | case1 p acc =>
    intro hmem hnc herr hex r m c hobs hmtr
    rw [phase1Subs_nil]
    exact hobs
  | case2 p acc n0 m0 c0 rest ih =>
    intro hmem hnc herr hex r m c hobs hmtr
    rw [phase1Subs_file]
    exact ih (fun n2 e2 hm => hmem n2 e2 (List.mem_cons_of_mem _ hm)) hnc herr
      hex r m c hobs hmtr
  | case3 p acc fst mtime children rest ih1 ih2 =>
    intro hmem hnc herr hex r m c hobs hmtr
    rw [phase1Subs_dir]
    unfold phase1At
    obtain ⟨fs0, evs0, err0⟩ := acc
    simp only at herr
    subst herr
    have hsub2 : lookup S (p ++ [fst]) = some (Entry.dir mtime children) :=
      hmem fst _ (List.mem_cons_self _ _)
    have hwfc : wfE (Entry.dir mtime children) = true :=
      wf_lookup S _ (p ++ [fst]) hwfS hsub2
    have hndc : (children.map Prod.fst).Nodup := wfE_dir_nodup _ children hwfc
    have hmemc : ∀ n e, (n, e) ∈ children →
        lookup S ((p ++ [fst]) ++ [n]) = some e := by
      intro n e hm
      rw [lookup_append, hsub2, Option.some_bind,
        lookup_cons_some mtime children n _ []
          (lookupChild_of_mem_nodup children n e hndc hm), lookup_nil]
    have hsdir2 : isDirAtB S (p ++ [fst]) = true := by
      unfold isDirAtB
      rw [hsub2]
    have hanc : ∀ r2, r2 <+: p ++ [fst] → r2 ≠ p ++ [fst] →
        existsP fs0 r2 = true := by
      intro r2 hpre hne
      rcases prefix_snoc_cases r2 p fst hpre with h1 | h1
      · exact absurd h1 hne
      · exact existsP_prefix fs0 p r2 hex h1
    obtain ⟨s1, s2, s3, s5⟩ := phase1StepsAt_spec S hwfS (p ++ [fst]) mtime
      children hsub2 fs0 evs0 hnc hanc
    have s3chg : ∀ r2,
        obs (phase1StepsAt noFail (p ++ [fst]) children ⟨fs0, evs0, none⟩).fs r2 ≠
          obs fs0 r2 →
        chg S fs0
          (phase1StepsAt noFail (p ++ [fst]) children ⟨fs0, evs0, none⟩).fs r2 := by
      intro r2 hr
      rcases s3 r2 hr with ⟨hr1, hr2, hr3⟩ | ⟨n, m1, c1, hm, hr1, hr2, hr3⟩
      · subst hr1
        exact Or.inl ⟨hsdir2, hr3, hr2⟩
      · subst hr1
        have hlk : lookup S ((p ++ [fst]) ++ [n]) = some (Entry.file m1 c1) :=
          hmemc n _ hm
        refine Or.inr ⟨?_, hr2, m1, c1, hr3, ?_⟩
        · unfold isFileAtB
          rw [hlk]
        · unfold mtimeAt
          rw [hlk]
          rfl
    have hnc1 : noClash S
        (phase1StepsAt noFail (p ++ [fst]) children ⟨fs0, evs0, none⟩).fs :=
      noClash_update S fs0 _ hnc s3chg
    have hex1 : existsP
        (phase1StepsAt noFail (p ++ [fst]) children ⟨fs0, evs0, none⟩).fs
        (p ++ [fst]) = true := isDirAtB_exists _ _ s2
    have hf1 : obs
        (phase1StepsAt noFail (p ++ [fst]) children ⟨fs0, evs0, none⟩).fs r =
        some (PathObs.fileObs m c) :=
      phase1StepsAt_frozen S (p ++ [fst]) mtime children hsub2 hndc fs0 evs0
        hnc r m c hobs hmtr
    have hf2 := ih1 hmemc hnc1 s1 hex1 r m c hf1 hmtr
    obtain ⟨t1, t2, t3, _⟩ := phase1_main S hwfS (p ++ [fst]) children _
      hmemc hnc1 s1 hex1
    have hobs_p : obs (phase1Subs noFail (p ++ [fst]) children
        (phase1StepsAt noFail (p ++ [fst]) children ⟨fs0, evs0, none⟩)).fs p =
        obs fs0 p := by
      by_cases h23 : obs (phase1Subs noFail (p ++ [fst]) children
          (phase1StepsAt noFail (p ++ [fst]) children ⟨fs0, evs0, none⟩)).fs p =
          obs (phase1StepsAt noFail (p ++ [fst]) children ⟨fs0, evs0, none⟩).fs p
      · rw [h23]
        by_cases h12 : obs
            (phase1StepsAt noFail (p ++ [fst]) children ⟨fs0, evs0, none⟩).fs p =
            obs fs0 p
        · exact h12
        · rcases s3 p h12 with ⟨hr1, _, _⟩ | ⟨n, m1, c1, hm, hr1, _, _⟩
          · exact absurd hr1.symm (by simp)
          · exact absurd hr1 (by simp)
      · obtain ⟨⟨hpre, hne⟩, _⟩ := t3 p h23
        exact absurd (strict_of_snoc p p fst hpre).2 (by simp)
    have hex2 : existsP (phase1Subs noFail (p ++ [fst]) children
        (phase1StepsAt noFail (p ++ [fst]) children ⟨fs0, evs0, none⟩)).fs p =
        true := by
      rw [existsP_eq_obs, hobs_p, ← existsP_eq_obs]
      exact hex
    exact ih2 (fun n2 e2 hm => hmem n2 e2 (List.mem_cons_of_mem _ hm)) t2 t1
      hex2 r m c hf2 hmtr

theorem phase1_frozen_total (S D : Entry) (hwfS : wfE S = true)
    (msr : Nat) (scs : List (String × Entry)) (hS : S = Entry.dir msr scs)
    (hnc : noClash S D)
    (r : List String) (m c : Nat)
    (hobs : obs D r = some (PathObs.fileObs m c))
    (hmtr : isFileAtB S r = true → mtimeAt S r = some m) :
    obs (phase1Subs noFail [] scs
      (phase1StepsAt noFail [] scs ⟨D, [], none⟩)).fs r =
      some (PathObs.fileObs m c) := by
  have hsub : lookup S [] = some (Entry.dir msr scs) := by
    rw [lookup_nil, hS]
  have hnds : (scs.map Prod.fst).Nodup := by
    have : wfE (Entry.dir msr scs) = true := by rw [← hS]; exact hwfS
    exact wfE_dir_nodup msr scs this
  have hanc : ∀ r2, r2 <+: ([] : List String) → r2 ≠ [] →
      existsP D r2 = true := by
    intro r2 hpre hne
    exact absurd (List.prefix_nil.mp hpre) hne
  obtain ⟨s1, s2, s3, s5⟩ :=
    phase1StepsAt_spec S hwfS [] msr scs hsub D [] hnc hanc
  have hmem : ∀ n e, (n, e) ∈ scs → lookup S ([] ++ [n]) = some e := by
    intro n e hm
    rw [List.nil_append, hS,
      lookup_cons_some msr scs n e [] (lookupChild_of_mem_nodup scs n e hnds hm),
      lookup_nil]
  have s3chg : ∀ r2,
      obs (phase1StepsAt noFail [] scs ⟨D, [], none⟩).fs r2 ≠ obs D r2 →
      chg S D (phase1StepsAt noFail [] scs ⟨D, [], none⟩).fs r2 := by
    intro r2 hr
    rcases s3 r2 hr with ⟨hr1, hr2, hr3⟩ | ⟨n, m1, c1, hm, hr1, hr2, hr3⟩
    · subst hr1
      exact absurd hr2 (obs_nil_ne_none D)
    · subst hr1
      have hlk : lookup S ([] ++ [n]) = some (Entry.file m1 c1) := hmem n _ hm
      refine Or.inr ⟨?_, hr2, m1, c1, hr3, ?_⟩
      · unfold isFileAtB
        rw [hlk]
      · unfold mtimeAt
        rw [hlk]
        rfl
  have hnc1 : noClash S (phase1StepsAt noFail [] scs ⟨D, [], none⟩).fs :=
    noClash_update S D _ hnc s3chg
  have hf1 : obs (phase1StepsAt noFail [] scs ⟨D, [], none⟩).fs r =
      some (PathObs.fileObs m c) :=
    phase1StepsAt_frozen S [] msr scs hsub hnds D [] hnc r m c hobs hmtr
  exact phase1Subs_frozen S hwfS [] scs _ hmem hnc1 s1 (existsP_nil _) r m c
    hf1 hmtr

theorem snoc_prefix_snoc (p : List String) (n1 n2 : String)
    (h : (p ++ [n1]) <+: (p ++ [n2])) : n1 = n2 := by
  have hlen : (p ++ [n1]).length = (p ++ [n2]).length := by simp
  have heq := List.IsPrefix.eq_of_length h hlen
  have heq2 := List.append_cancel_left heq
  injection heq2

theorem sibling_incomp (p : List String) (n1 n2 : String) (hne : n1 ≠ n2) :
    ¬ (p ++ [n1]) <+: (p ++ [n2]) ∧ ¬ (p ++ [n2]) <+: (p ++ [n1]) :=
  ⟨fun h => hne (snoc_prefix_snoc p n1 n2 h),
   fun h => hne (snoc_prefix_snoc p n2 n1 h).symm⟩

theorem incomp_snoc (p2 r : List String) (n : String)
    (h1 : ¬ p2 <+: r) (h2 : ¬ r <+: p2) :
    ¬ (p2 ++ [n]) <+: r ∧ ¬ r <+: (p2 ++ [n]) := by
  constructor
  · intro hc
    exact h1 (strict_of_snoc p2 r n hc).1
  · intro hc
    rcases prefix_snoc_cases r p2 n hc with h3 | h3
    · subst h3
      exact h1 (List.prefix_append p2 [n])
    · exact h2 h3

theorem obs_none_of_not_exists (t : Entry) (r : List String)
    (h : existsP t r = false) : obs t r = none := by
  rw [existsP_eq_obs] at h
  cases ho : obs t r with
  | none => rfl
  | some o =>
    rw [ho] at h
    simp at h

theorem existsP_false_extend (t : Entry) (p r : List String) (hpre : p <+: r)
    (h : existsP t p = false) : existsP t r = false := by
  cases he : existsP t r with
  | false => rfl
  | true =>
    have := existsP_prefix t r p he hpre
    rw [h] at this
    cases this

theorem rmFilesFold_spec (S : Entry) (p : List String) (ns : List String) :
    ∀ fs evs, wfE fs = true →
    (rmFilesFold noFail S p ns ⟨fs, evs, none⟩).err = none ∧
    wfE (rmFilesFold noFail S p ns ⟨fs, evs, none⟩).fs = true ∧
    (∀ r, obs (rmFilesFold noFail S p ns ⟨fs, evs, none⟩).fs r =
      if ∃ n, n ∈ ns ∧ existsP S (p ++ [n]) = false ∧ (p ++ [n]) <+: r
      then none else obs fs r) ∧
    (∀ r, (∀ n, n ∈ ns → existsP S (p ++ [n]) = false →
        ¬((p ++ [n]) <+: r) ∧ ¬(r <+: (p ++ [n]))) →
      lookup (rmFilesFold noFail S p ns ⟨fs, evs, none⟩).fs r = lookup fs r) := by
  induction ns with
  | nil =>
    intro fs evs hwf
    refine ⟨rfl, hwf, ?_, ?_⟩
    · intro r
      rw [if_neg (by simp)]
      rfl
    · intro r _
      rfl
  | cons n rest ih =>
    intro fs evs hwf
    have hcons : rmFilesFold noFail S p (n :: rest) ⟨fs, evs, none⟩ =
        rmFilesFold noFail S p rest (rmFileStep noFail S p n ⟨fs, evs, none⟩) :=
      rfl
    rw [hcons]
    rcases rmFileStep_cases noFail S p n fs evs with ⟨heq, hexS⟩ |
        ⟨heq, hexS⟩ | ⟨heq, _⟩
    · rw [heq]
      obtain ⟨e1, w1, o1, l1⟩ := ih fs evs hwf
      refine ⟨e1, w1, ?_, ?_⟩
      · intro r
        rw [o1 r]
        by_cases hrest : ∃ n2, n2 ∈ rest ∧ existsP S (p ++ [n2]) = false ∧
            (p ++ [n2]) <+: r
        · rw [if_pos hrest]
          obtain ⟨n2, hm2, hf2, hp2⟩ := hrest
          rw [if_pos ⟨n2, List.mem_cons_of_mem _ hm2, hf2, hp2⟩]
        · rw [if_neg hrest, if_neg ?_]
          rintro ⟨n2, hm2, hf2, hp2⟩
          rcases List.mem_cons.mp hm2 with h2 | h2
          · subst h2
            rw [hexS] at hf2
            cases hf2
          · exact hrest ⟨n2, h2, hf2, hp2⟩
      · intro r hr
        exact l1 r (fun n2 hm2 => hr n2 (List.mem_cons_of_mem _ hm2))
    · rw [heq]
      have hwf2 : wfE (removePath fs (p ++ [n])) = true :=
        removePath_wf fs (p ++ [n]) hwf
      obtain ⟨e1, w1, o1, l1⟩ := ih (removePath fs (p ++ [n]))
        (evs ++ [Event.rmFile (p ++ [n])]) hwf2
      have hrp : ∀ r, obs (removePath fs (p ++ [n])) r =
          if (p ++ [n]) <+: r then none else obs fs r :=
        removePath_obs fs (p ++ [n]) (by simp) hwf
      refine ⟨e1, w1, ?_, ?_⟩
      · intro r
        rw [o1 r]
        by_cases hrest : ∃ n2, n2 ∈ rest ∧ existsP S (p ++ [n2]) = false ∧
            (p ++ [n2]) <+: r
        · rw [if_pos hrest]
          obtain ⟨n2, hm2, hf2, hp2⟩ := hrest
          rw [if_pos ⟨n2, List.mem_cons_of_mem _ hm2, hf2, hp2⟩]
        · rw [if_neg hrest, hrp r]
          by_cases hpre : (p ++ [n]) <+: r
          · rw [if_pos hpre, if_pos ⟨n, List.mem_cons_self _ _, hexS, hpre⟩]
          · rw [if_neg hpre, if_neg ?_]
            rintro ⟨n2, hm2, hf2, hp2⟩
            rcases List.mem_cons.mp hm2 with h2 | h2
            · subst h2
              exact hpre hp2
            · exact hrest ⟨n2, h2, hf2, hp2⟩
      · intro r hr
        obtain ⟨hi1, hi2⟩ := hr n (List.mem_cons_self _ _) hexS
        rw [l1 r (fun n2 hm2 => hr n2 (List.mem_cons_of_mem _ hm2))]
        exact removePath_lookup_disj fs (p ++ [n]) r hi1 hi2
    · have hok := rmFileStep_noFail_err S p n fs evs
      rw [heq] at hok
      cases hok

theorem rmDirsFold_spec (S : Entry) (p : List String) (ns : List String) :
    ∀ fs evs, wfE fs = true →
    (rmDirsFold noFail S p ns ⟨fs, evs, none⟩).err = none ∧
    wfE (rmDirsFold noFail S p ns ⟨fs, evs, none⟩).fs = true ∧
    (∀ r, obs (rmDirsFold noFail S p ns ⟨fs, evs, none⟩).fs r =
      if ∃ n, n ∈ ns ∧ existsP S (p ++ [n]) = false ∧ (p ++ [n]) <+: r
      then none else obs fs r) ∧
    (∀ r, (∀ n, n ∈ ns → existsP S (p ++ [n]) = false →
        ¬((p ++ [n]) <+: r) ∧ ¬(r <+: (p ++ [n]))) →
      lookup (rmDirsFold noFail S p ns ⟨fs, evs, none⟩).fs r = lookup fs r) := by
  induction ns with
  | nil =>
    intro fs evs hwf
    refine ⟨rfl, hwf, ?_, ?_⟩
    · intro r
      rw [if_neg (by simp)]
      rfl
    · intro r _
      rfl
  | cons n rest ih =>
    intro fs evs hwf
    have hcons : rmDirsFold noFail S p (n :: rest) ⟨fs, evs, none⟩ =
        rmDirsFold noFail S p rest (rmDirStep noFail S p n ⟨fs, evs, none⟩) :=
      rfl
    rw [hcons]
    rcases rmDirStep_cases noFail S p n fs evs with ⟨heq, hexS⟩ |
        ⟨heq, hexS⟩ | ⟨heq, _⟩
    · rw [heq]
      obtain ⟨e1, w1, o1, l1⟩ := ih fs evs hwf
      refine ⟨e1, w1, ?_, ?_⟩
      · intro r
        rw [o1 r]
        by_cases hrest : ∃ n2, n2 ∈ rest ∧ existsP S (p ++ [n2]) = false ∧
            (p ++ [n2]) <+: r
        · rw [if_pos hrest]
          obtain ⟨n2, hm2, hf2, hp2⟩ := hrest
          rw [if_pos ⟨n2, List.mem_cons_of_mem _ hm2, hf2, hp2⟩]
        · rw [if_neg hrest, if_neg ?_]
          rintro ⟨n2, hm2, hf2, hp2⟩
          rcases List.mem_cons.mp hm2 with h2 | h2
          · subst h2
            rw [hexS] at hf2
            cases hf2
          · exact hrest ⟨n2, h2, hf2, hp2⟩
      · intro r hr
        exact l1 r (fun n2 hm2 => hr n2 (List.mem_cons_of_mem _ hm2))
    · rw [heq]
      have hwf2 : wfE (removePath fs (p ++ [n])) = true :=
        removePath_wf fs (p ++ [n]) hwf
      obtain ⟨e1, w1, o1, l1⟩ := ih (removePath fs (p ++ [n]))
        (evs ++ [Event.rmDir (p ++ [n])]) hwf2
      have hrp : ∀ r, obs (removePath fs (p ++ [n])) r =
          if (p ++ [n]) <+: r then none else obs fs r :=
        removePath_obs fs (p ++ [n]) (by simp) hwf
      refine ⟨e1, w1, ?_, ?_⟩
      · intro r
        rw [o1 r]
        by_cases hrest : ∃ n2, n2 ∈ rest ∧ existsP S (p ++ [n2]) = false ∧
            (p ++ [n2]) <+: r
        · rw [if_pos hrest]
          obtain ⟨n2, hm2, hf2, hp2⟩ := hrest
          rw [if_pos ⟨n2, List.mem_cons_of_mem _ hm2, hf2, hp2⟩]
        · rw [if_neg hrest, hrp r]
          by_cases hpre : (p ++ [n]) <+: r
          · rw [if_pos hpre, if_pos ⟨n, List.mem_cons_self _ _, hexS, hpre⟩]
          · rw [if_neg hpre, if_neg ?_]
            rintro ⟨n2, hm2, hf2, hp2⟩
            rcases List.mem_cons.mp hm2 with h2 | h2
            · subst h2
              exact hpre hp2
            · exact hrest ⟨n2, h2, hf2, hp2⟩
      · intro r hr
        obtain ⟨hi1, hi2⟩ := hr n (List.mem_cons_self _ _) hexS
        rw [l1 r (fun n2 hm2 => hr n2 (List.mem_cons_of_mem _ hm2))]
        exact removePath_lookup_disj fs (p ++ [n]) r hi1 hi2
    · have hok := rmDirStep_noFail_err S p n fs evs
      rw [heq] at hok
      cases hok

theorem phase2StepsAt_spec2 (S : Entry) (p : List String)
    (cs : List (String × Entry)) (acc : Out)
    (herr : acc.err = none) (hwf : wfE acc.fs = true) :
    (phase2StepsAt noFail S p cs acc).err = none ∧
    wfE (phase2StepsAt noFail S p cs acc).fs = true ∧
    (∀ r, obs (phase2StepsAt noFail S p cs acc).fs r =
      if existsP acc.fs p = true ∧ ∃ n, n ∈ fileNamesOf cs ++ dirNamesOf cs ∧
          existsP S (p ++ [n]) = false ∧ (p ++ [n]) <+: r
      then none else obs acc.fs r) ∧
    (∀ r, (∀ n, n ∈ fileNamesOf cs ++ dirNamesOf cs →
        existsP S (p ++ [n]) = false →
        ¬((p ++ [n]) <+: r) ∧ ¬(r <+: (p ++ [n]))) →
      lookup (phase2StepsAt noFail S p cs acc).fs r = lookup acc.fs r) := by
  obtain ⟨fs, evs, err⟩ := acc
  simp only at herr
  subst herr
  simp only at hwf
  unfold phase2StepsAt
  rw [Out.bind_none _ _ rfl]
  by_cases hg : existsP fs p = true
  · rw [if_pos hg]
    obtain ⟨e1, w1, o1, l1⟩ := rmFilesFold_spec S p (fileNamesOf cs) fs evs hwf
    rcases hO : rmFilesFold noFail S p (fileNamesOf cs) ⟨fs, evs, none⟩ with
      ⟨fs1, evs1, err1⟩
    rw [hO] at e1 w1 o1 l1
    have e1x : err1 = none := e1
    subst e1x
    obtain ⟨e2, w2, o2, l2⟩ := rmDirsFold_spec S p (dirNamesOf cs) fs1 evs1 w1
    refine ⟨e2, w2, ?_, ?_⟩
    · intro r
      rw [o2 r]
      by_cases hd : ∃ n, n ∈ dirNamesOf cs ∧ existsP S (p ++ [n]) = false ∧
          (p ++ [n]) <+: r
      · rw [if_pos hd]
        obtain ⟨n, hm, hf, hp⟩ := hd
        rw [if_pos ⟨hg, n, List.mem_append_right _ hm, hf, hp⟩]
      · rw [if_neg hd, o1 r]
        by_cases hfi : ∃ n, n ∈ fileNamesOf cs ∧ existsP S (p ++ [n]) = false ∧
            (p ++ [n]) <+: r
        · rw [if_pos hfi]
          obtain ⟨n, hm, hf, hp⟩ := hfi
          rw [if_pos ⟨hg, n, List.mem_append_left _ hm, hf, hp⟩]
        · rw [if_neg hfi, if_neg ?_]
          rintro ⟨-, n, hm, hf, hp⟩
          rcases List.mem_append.mp hm with h2 | h2
          · exact hfi ⟨n, h2, hf, hp⟩
          · exact hd ⟨n, h2, hf, hp⟩
    · intro r hr
      rw [l2 r (fun n hm => hr n (List.mem_append_right _ hm))]
      exact l1 r (fun n hm => hr n (List.mem_append_left _ hm))
  · rw [if_neg hg]
    refine ⟨rfl, hwf, ?_, ?_⟩
    · intro r
      rw [if_neg (fun hc => hg hc.1)]
    · intro r _
      rfl

theorem lookup_none_existsP_false (t : Entry) (r : List String)
    (h : lookup t r = none) : existsP t r = false := by
  unfold existsP
  rw [h]
  rfl

theorem existsP_of_lookup_eq (t1 t2 : Entry) (r : List String)
    (h : lookup t1 r = lookup t2 r) : existsP t1 r = existsP t2 r := by
  unfold existsP
  rw [h]

theorem snoc_prefix_cons_append (p2 : List String) (a : String)
    (q : List String) : (p2 ++ [a]) <+: (p2 ++ a :: q) :=
  ⟨q, append_cons_eq p2 a q⟩

theorem phase2_visit (S : Entry) (p2 : List String) (m1 : Nat)
    (cs : List (String × Entry)) (acc : Out)
    (herr : acc.err = none) (hwf : wfE acc.fs = true)
    (hwfcs : wfE (Entry.dir m1 cs) = true)
    (hsnap : existsP acc.fs p2 = true →
      lookup acc.fs p2 = some (Entry.dir m1 cs))
    (IH :
      (∀ n e, (n, e) ∈ cs →
        existsP (phase2StepsAt noFail S p2 cs acc).fs (p2 ++ [n]) = true →
        lookup (phase2StepsAt noFail S p2 cs acc).fs (p2 ++ [n]) = some e) →
      ((cs.map Prod.fst).Nodup ∧ wfList cs = true) →
      (phase2StepsAt noFail S p2 cs acc).err = none →
      wfE (phase2StepsAt noFail S p2 cs acc).fs = true →
      (phase2Subs noFail S p2 cs (phase2StepsAt noFail S p2 cs acc)).err = none ∧
      wfE (phase2Subs noFail S p2 cs (phase2StepsAt noFail S p2 cs acc)).fs = true ∧
      (∀ r, obs (phase2Subs noFail S p2 cs (phase2StepsAt noFail S p2 cs acc)).fs r ≠
          obs (phase2StepsAt noFail S p2 cs acc).fs r →
        obs (phase2Subs noFail S p2 cs (phase2StepsAt noFail S p2 cs acc)).fs r = none ∧
        existsP S r = false ∧
        ∃ n, n ∈ dirNamesOf cs ∧ (p2 ++ [n]) <+: r ∧ r ≠ p2 ++ [n]) ∧
      (∀ n m2 cs2, (n, Entry.dir m2 cs2) ∈ cs → ∀ r, (p2 ++ [n]) <+: r →
        r ≠ p2 ++ [n] → existsP S r = false →
        obs (phase2Subs noFail S p2 cs (phase2StepsAt noFail S p2 cs acc)).fs r =
          none) ∧
      (∀ r, (∀ n, n ∈ dirNamesOf cs →
          ¬((p2 ++ [n]) <+: r) ∧ ¬(r <+: (p2 ++ [n]))) →
        lookup (phase2Subs noFail S p2 cs (phase2StepsAt noFail S p2 cs acc)).fs r =
          lookup (phase2StepsAt noFail S p2 cs acc).fs r)) :
    (phase2Subs noFail S p2 cs (phase2StepsAt noFail S p2 cs acc)).err = none ∧
    wfE (phase2Subs noFail S p2 cs (phase2StepsAt noFail S p2 cs acc)).fs = true ∧
    (∀ r, obs (phase2Subs noFail S p2 cs (phase2StepsAt noFail S p2 cs acc)).fs r ≠
        obs acc.fs r →
      obs (phase2Subs noFail S p2 cs (phase2StepsAt noFail S p2 cs acc)).fs r =
        none ∧
      existsP S r = false ∧ p2 <+: r ∧ r ≠ p2) ∧
    (∀ r, p2 <+: r → r ≠ p2 → existsP S r = false →
      obs (phase2Subs noFail S p2 cs (phase2StepsAt noFail S p2 cs acc)).fs r =
        none) ∧
    (∀ r, ¬(p2 <+: r) → ¬(r <+: p2) →
      lookup (phase2Subs noFail S p2 cs (phase2StepsAt noFail S p2 cs acc)).fs r =
        lookup acc.fs r) := by
  have hndcs : (cs.map Prod.fst).Nodup := wfE_dir_nodup m1 cs hwfcs
  have hwlcs : wfList cs = true := wfE_dir_wfList m1 cs hwfcs
  obtain ⟨e1, w1, o1, l1⟩ := phase2StepsAt_spec2 S p2 cs acc herr hwf
  have hsnap2 : ∀ n e, (n, e) ∈ cs →
      existsP (phase2StepsAt noFail S p2 cs acc).fs (p2 ++ [n]) = true →
      lookup (phase2StepsAt noFail S p2 cs acc).fs (p2 ++ [n]) = some e := by
    intro n e hm hex2
    by_cases hg : existsP acc.fs p2 = true
    · have hnames : n ∈ fileNamesOf cs ++ dirNamesOf cs := by
        cases e with
        | file mf cf =>
          exact List.mem_append_left _ ((fileNamesOf_mem cs n).mpr ⟨mf, cf, hm⟩)
        | dir md csd =>
          exact List.mem_append_right _ ((dirNamesOf_mem cs n).mpr ⟨md, csd, hm⟩)
      by_cases hexS : existsP S (p2 ++ [n]) = true
      · have hlp : lookup (phase2StepsAt noFail S p2 cs acc).fs (p2 ++ [n]) =
            lookup acc.fs (p2 ++ [n]) := by
          apply l1
          intro n2 hm2 hf2
          have hne : n2 ≠ n := by
            intro hc
            subst hc
            rw [hexS] at hf2
            cases hf2
          exact sibling_incomp p2 n2 n hne
        rw [hlp]
        rw [lookup_append, hsnap hg, Option.some_bind,
          lookup_cons_some m1 cs n e []
            (lookupChild_of_mem_nodup cs n e hndcs hm), lookup_nil]
      · have hnone : obs (phase2StepsAt noFail S p2 cs acc).fs (p2 ++ [n]) =
            none := by
          rw [o1 (p2 ++ [n]),
            if_pos ⟨hg, n, hnames, by simpa using hexS, List.prefix_refl _⟩]
        rw [existsP_eq_obs, hnone] at hex2
        cases hex2
    · have hexA : existsP acc.fs (p2 ++ [n]) = true := by
        have hlp : existsP (phase2StepsAt noFail S p2 cs acc).fs (p2 ++ [n]) =
            existsP acc.fs (p2 ++ [n]) := by
          rw [existsP_eq_obs, existsP_eq_obs, o1 (p2 ++ [n]),
            if_neg (fun hc => hg hc.1)]
        rw [hlp] at hex2
        exact hex2
      have := existsP_prefix acc.fs (p2 ++ [n]) p2 hexA
        (List.prefix_append p2 [n])
      exact absurd this hg
  obtain ⟨E1, W1, B1, C1, L1⟩ := IH hsnap2 ⟨hndcs, hwlcs⟩ e1 w1
  have hB : ∀ r,
      obs (phase2Subs noFail S p2 cs (phase2StepsAt noFail S p2 cs acc)).fs r ≠
        obs acc.fs r →
      obs (phase2Subs noFail S p2 cs (phase2StepsAt noFail S p2 cs acc)).fs r =
        none ∧
      existsP S r = false ∧ p2 <+: r ∧ r ≠ p2 := by
    intro r hr
    by_cases h12 : obs (phase2Subs noFail S p2 cs
        (phase2StepsAt noFail S p2 cs acc)).fs r =
        obs (phase2StepsAt noFail S p2 cs acc).fs r
    · have h01 : obs (phase2StepsAt noFail S p2 cs acc).fs r ≠
          obs acc.fs r := fun hc => hr (h12.trans hc)
      have hcond : existsP acc.fs p2 = true ∧
          ∃ n, n ∈ fileNamesOf cs ++ dirNamesOf cs ∧
            existsP S (p2 ++ [n]) = false ∧ (p2 ++ [n]) <+: r := by
        by_contra hc
        exact h01 (by rw [o1 r, if_neg hc])
      obtain ⟨hg, n, hnames, hf, hp⟩ := hcond
      have hnone : obs (phase2StepsAt noFail S p2 cs acc).fs r = none := by
        rw [o1 r, if_pos ⟨hg, n, hnames, hf, hp⟩]
      exact ⟨h12.trans hnone, existsP_false_extend S (p2 ++ [n]) r hp hf,
        (strict_of_snoc p2 r n hp).1, (strict_of_snoc p2 r n hp).2⟩
    · obtain ⟨hnone, hf, n, hnames, hp, hne⟩ := B1 r h12
      exact ⟨hnone, hf, (strict_of_snoc p2 r n hp).1,
        (strict_of_snoc p2 r n hp).2⟩
  refine ⟨E1, W1, hB, ?_, ?_⟩
  · -- completeness below p2
    intro r hpre hne hexS
    obtain ⟨a, q, hr⟩ := prefix_proper_decomp p2 r hpre (fun hc => hne hc.symm)
    subst hr
    have hfin_of_none : obs acc.fs (p2 ++ a :: q) = none →
        obs (phase2Subs noFail S p2 cs
          (phase2StepsAt noFail S p2 cs acc)).fs (p2 ++ a :: q) = none := by
      intro h0
      by_cases hch : obs (phase2Subs noFail S p2 cs
          (phase2StepsAt noFail S p2 cs acc)).fs (p2 ++ a :: q) =
          obs acc.fs (p2 ++ a :: q)
      · rw [hch, h0]
      · exact (hB _ hch).1
    by_cases hg : existsP acc.fs p2 = true
    · have hlk : lookup acc.fs p2 = some (Entry.dir m1 cs) := hsnap hg
      cases hlc : lookupChild cs a with
      | none =>
        apply hfin_of_none
        apply obs_none_of_not_exists
        apply existsP_false_extend acc.fs (p2 ++ [a]) _
          (snoc_prefix_cons_append p2 a q)
        apply lookup_none_existsP_false
        rw [lookup_append, hlk, Option.some_bind,
          lookup_cons_none m1 cs a [] hlc]
      | some e =>
        have hlka : lookup acc.fs (p2 ++ [a]) = some e := by
          rw [lookup_append, hlk, Option.some_bind,
            lookup_cons_some m1 cs a e [] hlc, lookup_nil]
        have hmema : (a, e) ∈ cs := lookupChild_mem cs a e hlc
        by_cases hexSa : existsP S (p2 ++ [a]) = true
        · cases e with
          | file mf cf =>
            cases q with
            | nil =>
              rw [hexS] at hexSa
              cases hexSa
            | cons b q2 =>
              apply hfin_of_none
              apply obs_none_of_not_exists
              apply lookup_none_existsP_false
              rw [← append_cons_eq, lookup_append, hlka, Option.some_bind]
              rfl
          | dir md csd =>
            cases q with
            | nil =>
              rw [hexS] at hexSa
              cases hexSa
            | cons b q2 =>
              apply C1 a md csd hmema _ (snoc_prefix_cons_append p2 a (b :: q2))
                ?_ hexS
              intro hc
              have := congrArg List.length hc
              rw [← append_cons_eq] at this
              simp at this
        · have hnames : a ∈ fileNamesOf cs ++ dirNamesOf cs := by
            cases e with
            | file mf cf =>
              exact List.mem_append_left _
                ((fileNamesOf_mem cs a).mpr ⟨mf, cf, hmema⟩)
            | dir md csd =>
              exact List.mem_append_right _
                ((dirNamesOf_mem cs a).mpr ⟨md, csd, hmema⟩)
          have hsteps_none : obs (phase2StepsAt noFail S p2 cs acc).fs
              (p2 ++ a :: q) = none := by
            rw [o1 _, if_pos ⟨hg, a, hnames, by simpa using hexSa,
              snoc_prefix_cons_append p2 a q⟩]
          by_cases hch : obs (phase2Subs noFail S p2 cs
              (phase2StepsAt noFail S p2 cs acc)).fs (p2 ++ a :: q) =
              obs (phase2StepsAt noFail S p2 cs acc).fs (p2 ++ a :: q)
          · rw [hch]
            exact hsteps_none
          · exact (B1 _ hch).1
    · apply hfin_of_none
      apply obs_none_of_not_exists
      exact existsP_false_extend acc.fs p2 _
        (strict_of_snoc p2 (p2 ++ a :: q) a
          (snoc_prefix_cons_append p2 a q)).1 (by simpa using hg)
  · -- frame for paths incomparable with p2
    intro r h1 h2
    rw [L1 r (fun n _ => incomp_snoc p2 r n h1 h2)]
    exact l1 r (fun n _ _ => incomp_snoc p2 r n h1 h2)

theorem phase2_main (S : Entry) :
    ∀ (p : List String) (l : List (String × Entry)) (acc : Out),
    (∀ n e, (n, e) ∈ l → existsP acc.fs (p ++ [n]) = true →
      lookup acc.fs (p ++ [n]) = some e) →
    ((l.map Prod.fst).Nodup ∧ wfList l = true) →
    acc.err = none →
    wfE acc.fs = true →
    (phase2Subs noFail S p l acc).err = none ∧
    wfE (phase2Subs noFail S p l acc).fs = true ∧
    (∀ r, obs (phase2Subs noFail S p l acc).fs r ≠ obs acc.fs r →
      obs (phase2Subs noFail S p l acc).fs r = none ∧
      existsP S r = false ∧
      ∃ n, n ∈ dirNamesOf l ∧ (p ++ [n]) <+: r ∧ r ≠ p ++ [n]) ∧
    (∀ n m2 cs2, (n, Entry.dir m2 cs2) ∈ l → ∀ r, (p ++ [n]) <+: r →
      r ≠ p ++ [n] → existsP S r = false →
      obs (phase2Subs noFail S p l acc).fs r = none) ∧
    (∀ r, (∀ n, n ∈ dirNamesOf l →
        ¬((p ++ [n]) <+: r) ∧ ¬(r <+: (p ++ [n]))) →
      lookup (phase2Subs noFail S p l acc).fs r = lookup acc.fs r) := by
  intro p l acc
  induction p, l, acc using phase2Subs.induct noFail S with
  | case1 p acc =>
    intro hsnap hwl herr hwf
    rw [phase2Subs_nil]
    refine ⟨herr, hwf, ?_, ?_, ?_⟩
    · intro r hr
      exact absurd rfl hr
    · intro n m2 cs2 hm
      simp at hm
    · intro r _
      rfl
  | case2 p acc n0 m0 c0 rest ih =>
    intro hsnap hwl herr hwf
    rw [phase2Subs_file]
    have hwl2 : ((rest.map Prod.fst).Nodup ∧ wfList rest = true) := by
      refine ⟨(List.nodup_cons.mp hwl.1).2, ?_⟩
      have := hwl.2
      rw [wfList_cons] at this
      exact (bool_and_split this).2
    obtain ⟨f1, f2, f3, f4, f5⟩ := ih
      (fun n2 e2 hm => hsnap n2 e2 (List.mem_cons_of_mem _ hm)) hwl2 herr hwf
    refine ⟨f1, f2, ?_, ?_, ?_⟩
    · intro r hr
      obtain ⟨h1, h2, n, hn, h3, h4⟩ := f3 r hr
      exact ⟨h1, h2, n, hn, h3, h4⟩
    · intro n m2 cs2 hm
      rcases List.mem_cons.mp hm with hm1 | hm1
      · injection hm1 with hm1a hm1b
        injection hm1b
      · exact f4 n m2 cs2 hm1
    · intro r hinc
      exact f5 r (fun n hn => hinc n hn)
  | case3 p acc n1 m1 cs1 rest ih1 ih2 =>
    intro hsnap hwl herr hwf
    rw [phase2Subs_dir]
    unfold phase2At
    have hwfcs1 : wfE (Entry.dir m1 cs1) = true := by
      have := hwl.2
      rw [wfList_cons] at this
      exact (bool_and_split this).1
    have hn1notin : n1 ∉ rest.map Prod.fst := (List.nodup_cons.mp hwl.1).1
    have hwl2 : ((rest.map Prod.fst).Nodup ∧ wfList rest = true) := by
      refine ⟨(List.nodup_cons.mp hwl.1).2, ?_⟩
      have := hwl.2
      rw [wfList_cons] at this
      exact (bool_and_split this).2
    obtain ⟨vA, vW, vB, vC, vE⟩ := phase2_visit S (p ++ [n1]) m1 cs1 acc herr
      hwf hwfcs1 (hsnap n1 _ (List.mem_cons_self _ _)) ih1
    have hsnap_rest : ∀ n2 e2, (n2, e2) ∈ rest →
        existsP (phase2Subs noFail S (p ++ [n1]) cs1
          (phase2StepsAt noFail S (p ++ [n1]) cs1 acc)).fs (p ++ [n2]) = true →
        lookup (phase2Subs noFail S (p ++ [n1]) cs1
          (phase2StepsAt noFail S (p ++ [n1]) cs1 acc)).fs (p ++ [n2]) =
          some e2 := by
      intro n2 e2 hm hex2
      have hne : n2 ≠ n1 := by
        intro hc
        subst hc
        exact hn1notin (List.mem_map.mpr ⟨(n2, e2), hm, rfl⟩)
      obtain ⟨hi1, hi2⟩ := sibling_incomp p n2 n1 hne
      have hlp := vE (p ++ [n2]) hi2 hi1
      rw [hlp]
      rw [existsP_of_lookup_eq _ acc.fs _ hlp] at hex2
      exact hsnap n2 e2 (List.mem_cons_of_mem _ hm) hex2
    obtain ⟨rA, rW, rB, rC, rE⟩ := ih2 hsnap_rest hwl2 vA vW
    refine ⟨rA, rW, ?_, ?_, ?_⟩
    · -- changed paths relative to acc
      intro r hr
      by_cases h23 : obs (phase2Subs noFail S p rest
          (phase2Subs noFail S (p ++ [n1]) cs1
            (phase2StepsAt noFail S (p ++ [n1]) cs1 acc))).fs r =
          obs (phase2Subs noFail S (p ++ [n1]) cs1
            (phase2StepsAt noFail S (p ++ [n1]) cs1 acc)).fs r
      · have h01 : obs (phase2Subs noFail S (p ++ [n1]) cs1
            (phase2StepsAt noFail S (p ++ [n1]) cs1 acc)).fs r ≠
            obs acc.fs r := fun hc => hr (h23.trans hc)
        obtain ⟨hnone, hf, hp, hne⟩ := vB r h01
        refine ⟨h23.trans hnone, hf, n1, ?_, hp, hne⟩
        exact List.mem_cons_self _ _
      · obtain ⟨hnone, hf, n, hn, h3, h4⟩ := rB r h23
        exact ⟨hnone, hf, n, List.mem_cons_of_mem _ hn, h3, h4⟩
    · -- completeness for each listed subdirectory
      intro n m2 cs2 hm r hpre hne hexS
      rcases List.mem_cons.mp hm with hm1 | hm1
      · injection hm1 with hm1a hm1b
        subst hm1a
        injection hm1b with hm1c hm1d
        subst hm1c
        subst hm1d
        have hv := vC r hpre hne hexS
        by_cases h23 : obs (phase2Subs noFail S p rest
            (phase2Subs noFail S (p ++ [n]) cs2
              (phase2StepsAt noFail S (p ++ [n]) cs2 acc))).fs r =
            obs (phase2Subs noFail S (p ++ [n]) cs2
              (phase2StepsAt noFail S (p ++ [n]) cs2 acc)).fs r
        · rw [h23]
          exact hv
        · exact (rB r h23).1
      · exact rC n m2 cs2 hm1 r hpre hne hexS
    · -- frame
      intro r hinc
      rw [rE r (fun n hn => hinc n (List.mem_cons_of_mem _ hn))]
      obtain ⟨hi1, hi2⟩ := hinc n1 (List.mem_cons_self _ _)
      exact vE r hi1 hi2

theorem phase2_total (S : Entry) (md : Nat) (dcs : List (String × Entry))
    (evs : List Event)
    (hwf : wfE (Entry.dir md dcs) = true) :
    (phase2Subs noFail S [] dcs
      (phase2StepsAt noFail S [] dcs ⟨Entry.dir md dcs, evs, none⟩)).err =
        none ∧
    wfE (phase2Subs noFail S [] dcs
      (phase2StepsAt noFail S [] dcs ⟨Entry.dir md dcs, evs, none⟩)).fs =
        true ∧
    (∀ r, obs (phase2Subs noFail S [] dcs
        (phase2StepsAt noFail S [] dcs ⟨Entry.dir md dcs, evs, none⟩)).fs r ≠
        obs (Entry.dir md dcs) r →
      obs (phase2Subs noFail S [] dcs
        (phase2StepsAt noFail S [] dcs ⟨Entry.dir md dcs, evs, none⟩)).fs r =
        none ∧ existsP S r = false ∧ r ≠ []) ∧
    (∀ r, r ≠ [] → existsP S r = false →
      obs (phase2Subs noFail S [] dcs
        (phase2StepsAt noFail S [] dcs ⟨Entry.dir md dcs, evs, none⟩)).fs r =
        none) := by
  obtain ⟨vA, vW, vB, vC, vE⟩ := phase2_visit S [] md dcs
    ⟨Entry.dir md dcs, evs, none⟩ rfl hwf hwf
    (fun _ => by rw [lookup_nil])
    (phase2_main S [] dcs _)
  refine ⟨vA, vW, ?_, ?_⟩
  · intro r hr
    obtain ⟨h1, h2, _, h4⟩ := vB r hr
    exact ⟨h1, h2, h4⟩
  · intro r hne hexS
    exact vC r List.nil_prefix hne hexS

theorem dirStep_wf (fail : Fail) (p : List String) (acc : Out)
    (h : wfE acc.fs = true) : wfE (dirStep fail p acc).fs = true := by
  obtain ⟨fs, evs, err⟩ := acc
  cases err with
  | some e =>
    rw [dirStep_errsome fail p _ e rfl]
    exact h
  | none =>
    unfold dirStep
    rw [Out.bind_none _ _ rfl]
    by_cases hex : existsP fs p
    · rw [if_pos hex]
      exact h
    · rw [if_neg hex]
      by_cases hf : fail OpKind.mkdirOp p
      · rw [if_pos hf]
        exact h
      · rw [if_neg hf]
        cases hmk : makedirs fs p with
        | ok fs2 => exact makedirs_wf fs fs2 p h hmk
        | error e => exact h

theorem copy2_wf (t t2 : Entry) (q : List String) (base : String) (m c : Nat)
    (h : wfE t = true) (hok : copy2 t q base m c = Except.ok t2) :
    wfE t2 = true := by
  unfold copy2 at hok
  cases hl : lookup t q with
  | none =>
    rw [hl] at hok
    exact setFileAt_wf t t2 q m c h hok
  | some e =>
    rw [hl] at hok
    cases e with
    | file mf cf => exact setFileAt_wf t t2 q m c h hok
    | dir md cds => exact setFileAt_wf t t2 (q ++ [base]) m c h hok

theorem fileStep_wf (fail : Fail) (p : List String) (f : String × Nat × Nat)
    (acc : Out) (h : wfE acc.fs = true) :
    wfE (fileStep fail p f acc).fs = true := by
  obtain ⟨fs, evs, err⟩ := acc
  cases err with
  | some e =>
    rw [fileStep_errsome fail p f _ e rfl]
    exact h
  | none =>
    unfold fileStep
    rw [Out.bind_none _ _ rfl]
    by_cases hsc : shouldCopy fs (p ++ [f.1]) f.2.1
    · rw [if_pos hsc]
      by_cases hf : fail OpKind.copyOp (p ++ [f.1])
      · rw [if_pos hf]
        exact h
      · rw [if_neg hf]
        cases hcp : copy2 fs (p ++ [f.1]) f.1 f.2.1 f.2.2 with
        | ok fs2 => exact copy2_wf fs fs2 (p ++ [f.1]) f.1 f.2.1 f.2.2 h hcp
        | error e => exact h
    · rw [if_neg hsc]
      exact h

theorem copyFilesFold_wf (fail : Fail) (p : List String)
    (F : List (String × Nat × Nat)) :
    ∀ acc, wfE acc.fs = true → wfE (copyFilesFold fail p F acc).fs = true := by
  induction F with
  | nil =>
    intro acc h
    exact h
  | cons f rest ih =>
    intro acc h
    exact ih (fileStep fail p f acc) (fileStep_wf fail p f acc h)

theorem phase1StepsAt_wf (fail : Fail) (p : List String)
    (cs : List (String × Entry)) (acc : Out) (h : wfE acc.fs = true) :
    wfE (phase1StepsAt fail p cs acc).fs = true := by
  unfold phase1StepsAt
  exact copyFilesFold_wf fail p (filesOf cs) _ (dirStep_wf fail p acc h)

theorem phase1Subs_wf (fail : Fail) :
    ∀ (p : List String) (l : List (String × Entry)) (acc : Out),
    wfE acc.fs = true → wfE (phase1Subs fail p l acc).fs = true := by
  intro p l acc
  induction p, l, acc using phase1Subs.induct fail with
  | case1 p acc =>
    intro h
    rw [phase1Subs_nil]
    exact h
  | case2 p acc n0 m0 c0 rest ih =>
    intro h
    rw [phase1Subs_file]
    exact ih h
  | case3 p acc fst mtime children rest ih1 ih2 =>
    intro h
    rw [phase1Subs_dir]
    unfold phase1At
    exact ih2 (ih1 (phase1StepsAt_wf fail (p ++ [fst]) children acc h))

theorem dirStep_obs_nil (fail : Fail) (p : List String) (acc : Out) :
    obs (dirStep fail p acc).fs [] = obs acc.fs [] := by
  obtain ⟨fs, evs, err⟩ := acc
  cases err with
  | some e => rw [dirStep_errsome fail p _ e rfl]
  | none =>
    rcases dirStep_cases fail p fs evs with ⟨heq, _⟩ | ⟨fs2, heq, _, hobs⟩ |
        ⟨heq, _⟩
    · rw [heq]
    · rw [heq]
      show obs fs2 [] = obs fs []
      rw [hobs [], if_neg (fun hc => obs_nil_ne_none fs hc.2)]
    · rw [heq]

theorem fileStep_obs_nil (fail : Fail) (p : List String)
    (f : String × Nat × Nat) (acc : Out) :
    obs (fileStep fail p f acc).fs [] = obs acc.fs [] := by
  obtain ⟨fs, evs, err⟩ := acc
  cases err with
  | some e => rw [fileStep_errsome fail p f _ e rfl]
  | none =>
    obtain ⟨n, m, c⟩ := f
    rcases fileStep_cases fail p n m c fs evs with ⟨heq, _⟩ |
        ⟨fs2, heq, _, hkind⟩ | heq
    · rw [heq]
    · rw [heq]
      show obs fs2 [] = obs fs []
      rcases hkind with ⟨_, hobs⟩ | ⟨_, _, hobs⟩
      · rw [hobs [], if_neg (by simp)]
      · rw [hobs [], if_neg (by simp)]
    · rw [heq]

theorem copyFilesFold_obs_nil (fail : Fail) (p : List String)
    (F : List (String × Nat × Nat)) :
    ∀ acc, obs (copyFilesFold fail p F acc).fs [] = obs acc.fs [] := by
  induction F with
  | nil =>
    intro acc
    rfl
  | cons f rest ih =>
    intro acc
    have hcons : copyFilesFold fail p (f :: rest) acc =
        copyFilesFold fail p rest (fileStep fail p f acc) := rfl
    rw [hcons, ih (fileStep fail p f acc), fileStep_obs_nil]

theorem phase1StepsAt_obs_nil (fail : Fail) (p : List String)
    (cs : List (String × Entry)) (acc : Out) :
    obs (phase1StepsAt fail p cs acc).fs [] = obs acc.fs [] := by
  unfold phase1StepsAt
  rw [copyFilesFold_obs_nil fail p (filesOf cs) _, dirStep_obs_nil]

theorem phase1Subs_obs_nil (fail : Fail) :
    ∀ (p : List String) (l : List (String × Entry)) (acc : Out),
    obs (phase1Subs fail p l acc).fs [] = obs acc.fs [] := by
  intro p l acc
  induction p, l, acc using phase1Subs.induct fail with
  | case1 p acc => rw [phase1Subs_nil]
  | case2 p acc n0 m0 c0 rest ih =>
    rw [phase1Subs_file]
    exact ih
  | case3 p acc fst mtime children rest ih1 ih2 =>
    rw [phase1Subs_dir]
    unfold phase1At
    rw [ih2, ih1, phase1StepsAt_obs_nil]

theorem exists_not_dir_file (t : Entry) (r : List String)
    (hex : existsP t r = true) (hnd : isDirAtB t r = false) :
    isFileAtB t r = true := by
  rw [existsP_eq_obs] at hex
  cases ho : obs t r with
  | none =>
    rw [ho] at hex
    simp at hex
  | some o =>
    cases o with
    | fileObs m0 c0 => exact obs_fileObs_isFileAtB t r m0 c0 ho
    | dirObs m0 =>
      rw [obs_dirObs_isDirAtB t r m0 ho] at hnd
      cases hnd

theorem synch_spec (ms md : Nat) (scs dcs : List (String × Entry))
    (hwfS : wfE (Entry.dir ms scs) = true)
    (hwfD : wfE (Entry.dir md dcs) = true)
    (hnc : noClash (Entry.dir ms scs) (Entry.dir md dcs)) :
    (synch (Entry.dir ms scs) (Entry.dir md dcs)).err = none ∧
    wfE (synch (Entry.dir ms scs) (Entry.dir md dcs)).fs = true ∧
    (∀ r, r ≠ [] → existsP (Entry.dir ms scs) r = false →
      obs (synch (Entry.dir ms scs) (Entry.dir md dcs)).fs r = none) ∧
    (∀ r m c1, obs (Entry.dir ms scs) r = some (PathObs.fileObs m c1) →
      ∃ c2, obs (synch (Entry.dir ms scs) (Entry.dir md dcs)).fs r =
        some (PathObs.fileObs m c2)) ∧
    (∀ r, isDirAtB (Entry.dir ms scs) r = true →
      isDirAtB (synch (Entry.dir ms scs) (Entry.dir md dcs)).fs r = true) ∧
    (∀ r, isFileAtB (synch (Entry.dir ms scs) (Entry.dir md dcs)).fs r = true →
      isFileAtB (Entry.dir ms scs) r = true) ∧
    (∀ r, isDirAtB (synch (Entry.dir ms scs) (Entry.dir md dcs)).fs r = true →
      isDirAtB (Entry.dir ms scs) r = true) ∧
    (∀ r m c, obs (Entry.dir md dcs) r = some (PathObs.fileObs m c) →
      (isFileAtB (Entry.dir ms scs) r = true →
        mtimeAt (Entry.dir ms scs) r = some m) →
      existsP (Entry.dir ms scs) r = true →
      obs (synch (Entry.dir ms scs) (Entry.dir md dcs)).fs r =
        some (PathObs.fileObs m c)) := by
  obtain ⟨p1err, p1nc, p1chg, p1dirB, p1dir, p1file⟩ :=
    phase1_total (Entry.dir ms scs) (Entry.dir md dcs) hwfS ms scs rfl hnc
  have wfP1 : wfE (phase1Subs noFail [] scs
      (phase1StepsAt noFail [] scs ⟨Entry.dir md dcs, [], none⟩)).fs = true :=
    phase1Subs_wf noFail [] scs _
      (phase1StepsAt_wf noFail [] scs ⟨Entry.dir md dcs, [], none⟩ hwfD)
  have hfrz := phase1_frozen_total (Entry.dir ms scs) (Entry.dir md dcs) hwfS
    ms scs rfl hnc
  have hobs0 : obs (phase1Subs noFail [] scs
      (phase1StepsAt noFail [] scs ⟨Entry.dir md dcs, [], none⟩)).fs [] =
      some (PathObs.dirObs md) := by
    by_cases hch : obs (phase1Subs noFail [] scs
        (phase1StepsAt noFail [] scs ⟨Entry.dir md dcs, [], none⟩)).fs [] =
        obs (Entry.dir md dcs) []
    · rw [hch]
      rfl
    · exact absurd rfl (p1chg [] hch).1
  cases hfs : (phase1Subs noFail [] scs
      (phase1StepsAt noFail [] scs ⟨Entry.dir md dcs, [], none⟩)).fs with
  | file mf cf =>
    rw [hfs] at hobs0
    simp [obs_nil] at hobs0
  | dir md1 dcs1 =>
    rw [hfs] at wfP1 p1nc p1chg p1dirB p1dir p1file hfrz
    have hstep : synch (Entry.dir ms scs) (Entry.dir md dcs) =
        phase2Subs noFail (Entry.dir ms scs) [] dcs1
          (phase2StepsAt noFail (Entry.dir ms scs) [] dcs1
            ⟨Entry.dir md1 dcs1,
             (phase1Subs noFail [] scs
               (phase1StepsAt noFail [] scs
                 ⟨Entry.dir md dcs, [], none⟩)).evs,
             none⟩) := by
      have hbind : synch (Entry.dir ms scs) (Entry.dir md dcs) =
          Out.bind (phase1Subs noFail [] scs
            (phase1StepsAt noFail [] scs ⟨Entry.dir md dcs, [], none⟩))
            (fun fs evs =>
              match fs with
              | Entry.dir _ dcs2 =>
                  phase2Subs noFail (Entry.dir ms scs) [] dcs2
                    (phase2StepsAt noFail (Entry.dir ms scs) [] dcs2
                      ⟨fs, evs, none⟩)
              | Entry.file _ _ => ⟨fs, evs, none⟩) := rfl
      rw [hbind, Out.bind_none _ _ p1err, hfs]
    obtain ⟨q1, qW, qB, qC⟩ := phase2_total (Entry.dir ms scs) md1 dcs1
      (phase1Subs noFail [] scs
        (phase1StepsAt noFail [] scs ⟨Entry.dir md dcs, [], none⟩)).evs wfP1
    have hsurv : ∀ r, existsP (Entry.dir ms scs) r = true →
        obs (phase2Subs noFail (Entry.dir ms scs) [] dcs1
          (phase2StepsAt noFail (Entry.dir ms scs) [] dcs1
            ⟨Entry.dir md1 dcs1,
             (phase1Subs noFail [] scs
               (phase1StepsAt noFail [] scs
                 ⟨Entry.dir md dcs, [], none⟩)).evs,
             none⟩)).fs r = obs (Entry.dir md1 dcs1) r := by
      intro r hex
      by_cases hch : obs (phase2Subs noFail (Entry.dir ms scs) [] dcs1
          (phase2StepsAt noFail (Entry.dir ms scs) [] dcs1
            ⟨Entry.dir md1 dcs1,
             (phase1Subs noFail [] scs
               (phase1StepsAt noFail [] scs
                 ⟨Entry.dir md dcs, [], none⟩)).evs,
             none⟩)).fs r = obs (Entry.dir md1 dcs1) r
      · exact hch
      · obtain ⟨_, hfS, _⟩ := qB r hch
        rw [hex] at hfS
        cases hfS
    rw [hstep]
    refine ⟨q1, qW, ?_, ?_, ?_, ?_, ?_, ?_⟩
    · -- deletion completeness
      intro r hne hexS
      exact qC r hne hexS
    · -- every source file is mirrored with its timestamp
      intro r m c1 hof
      cases hrc : r with
      | nil =>
        subst hrc
        rw [obs_nil] at hof
        simp at hof
      | cons a q =>
        subst hrc
        obtain ⟨c2, hp1⟩ := p1file (a :: q) m c1 (by simp) hof
        have hex : existsP (Entry.dir ms scs) (a :: q) = true := by
          rw [existsP_eq_obs, hof]
          rfl
        rw [hsurv (a :: q) hex]
        exact ⟨c2, hp1⟩
    · -- every source directory is mirrored
      intro r hs
      cases hrc : r with
      | nil =>
        subst hrc
        have : isDirAtB (Entry.dir md1 dcs1) [] = true := by
          unfold isDirAtB
          rw [lookup_nil]
        rw [← obs_kind_eq _ _ [] (hsurv [] (existsP_nil _))] at this
        exact this
      | cons a q =>
        subst hrc
        have hd1 : isDirAtB (Entry.dir md1 dcs1) (a :: q) = true :=
          p1dir (a :: q) (by simp) hs
        have hex : existsP (Entry.dir ms scs) (a :: q) = true :=
          isDirAtB_exists _ _ hs
        rw [← obs_kind_eq _ _ (a :: q) (hsurv (a :: q) hex)] at hd1
        exact hd1
    · -- a destination file always has a source file counterpart
      intro r hf
      obtain ⟨m, c, hof⟩ := (isFileAtB_eq_obs _ r).mp hf
      have hex : existsP (Entry.dir ms scs) r = true := by
        by_contra hc
        have hc2 : existsP (Entry.dir ms scs) r = false := by
          cases h2 : existsP (Entry.dir ms scs) r
          · rfl
          · exact absurd h2 hc
        cases hrc : r with
        | nil =>
          subst hrc
          rw [existsP_nil] at hc2
          cases hc2
        | cons a q =>
          subst hrc
          rw [qC (a :: q) (by simp) hc2] at hof
          cases hof
      have hp1f : isFileAtB (Entry.dir md1 dcs1) r = true := by
        rw [← obs_kind_eq_file _ _ r (hsurv r hex)]
        exact hf
      have hnd : isDirAtB (Entry.dir ms scs) r = false := by
        cases h2 : isDirAtB (Entry.dir ms scs) r
        · rfl
        · exact absurd ⟨h2, hp1f⟩ (p1nc r).1
      exact exists_not_dir_file _ r hex hnd
    · -- a destination directory always has a source directory counterpart
      intro r hd
      have hex : existsP (Entry.dir ms scs) r = true := by
        by_contra hc
        have hc2 : existsP (Entry.dir ms scs) r = false := by
          cases h2 : existsP (Entry.dir ms scs) r
          · rfl
          · exact absurd h2 hc
        cases hrc : r with
        | nil =>
          subst hrc
          rw [existsP_nil] at hc2
          cases hc2
        | cons a q =>
          subst hrc
          obtain ⟨m0, hof⟩ := (isDirAtB_eq_obs _ (a :: q)).mp hd
          rw [qC (a :: q) (by simp) hc2] at hof
          cases hof
      have hp1d : isDirAtB (Entry.dir md1 dcs1) r = true := by
        rw [← obs_kind_eq _ _ r (hsurv r hex)]
        exact hd
      have hnf : isFileAtB (Entry.dir ms scs) r = false := by
        cases h2 : isFileAtB (Entry.dir ms scs) r
        · rfl
        · exact absurd ⟨h2, hp1d⟩ (p1nc r).2
      exact exists_not_file_dir _ r hex hnf
    · -- an equal-timestamp destination file is left untouched
      intro r m c hof hmtr hex
      rw [hsurv r hex]
      exact hfrz r m c hof hmtr

theorem lookupChild_isSome_of_mem (cs : List (String × Entry)) (n : String)
    (e : Entry) (hm : (n, e) ∈ cs) : ∃ e2, lookupChild cs n = some e2 := by
  induction cs with
  | nil => simp at hm
  | cons hd rest ih =>
    obtain ⟨m, x⟩ := hd
    by_cases hmn : m = n
    · subst hmn
      exact ⟨x, by simp [lookupChild]⟩
    · rcases List.mem_cons.mp hm with h1 | h1
      · injection h1 with h1a h1b
        exact absurd h1a.symm hmn
      · obtain ⟨e2, he2⟩ := ih h1
        exact ⟨e2, by simp [lookupChild, hmn, he2]⟩

theorem dirStep_noop (fail : Fail) (p : List String) (fs : Entry)
    (evs : List Event) (hex : existsP fs p = true) :
    dirStep fail p ⟨fs, evs, none⟩ = ⟨fs, evs, none⟩ := by
  unfold dirStep
  rw [Out.bind_none _ _ rfl, if_pos hex]

theorem phase1StepsAt_noop (p : List String) (cs : List (String × Entry))
    (fs : Entry) (evs : List Event) (hex : existsP fs p = true)
    (hsc : ∀ n m1 c1, (n, m1, c1) ∈ filesOf cs →
      shouldCopy fs (p ++ [n]) m1 = false) :
    phase1StepsAt noFail p cs ⟨fs, evs, none⟩ = ⟨fs, evs, none⟩ := by
  unfold phase1StepsAt
  rw [dirStep_noop noFail p fs evs hex]
  exact copyFilesFold_noop p (filesOf cs) fs evs hsc

theorem phase1Subs_noop (S : Entry) (hwfS : wfE S = true) :
    ∀ (p : List String) (l : List (String × Entry)) (acc : Out),
    acc.err = none →
    (∀ n e, (n, e) ∈ l → lookup S (p ++ [n]) = some e) →
    (∀ r, isDirAtB S r = true → existsP acc.fs r = true) →
    (∀ r m c, lookup S r = some (Entry.file m c) →
      shouldCopy acc.fs r m = false) →
    phase1Subs noFail p l acc = acc := by
  intro p l acc
  induction p, l, acc using phase1Subs.induct noFail with
  | case1 p acc =>
    intro _ _ _ _
    rw [phase1Subs_nil]
  | case2 p acc n0 m0 c0 rest ih =>
    intro herr hmem hdirs hfiles
    rw [phase1Subs_file]
    exact ih herr (fun n2 e2 hm => hmem n2 e2 (List.mem_cons_of_mem _ hm))
      hdirs hfiles
  | case3 p acc fst mtime children rest ih1 ih2 =>
    intro herr hmem hdirs hfiles
    rw [phase1Subs_dir]
    unfold phase1At
    obtain ⟨fs, evs, err⟩ := acc
    simp only at herr
    subst herr
    have hsub2 : lookup S (p ++ [fst]) = some (Entry.dir mtime children) :=
      hmem fst _ (List.mem_cons_self _ _)
    have hwfc : wfE (Entry.dir mtime children) = true :=
      wf_lookup S _ (p ++ [fst]) hwfS hsub2
    have hndc : (children.map Prod.fst).Nodup := wfE_dir_nodup _ children hwfc
    have hmemc : ∀ n e, (n, e) ∈ children →
        lookup S ((p ++ [fst]) ++ [n]) = some e := by
      intro n e hm
      rw [lookup_append, hsub2, Option.some_bind,
        lookup_cons_some mtime children n _ []
          (lookupChild_of_mem_nodup children n e hndc hm), lookup_nil]
    have hexd : existsP fs (p ++ [fst]) = true := by
      apply hdirs
      unfold isDirAtB
      rw [hsub2]
    have hsteps : phase1StepsAt noFail (p ++ [fst]) children ⟨fs, evs, none⟩ =
        ⟨fs, evs, none⟩ := by
      apply phase1StepsAt_noop (p ++ [fst]) children fs evs hexd
      intro n m1 c1 hm
      exact hfiles ((p ++ [fst]) ++ [n]) m1 c1
        (hmemc n _ ((filesOf_mem children n m1 c1).mp hm))
    rw [hsteps] at ih1 ih2 ⊢
    have hih1 := ih1 rfl hmemc hdirs hfiles
    rw [hih1] at ih2 ⊢
    exact ih2 rfl (fun n2 e2 hm => hmem n2 e2 (List.mem_cons_of_mem _ hm))
      hdirs hfiles

theorem rmFileStep_noop (fail : Fail) (S : Entry) (p : List String)
    (n : String) (fs : Entry) (evs : List Event)
    (hex : existsP S (p ++ [n]) = true) :
    rmFileStep fail S p n ⟨fs, evs, none⟩ = ⟨fs, evs, none⟩ := by
  unfold rmFileStep
  rw [Out.bind_none _ _ rfl, if_pos hex]

theorem rmDirStep_noop (fail : Fail) (S : Entry) (p : List String)
    (n : String) (fs : Entry) (evs : List Event)
    (hex : existsP S (p ++ [n]) = true) :
    rmDirStep fail S p n ⟨fs, evs, none⟩ = ⟨fs, evs, none⟩ := by
  unfold rmDirStep
  rw [Out.bind_none _ _ rfl, if_pos hex]

theorem rmFilesFold_noop (fail : Fail) (S : Entry) (p : List String)
    (ns : List String) :
    ∀ fs evs, (∀ n, n ∈ ns → existsP S (p ++ [n]) = true) →
    rmFilesFold fail S p ns ⟨fs, evs, none⟩ = ⟨fs, evs, none⟩ := by
  induction ns with
  | nil =>
    intro fs evs _
    rfl
  | cons n rest ih =>
    intro fs evs h
    have hcons : rmFilesFold fail S p (n :: rest) ⟨fs, evs, none⟩ =
        rmFilesFold fail S p rest (rmFileStep fail S p n ⟨fs, evs, none⟩) := rfl
    rw [hcons, rmFileStep_noop fail S p n fs evs (h n (List.mem_cons_self _ _))]
    exact ih fs evs (fun n2 hm => h n2 (List.mem_cons_of_mem _ hm))

theorem rmDirsFold_noop (fail : Fail) (S : Entry) (p : List String)
    (ns : List String) :
    ∀ fs evs, (∀ n, n ∈ ns → existsP S (p ++ [n]) = true) →
    rmDirsFold fail S p ns ⟨fs, evs, none⟩ = ⟨fs, evs, none⟩ := by
  induction ns with
  | nil =>
    intro fs evs _
    rfl
  | cons n rest ih =>
    intro fs evs h
    have hcons : rmDirsFold fail S p (n :: rest) ⟨fs, evs, none⟩ =
        rmDirsFold fail S p rest (rmDirStep fail S p n ⟨fs, evs, none⟩) := rfl
    rw [hcons, rmDirStep_noop fail S p n fs evs (h n (List.mem_cons_self _ _))]
    exact ih fs evs (fun n2 hm => h n2 (List.mem_cons_of_mem _ hm))

theorem phase2StepsAt_noop (fail : Fail) (S : Entry) (p : List String)
    (cs : List (String × Entry)) (fs : Entry) (evs : List Event)
    (h : ∀ n, n ∈ fileNamesOf cs ++ dirNamesOf cs →
      existsP S (p ++ [n]) = true) :
    phase2StepsAt fail S p cs ⟨fs, evs, none⟩ = ⟨fs, evs, none⟩ := by
  unfold phase2StepsAt
  rw [Out.bind_none _ _ rfl]
  by_cases hex : existsP fs p = true
  · rw [if_pos hex,
      rmFilesFold_noop fail S p (fileNamesOf cs) fs evs
        (fun n hm => h n (List.mem_append_left _ hm)),
      rmDirsFold_noop fail S p (dirNamesOf cs) fs evs
        (fun n hm => h n (List.mem_append_right _ hm))]
  · rw [if_neg hex]

theorem phase2Subs_noop (S : Entry) :
    ∀ (p : List String) (l : List (String × Entry)) (acc : Out),
    acc.err = none →
    wfE acc.fs = true →
    (∀ n e, (n, e) ∈ l → lookup acc.fs (p ++ [n]) = some e) →
    (∀ r, existsP acc.fs r = true → existsP S r = true) →
    phase2Subs noFail S p l acc = acc := by
  intro p l acc
  induction p, l, acc using phase2Subs.induct noFail S with
  | case1 p acc =>
    intro _ _ _ _
    rw [phase2Subs_nil]
  | case2 p acc n0 m0 c0 rest ih =>
    intro herr hwf hsnap hsub
    rw [phase2Subs_file]
    exact ih herr hwf (fun n2 e2 hm => hsnap n2 e2 (List.mem_cons_of_mem _ hm))
      hsub
  | case3 p acc n1 m1 cs1 rest ih1 ih2 =>
    intro herr hwf hsnap hsub
    rw [phase2Subs_dir]
    unfold phase2At
    obtain ⟨fs, evs, err⟩ := acc
    simp only at herr
    subst herr
    have hlk1 : lookup fs (p ++ [n1]) = some (Entry.dir m1 cs1) :=
      hsnap n1 _ (List.mem_cons_self _ _)
    have hwfc : wfE (Entry.dir m1 cs1) = true :=
      wf_lookup fs _ (p ++ [n1]) hwf hlk1
    have hndc : (cs1.map Prod.fst).Nodup := wfE_dir_nodup _ cs1 hwfc
    have hsnapc : ∀ n e, (n, e) ∈ cs1 →
        lookup fs ((p ++ [n1]) ++ [n]) = some e := by
      intro n e hm
      rw [lookup_append, hlk1, Option.some_bind,
        lookup_cons_some m1 cs1 n e []
          (lookupChild_of_mem_nodup cs1 n e hndc hm), lookup_nil]
    have hnames : ∀ n, n ∈ fileNamesOf cs1 ++ dirNamesOf cs1 →
        existsP S ((p ++ [n1]) ++ [n]) = true := by
      intro n hm
      have hex : ∃ e2, lookup fs ((p ++ [n1]) ++ [n]) = some e2 := by
        rcases List.mem_append.mp hm with hm2 | hm2
        · obtain ⟨m0, c0, hm3⟩ := (fileNamesOf_mem cs1 n).mp hm2
          exact ⟨_, hsnapc n _ hm3⟩
        · obtain ⟨m0, cs0, hm3⟩ := (dirNamesOf_mem cs1 n).mp hm2
          exact ⟨_, hsnapc n _ hm3⟩
      obtain ⟨e2, he2⟩ := hex
      apply hsub
      unfold existsP
      rw [he2]
      rfl
    have hsteps : phase2StepsAt noFail S (p ++ [n1]) cs1 ⟨fs, evs, none⟩ =
        ⟨fs, evs, none⟩ :=
      phase2StepsAt_noop noFail S (p ++ [n1]) cs1 fs evs hnames
    rw [hsteps] at ih1 ih2 ⊢
    have hih1 := ih1 rfl hwf hsnapc hsub
    rw [hih1] at ih2 ⊢
    exact ih2 rfl hwf
      (fun n2 e2 hm => hsnap n2 e2 (List.mem_cons_of_mem _ hm)) hsub

theorem obs_fileObs_lookup (t : Entry) (r : List String) (m c : Nat)
    (h : obs t r = some (PathObs.fileObs m c)) :
    lookup t r = some (Entry.file m c) := by
  unfold obs at h
  cases hl : lookup t r with
  | none =>
    rw [hl] at h
    cases h
  | some e =>
    rw [hl] at h
    cases e with
    | file m2 c2 =>
      injection h with h2
      injection h2 with h3 h4
      subst h3
      subst h4
      rfl
    | dir m2 cs2 => cases h

theorem synch_idempotent (ms md : Nat) (scs dcs : List (String × Entry))
    (hwfS : wfE (Entry.dir ms scs) = true)
    (hwfD : wfE (Entry.dir md dcs) = true)
    (hnc : noClash (Entry.dir ms scs) (Entry.dir md dcs)) :
    synch (Entry.dir ms scs)
        (synch (Entry.dir ms scs) (Entry.dir md dcs)).fs =
      ⟨(synch (Entry.dir ms scs) (Entry.dir md dcs)).fs, [], none⟩ := by
  obtain ⟨e0, w0, del0, file0, dir0, fileB0, dirB0, frz0⟩ :=
    synch_spec ms md scs dcs hwfS hwfD hnc
  have hrd : isDirAtB (synch (Entry.dir ms scs) (Entry.dir md dcs)).fs []
      = true := by
    apply dir0
    unfold isDirAtB
    rw [lookup_nil]
  cases hR : (synch (Entry.dir ms scs) (Entry.dir md dcs)).fs with
  | file mf cf =>
    rw [hR] at hrd
    unfold isDirAtB at hrd
    rw [lookup_nil] at hrd
    cases hrd
  | dir mr dcsr =>
    rw [hR] at w0 del0 file0 dir0 fileB0 dirB0
    have hnds : (scs.map Prod.fst).Nodup := wfE_dir_nodup ms scs hwfS
    have hmem : ∀ n e, (n, e) ∈ scs →
        lookup (Entry.dir ms scs) ([] ++ [n]) = some e := by
      intro n e hm
      rw [List.nil_append,
        lookup_cons_some ms scs n e []
          (lookupChild_of_mem_nodup scs n e hnds hm), lookup_nil]
    have hfiles : ∀ r m c,
        lookup (Entry.dir ms scs) r = some (Entry.file m c) →
        shouldCopy (Entry.dir mr dcsr) r m = false := by
      intro r m c hlk
      have hof : obs (Entry.dir ms scs) r = some (PathObs.fileObs m c) := by
        unfold obs
        rw [hlk]
      obtain ⟨c2, hf2⟩ := file0 r m c hof
      have hlk2 : lookup (Entry.dir mr dcsr) r = some (Entry.file m c2) :=
        obs_fileObs_lookup _ r m c2 hf2
      unfold shouldCopy
      rw [hlk2]
      simp [Entry.mtime]
    have hdirs : ∀ r, isDirAtB (Entry.dir ms scs) r = true →
        existsP (Entry.dir mr dcsr) r = true :=
      fun r hs => isDirAtB_exists _ r (dir0 r hs)
    have hsub : ∀ r, existsP (Entry.dir mr dcsr) r = true →
        existsP (Entry.dir ms scs) r = true := by
      intro r hex
      by_cases hf : isFileAtB (Entry.dir mr dcsr) r = true
      · exact isFileAtB_exists _ r (fileB0 r hf)
      · have hd : isDirAtB (Entry.dir mr dcsr) r = true :=
          exists_not_file_dir _ r hex (by
            cases h2 : isFileAtB (Entry.dir mr dcsr) r
            · rfl
            · exact absurd h2 hf)
        exact isDirAtB_exists _ r (dirB0 r hd)
    have hsteps1 : phase1StepsAt noFail [] scs
        ⟨Entry.dir mr dcsr, [], none⟩ = ⟨Entry.dir mr dcsr, [], none⟩ := by
      apply phase1StepsAt_noop [] scs _ [] (existsP_nil _)
      intro n m1 c1 hm
      exact hfiles ([] ++ [n]) m1 c1
        (hmem n _ ((filesOf_mem scs n m1 c1).mp hm))
    have hsubs1 : phase1Subs noFail [] scs ⟨Entry.dir mr dcsr, [], none⟩ =
        ⟨Entry.dir mr dcsr, [], none⟩ :=
      phase1Subs_noop (Entry.dir ms scs) hwfS [] scs
        ⟨Entry.dir mr dcsr, [], none⟩ rfl hmem hdirs hfiles
    have hndr : (dcsr.map Prod.fst).Nodup := wfE_dir_nodup mr dcsr w0
    have hsnapr : ∀ n e, (n, e) ∈ dcsr →
        lookup (Entry.dir mr dcsr) ([] ++ [n]) = some e := by
      intro n e hm
      rw [List.nil_append,
        lookup_cons_some mr dcsr n e []
          (lookupChild_of_mem_nodup dcsr n e hndr hm), lookup_nil]
    have hnames : ∀ n, n ∈ fileNamesOf dcsr ++ dirNamesOf dcsr →
        existsP (Entry.dir ms scs) ([] ++ [n]) = true := by
      intro n hm
      have hex : ∃ e2, lookup (Entry.dir mr dcsr) ([] ++ [n]) = some e2 := by
        rcases List.mem_append.mp hm with hm2 | hm2
        · obtain ⟨m0, c0, hm3⟩ := (fileNamesOf_mem dcsr n).mp hm2
          exact ⟨_, hsnapr n _ hm3⟩
        · obtain ⟨m0, cs0, hm3⟩ := (dirNamesOf_mem dcsr n).mp hm2
          exact ⟨_, hsnapr n _ hm3⟩
      obtain ⟨e2, he2⟩ := hex
      apply hsub
      unfold existsP
      rw [he2]
      rfl
    have hsteps2 : phase2StepsAt noFail (Entry.dir ms scs) [] dcsr
        ⟨Entry.dir mr dcsr, [], none⟩ = ⟨Entry.dir mr dcsr, [], none⟩ :=
      phase2StepsAt_noop noFail (Entry.dir ms scs) [] dcsr _ [] hnames
    have hsubs2 : phase2Subs noFail (Entry.dir ms scs) [] dcsr
        ⟨Entry.dir mr dcsr, [], none⟩ = ⟨Entry.dir mr dcsr, [], none⟩ :=
      phase2Subs_noop (Entry.dir ms scs) [] dcsr
        ⟨Entry.dir mr dcsr, [], none⟩ rfl w0 hsnapr hsub
    have hbind : synch (Entry.dir ms scs) (Entry.dir mr dcsr) =
        Out.bind (phase1Subs noFail [] scs
          (phase1StepsAt noFail [] scs ⟨Entry.dir mr dcsr, [], none⟩))
          (fun fs evs =>
            match fs with
            | Entry.dir _ dcs2 =>
                phase2Subs noFail (Entry.dir ms scs) [] dcs2
                  (phase2StepsAt noFail (Entry.dir ms scs) [] dcs2
                    ⟨fs, evs, none⟩)
            | Entry.file _ _ => ⟨fs, evs, none⟩) := rfl
    rw [hbind, hsteps1, hsubs1, Out.bind_none _ _ rfl]
    show phase2Subs noFail (Entry.dir ms scs) [] dcsr
        (phase2StepsAt noFail (Entry.dir ms scs) [] dcsr
          ⟨Entry.dir mr dcsr, [], none⟩) = ⟨Entry.dir mr dcsr, [], none⟩
    rw [hsteps2]
    exact hsubs2

theorem dirStep_okfail (fail : Fail) (p : List String) (acc : Out)
    (h : (dirStep fail p acc).err = none) :
    dirStep fail p acc = dirStep noFail p acc := by
  obtain ⟨fs, evs, err⟩ := acc
  cases err with
  | some e =>
    rw [dirStep_errsome fail p _ e rfl, dirStep_errsome noFail p _ e rfl]
  | none =>
    unfold dirStep at h ⊢
    rw [Out.bind_none _ _ rfl] at h
    rw [Out.bind_none _ _ rfl, Out.bind_none _ _ rfl]
    by_cases hex : existsP fs p
    · rw [if_pos hex, if_pos hex]
    · rw [if_neg hex] at h
      rw [if_neg hex, if_neg hex]
      by_cases hf : fail OpKind.mkdirOp p
      · rw [if_pos hf] at h
        simp at h
      · rw [if_neg hf]
        have hnf : ¬ (noFail OpKind.mkdirOp p = true) := by simp [noFail]
        rw [if_neg hnf]

theorem fileStep_okfail (fail : Fail) (p : List String) (f : String × Nat × Nat)
    (acc : Out) (h : (fileStep fail p f acc).err = none) :
    fileStep fail p f acc = fileStep noFail p f acc := by
  obtain ⟨fs, evs, err⟩ := acc
  cases err with
  | some e =>
    rw [fileStep_errsome fail p f _ e rfl, fileStep_errsome noFail p f _ e rfl]
  | none =>
    unfold fileStep at h ⊢
    rw [Out.bind_none _ _ rfl] at h
    rw [Out.bind_none _ _ rfl, Out.bind_none _ _ rfl]
    by_cases hsc : shouldCopy fs (p ++ [f.1]) f.2.1
    · rw [if_pos hsc] at h
      rw [if_pos hsc, if_pos hsc]
      by_cases hf : fail OpKind.copyOp (p ++ [f.1])
      · rw [if_pos hf] at h
        simp at h
      · rw [if_neg hf]
        have hnf : ¬ (noFail OpKind.copyOp (p ++ [f.1]) = true) := by
          simp [noFail]
        rw [if_neg hnf]
    · rw [if_neg hsc, if_neg hsc]

theorem rmFileStep_okfail (fail : Fail) (S : Entry) (p : List String)
    (n : String) (acc : Out) (h : (rmFileStep fail S p n acc).err = none) :
    rmFileStep fail S p n acc = rmFileStep noFail S p n acc := by
  obtain ⟨fs, evs, err⟩ := acc
  cases err with
  | some e =>
    rw [rmFileStep_errsome fail S p n _ e rfl,
      rmFileStep_errsome noFail S p n _ e rfl]
  | none =>
    unfold rmFileStep at h ⊢
    rw [Out.bind_none _ _ rfl] at h
    rw [Out.bind_none _ _ rfl, Out.bind_none _ _ rfl]
    by_cases hex : existsP S (p ++ [n])
    · rw [if_pos hex, if_pos hex]
    · rw [if_neg hex] at h
      rw [if_neg hex, if_neg hex]
      by_cases hf : fail OpKind.removeOp (p ++ [n])
      · rw [if_pos hf] at h
        simp at h
      · rw [if_neg hf]
        have hnf : ¬ (noFail OpKind.removeOp (p ++ [n]) = true) := by
          simp [noFail]
        rw [if_neg hnf]

theorem rmDirStep_okfail (fail : Fail) (S : Entry) (p : List String)
    (n : String) (acc : Out) (h : (rmDirStep fail S p n acc).err = none) :
    rmDirStep fail S p n acc = rmDirStep noFail S p n acc := by
  obtain ⟨fs, evs, err⟩ := acc
  cases err with
  | some e =>
    rw [rmDirStep_errsome fail S p n _ e rfl,
      rmDirStep_errsome noFail S p n _ e rfl]
  | none =>
    unfold rmDirStep at h ⊢
    rw [Out.bind_none _ _ rfl] at h
    rw [Out.bind_none _ _ rfl, Out.bind_none _ _ rfl]
    by_cases hex : existsP S (p ++ [n])
    · rw [if_pos hex, if_pos hex]
    · rw [if_neg hex] at h
      rw [if_neg hex, if_neg hex]
      by_cases hf : fail OpKind.rmtreeOp (p ++ [n])
      · rw [if_pos hf] at h
        simp at h
      · rw [if_neg hf]
        have hnf : ¬ (noFail OpKind.rmtreeOp (p ++ [n]) = true) := by
          simp [noFail]
        rw [if_neg hnf]

theorem copyFilesFold_okfail (fail : Fail) (p : List String)
    (F : List (String × Nat × Nat)) :
    ∀ acc, (copyFilesFold fail p F acc).err = none →
    copyFilesFold fail p F acc = copyFilesFold noFail p F acc := by
  induction F with
  | nil =>
    intro acc _
    rfl
  | cons f rest ih =>
    intro acc h
    have hcons : copyFilesFold fail p (f :: rest) acc =
        copyFilesFold fail p rest (fileStep fail p f acc) := rfl
    have hconsN : copyFilesFold noFail p (f :: rest) acc =
        copyFilesFold noFail p rest (fileStep noFail p f acc) := rfl
    rw [hcons] at h
    have hstep : (fileStep fail p f acc).err = none := by
      cases hst : (fileStep fail p f acc).err with
      | none => rfl
      | some e =>
        rw [copyFilesFold_errsome fail p rest _ e hst, hst] at h
        cases h
    have h1 := fileStep_okfail fail p f acc hstep
    rw [hcons, hconsN, h1]
    apply ih
    rw [← h1]
    exact h

theorem rmFilesFold_okfail (fail : Fail) (S : Entry) (p : List String)
    (ns : List String) :
    ∀ acc, (rmFilesFold fail S p ns acc).err = none →
    rmFilesFold fail S p ns acc = rmFilesFold noFail S p ns acc := by
  induction ns with
  | nil =>
    intro acc _
    rfl
  | cons n rest ih =>
    intro acc h
    have hcons : rmFilesFold fail S p (n :: rest) acc =
        rmFilesFold fail S p rest (rmFileStep fail S p n acc) := rfl
    have hconsN : rmFilesFold noFail S p (n :: rest) acc =
        rmFilesFold noFail S p rest (rmFileStep noFail S p n acc) := rfl
    rw [hcons] at h
    have hstep : (rmFileStep fail S p n acc).err = none := by
      cases hst : (rmFileStep fail S p n acc).err with
      | none => rfl
      | some e =>
        rw [rmFilesFold_errsome fail S p rest _ e hst, hst] at h
        cases h
    have h1 := rmFileStep_okfail fail S p n acc hstep
    rw [hcons, hconsN, h1]
    apply ih
    rw [← h1]
    exact h

theorem rmDirsFold_okfail (fail : Fail) (S : Entry) (p : List String)
    (ns : List String) :
    ∀ acc, (rmDirsFold fail S p ns acc).err = none →
    rmDirsFold fail S p ns acc = rmDirsFold noFail S p ns acc := by
  induction ns with
  | nil =>
    intro acc _
    rfl
  | cons n rest ih =>
    intro acc h
    have hcons : rmDirsFold fail S p (n :: rest) acc =
        rmDirsFold fail S p rest (rmDirStep fail S p n acc) := rfl
    have hconsN : rmDirsFold noFail S p (n :: rest) acc =
        rmDirsFold noFail S p rest (rmDirStep noFail S p n acc) := rfl
    rw [hcons] at h
    have hstep : (rmDirStep fail S p n acc).err = none := by
      cases hst : (rmDirStep fail S p n acc).err with
      | none => rfl
      | some e =>
        rw [rmDirsFold_errsome fail S p rest _ e hst, hst] at h
        cases h
    have h1 := rmDirStep_okfail fail S p n acc hstep
    rw [hcons, hconsN, h1]
    apply ih
    rw [← h1]
    exact h

theorem phase1StepsAt_okfail (fail : Fail) (p : List String)
    (cs : List (String × Entry)) (acc : Out)
    (h : (phase1StepsAt fail p cs acc).err = none) :
    phase1StepsAt fail p cs acc = phase1StepsAt noFail p cs acc := by
  unfold phase1StepsAt at h ⊢
  have hds : (dirStep fail p acc).err = none := by
    cases hst : (dirStep fail p acc).err with
    | none => rfl
    | some e =>
      rw [copyFilesFold_errsome fail p (filesOf cs) _ e hst, hst] at h
      cases h
  have h1 := dirStep_okfail fail p acc hds
  rw [h1] at h ⊢
  exact copyFilesFold_okfail fail p (filesOf cs) _ h

theorem phase2StepsAt_okfail (fail : Fail) (S : Entry) (p : List String)
    (cs : List (String × Entry)) (acc : Out)
    (h : (phase2StepsAt fail S p cs acc).err = none) :
    phase2StepsAt fail S p cs acc = phase2StepsAt noFail S p cs acc := by
  obtain ⟨fs, evs, err⟩ := acc
  cases err with
  | some e =>
    rw [phase2StepsAt_errsome fail S p cs _ e rfl,
      phase2StepsAt_errsome noFail S p cs _ e rfl]
  | none =>
    unfold phase2StepsAt at h ⊢
    rw [Out.bind_none _ _ rfl] at h
    rw [Out.bind_none _ _ rfl, Out.bind_none _ _ rfl]
    by_cases hex : existsP fs p
    · rw [if_pos hex] at h
      rw [if_pos hex, if_pos hex]
      have hff : (rmFilesFold fail S p (fileNamesOf cs)
          ⟨fs, evs, none⟩).err = none := by
        cases hst : (rmFilesFold fail S p (fileNamesOf cs)
            ⟨fs, evs, none⟩).err with
        | none => rfl
        | some e =>
          rw [rmDirsFold_errsome fail S p (dirNamesOf cs) _ e hst, hst] at h
          cases h
      have h1 := rmFilesFold_okfail fail S p (fileNamesOf cs)
        ⟨fs, evs, none⟩ hff
      rw [h1] at h ⊢
      exact rmDirsFold_okfail fail S p (dirNamesOf cs) _ h
    · rw [if_neg hex, if_neg hex]

theorem phase1Subs_okfail (fail : Fail) :
    ∀ (p : List String) (l : List (String × Entry)) (acc : Out),
    (phase1Subs fail p l acc).err = none →
    phase1Subs fail p l acc = phase1Subs noFail p l acc := by
  intro p l acc
  induction p, l, acc using phase1Subs.induct fail with
  | case1 p acc =>
    intro _
    rw [phase1Subs_nil, phase1Subs_nil]
  | case2 p acc n0 m0 c0 rest ih =>
    intro h
    rw [phase1Subs_file] at h
    rw [phase1Subs_file, phase1Subs_file]
    exact ih h
  | case3 p acc fst mtime children rest ih1 ih2 =>
    intro h
    rw [phase1Subs_dir] at h
    rw [phase1Subs_dir, phase1Subs_dir]
    unfold phase1At at h ⊢
    have hsteps : (phase1StepsAt fail (p ++ [fst]) children acc).err =
        none := by
      cases hst : (phase1StepsAt fail (p ++ [fst]) children acc).err with
      | none => rfl
      | some e =>
        rw [phase1Subs_errsome fail (p ++ [fst]) children _ e hst,
          phase1Subs_errsome fail p rest _ e hst, hst] at h
        cases h
    have hsub : (phase1Subs fail (p ++ [fst]) children
        (phase1StepsAt fail (p ++ [fst]) children acc)).err = none := by
      cases hst : (phase1Subs fail (p ++ [fst]) children
          (phase1StepsAt fail (p ++ [fst]) children acc)).err with
      | none => rfl
      | some e =>
        rw [phase1Subs_errsome fail p rest _ e hst, hst] at h
        cases h
    have h1 := phase1StepsAt_okfail fail (p ++ [fst]) children acc hsteps
    have h2 := ih1 hsub
    rw [ih2 h, h2, h1]

theorem phase2Subs_okfail (fail : Fail) (S : Entry) :
    ∀ (p : List String) (l : List (String × Entry)) (acc : Out),
    (phase2Subs fail S p l acc).err = none →
    phase2Subs fail S p l acc = phase2Subs noFail S p l acc := by
  intro p l acc
  induction p, l, acc using phase2Subs.induct fail S with
  | case1 p acc =>
    intro _
    rw [phase2Subs_nil, phase2Subs_nil]
  | case2 p acc n0 m0 c0 rest ih =>
    intro h
    rw [phase2Subs_file] at h
    rw [phase2Subs_file, phase2Subs_file]
    exact ih h
  | case3 p acc n1 m1 cs1 rest ih1 ih2 =>
    intro h
    rw [phase2Subs_dir] at h
    rw [phase2Subs_dir, phase2Subs_dir]
    unfold phase2At at h ⊢
    have hsteps : (phase2StepsAt fail S (p ++ [n1]) cs1 acc).err = none := by
      cases hst : (phase2StepsAt fail S (p ++ [n1]) cs1 acc).err with
      | none => rfl
      | some e =>
        rw [phase2Subs_errsome fail S (p ++ [n1]) cs1 _ e hst,
          phase2Subs_errsome fail S p rest _ e hst, hst] at h
        cases h
    have hsub : (phase2Subs fail S (p ++ [n1]) cs1
        (phase2StepsAt fail S (p ++ [n1]) cs1 acc)).err = none := by
      cases hst : (phase2Subs fail S (p ++ [n1]) cs1
          (phase2StepsAt fail S (p ++ [n1]) cs1 acc)).err with
      | none => rfl
      | some e =>
        rw [phase2Subs_errsome fail S p rest _ e hst, hst] at h
        cases h
    have h1 := phase2StepsAt_okfail fail S (p ++ [n1]) cs1 acc hsteps
    have h2 := ih1 hsub
    rw [ih2 h, h2, h1]

theorem synchF_okfail (fail : Fail) (src dst : Entry)
    (h : (synchF fail src dst).err = none) :
    synchF fail src dst = synchF noFail src dst := by
  cases src with
  | file m c => simp [synchF] at h
  | dir ms scs =>
    cases dst with
    | file md cd => simp [synchF] at h
    | dir md dcs =>
      have hU : ∀ (g : Fail),
          synchF g (Entry.dir ms scs) (Entry.dir md dcs) =
          Out.bind (phase1Subs g [] scs
            (phase1StepsAt g [] scs ⟨Entry.dir md dcs, [], none⟩))
            (fun fs evs =>
              match fs with
              | Entry.dir _ dcs2 =>
                  phase2Subs g (Entry.dir ms scs) [] dcs2
                    (phase2StepsAt g (Entry.dir ms scs) [] dcs2
                      ⟨fs, evs, none⟩)
              | Entry.file _ _ => ⟨fs, evs, none⟩) := fun g => rfl
      rw [hU fail] at h ⊢
      rw [hU noFail]
      have hp1 : (phase1Subs fail [] scs
          (phase1StepsAt fail [] scs ⟨Entry.dir md dcs, [], none⟩)).err =
          none := by
        cases hst : (phase1Subs fail [] scs
            (phase1StepsAt fail [] scs ⟨Entry.dir md dcs, [], none⟩)).err with
        | none => rfl
        | some e =>
          rw [Out.bind_some _ _ e hst, hst] at h
          cases h
      have hsteps0 : (phase1StepsAt fail [] scs
          ⟨Entry.dir md dcs, [], none⟩).err = none := by
        cases hst : (phase1StepsAt fail [] scs
            ⟨Entry.dir md dcs, [], none⟩).err with
        | none => rfl
        | some e =>
          rw [phase1Subs_errsome fail [] scs _ e hst, hst] at hp1
          cases hp1
      have hA := phase1StepsAt_okfail fail [] scs
        ⟨Entry.dir md dcs, [], none⟩ hsteps0
      have hB := phase1Subs_okfail fail [] scs _ hp1
      have hP1eq : phase1Subs fail [] scs
          (phase1StepsAt fail [] scs ⟨Entry.dir md dcs, [], none⟩) =
          phase1Subs noFail [] scs
            (phase1StepsAt noFail [] scs ⟨Entry.dir md dcs, [], none⟩) := by
        rw [hB, hA]
      rw [hP1eq] at h ⊢
      have hp1N : (phase1Subs noFail [] scs
          (phase1StepsAt noFail [] scs ⟨Entry.dir md dcs, [], none⟩)).err =
          none := by
        rw [← hP1eq]
        exact hp1
      rw [Out.bind_none _ _ hp1N] at h
      rw [Out.bind_none _ _ hp1N, Out.bind_none _ _ hp1N]
      cases hfs : (phase1Subs noFail [] scs
          (phase1StepsAt noFail [] scs ⟨Entry.dir md dcs, [], none⟩)).fs with
      | file mf cf =>
        rfl
      | dir md1 dcs1 =>
        rw [hfs] at h
        have h2 : (phase2Subs fail (Entry.dir ms scs) [] dcs1
            (phase2StepsAt fail (Entry.dir ms scs) [] dcs1
              ⟨Entry.dir md1 dcs1,
               (phase1Subs noFail [] scs
                 (phase1StepsAt noFail [] scs
                   ⟨Entry.dir md dcs, [], none⟩)).evs,
               none⟩)).err = none := h
        have hsteps2 : (phase2StepsAt fail (Entry.dir ms scs) [] dcs1
            ⟨Entry.dir md1 dcs1,
             (phase1Subs noFail [] scs
               (phase1StepsAt noFail [] scs
                 ⟨Entry.dir md dcs, [], none⟩)).evs,
             none⟩).err = none := by
          cases hst : (phase2StepsAt fail (Entry.dir ms scs) [] dcs1
              ⟨Entry.dir md1 dcs1,
               (phase1Subs noFail [] scs
                 (phase1StepsAt noFail [] scs
                   ⟨Entry.dir md dcs, [], none⟩)).evs,
               none⟩).err with
          | none => rfl
          | some e =>
            rw [phase2Subs_errsome fail (Entry.dir ms scs) [] dcs1 _ e hst,
              hst] at h2
            cases h2
        have hC := phase2StepsAt_okfail fail (Entry.dir ms scs) [] dcs1
          ⟨Entry.dir md1 dcs1,
           (phase1Subs noFail [] scs
             (phase1StepsAt noFail [] scs
               ⟨Entry.dir md dcs, [], none⟩)).evs,
           none⟩ hsteps2
        have hD := phase2Subs_okfail fail (Entry.dir ms scs) [] dcs1 _ h2
        show phase2Subs fail (Entry.dir ms scs) [] dcs1
            (phase2StepsAt fail (Entry.dir ms scs) [] dcs1
              ⟨Entry.dir md1 dcs1,
               (phase1Subs noFail [] scs
                 (phase1StepsAt noFail [] scs
                   ⟨Entry.dir md dcs, [], none⟩)).evs,
               none⟩) =
          phase2Subs noFail (Entry.dir ms scs) [] dcs1
            (phase2StepsAt noFail (Entry.dir ms scs) [] dcs1
              ⟨Entry.dir md1 dcs1,
               (phase1Subs noFail [] scs
                 (phase1StepsAt noFail [] scs
                   ⟨Entry.dir md dcs, [], none⟩)).evs,
               none⟩)
        rw [hD, hC]

theorem synchF_dir_dir (fail : Fail) (ms md : Nat)
    (scs dcs : List (String × Entry)) :
    synchF fail (Entry.dir ms scs) (Entry.dir md dcs) =
      Out.bind (phase1Subs fail [] scs
        (phase1StepsAt fail [] scs ⟨Entry.dir md dcs, [], none⟩))
        (fun fs evs =>
          match fs with
          | Entry.dir _ dcs2 =>
              phase2Subs fail (Entry.dir ms scs) [] dcs2
                (phase2StepsAt fail (Entry.dir ms scs) [] dcs2 ⟨fs, evs, none⟩)
          | Entry.file _ _ => ⟨fs, evs, none⟩) := rfl

theorem run_mismatch :
    synch (Entry.dir 0 [("a", Entry.dir 0 [])])
      (Entry.dir 0 [("a", Entry.file 3 4)]) =
    ⟨Entry.dir 0 [("a", Entry.file 3 4)], [], none⟩ := by
  have h0 : synch (Entry.dir 0 [("a", Entry.dir 0 [])])
      (Entry.dir 0 [("a", Entry.file 3 4)]) =
      synchF noFail (Entry.dir 0 [("a", Entry.dir 0 [])])
        (Entry.dir 0 [("a", Entry.file 3 4)]) := rfl
  rw [h0, synchF_dir_dir]
  have h1 : phase1Subs noFail [] [("a", Entry.dir 0 [])]
      (phase1StepsAt noFail [] [("a", Entry.dir 0 [])]
        ⟨Entry.dir 0 [("a", Entry.file 3 4)], [], none⟩) =
      ⟨Entry.dir 0 [("a", Entry.file 3 4)], [], none⟩ := by
    rw [phase1Subs_dir, phase1Subs_nil]
    unfold phase1At
    rw [phase1Subs_nil]
    rfl
  rw [h1, Out.bind_none _ _ rfl]
  show phase2Subs noFail (Entry.dir 0 [("a", Entry.dir 0 [])]) []
      [("a", Entry.file 3 4)]
      (phase2StepsAt noFail (Entry.dir 0 [("a", Entry.dir 0 [])]) []
        [("a", Entry.file 3 4)]
        ⟨Entry.dir 0 [("a", Entry.file 3 4)], [], none⟩) =
    ⟨Entry.dir 0 [("a", Entry.file 3 4)], [], none⟩
  rw [phase2Subs_file, phase2Subs_nil]
  rfl

theorem run_clash :
    synch (Entry.dir 0 [("a", Entry.file 5 7)])
      (Entry.dir 0 [("a", Entry.dir 0 [])]) =
    ⟨Entry.dir 0 [("a", Entry.dir 0 [])],
     [Event.copy ["a"], Event.rmFile ["a", "a"]], none⟩ := by
  have h0 : synch (Entry.dir 0 [("a", Entry.file 5 7)])
      (Entry.dir 0 [("a", Entry.dir 0 [])]) =
      synchF noFail (Entry.dir 0 [("a", Entry.file 5 7)])
        (Entry.dir 0 [("a", Entry.dir 0 [])]) := rfl
  rw [h0, synchF_dir_dir]
  have h1 : phase1Subs noFail [] [("a", Entry.file 5 7)]
      (phase1StepsAt noFail [] [("a", Entry.file 5 7)]
        ⟨Entry.dir 0 [("a", Entry.dir 0 [])], [], none⟩) =
      ⟨Entry.dir 0 [("a", Entry.dir 0 [("a", Entry.file 5 7)])],
       [Event.copy ["a"]], none⟩ := by
    rw [phase1Subs_file, phase1Subs_nil]
    rfl
  rw [h1, Out.bind_none _ _ rfl]
  show phase2Subs noFail (Entry.dir 0 [("a", Entry.file 5 7)]) []
      [("a", Entry.dir 0 [("a", Entry.file 5 7)])]
      (phase2StepsAt noFail (Entry.dir 0 [("a", Entry.file 5 7)]) []
        [("a", Entry.dir 0 [("a", Entry.file 5 7)])]
        ⟨Entry.dir 0 [("a", Entry.dir 0 [("a", Entry.file 5 7)])],
         [Event.copy ["a"]], none⟩) =
    ⟨Entry.dir 0 [("a", Entry.dir 0 [])],
     [Event.copy ["a"], Event.rmFile ["a", "a"]], none⟩
  rw [phase2Subs_dir, phase2Subs_nil]
  unfold phase2At
  rw [phase2Subs_file, phase2Subs_nil]
  rfl

theorem run_failcopy :
    synchF (fun k q => decide (k = OpKind.copyOp) && decide (q = ["a"]))
      (Entry.dir 0 [("a", Entry.file 1 1), ("b", Entry.file 2 2)])
      (Entry.dir 0 []) =
    ⟨Entry.dir 0 [], [], some (Err.opFail OpKind.copyOp ["a"])⟩ := by
  rw [synchF_dir_dir]
  have h1 : phase1Subs
      (fun k q => decide (k = OpKind.copyOp) && decide (q = ["a"]))
      [] [("a", Entry.file 1 1), ("b", Entry.file 2 2)]
      (phase1StepsAt
        (fun k q => decide (k = OpKind.copyOp) && decide (q = ["a"]))
        [] [("a", Entry.file 1 1), ("b", Entry.file 2 2)]
        ⟨Entry.dir 0 [], [], none⟩) =
      ⟨Entry.dir 0 [], [], some (Err.opFail OpKind.copyOp ["a"])⟩ := by
    rw [phase1Subs_file, phase1Subs_file, phase1Subs_nil]
    rfl
  rw [h1, Out.bind_some _ _ (Err.opFail OpKind.copyOp ["a"]) rfl]

theorem run_copy2 :
    synch (Entry.dir 0 [("a", Entry.file 1 1), ("b", Entry.file 2 2)])
      (Entry.dir 0 []) =
    ⟨Entry.dir 0 [("a", Entry.file 1 1), ("b", Entry.file 2 2)],
     [Event.copy ["a"], Event.copy ["b"]], none⟩ := by
  have h0 : synch (Entry.dir 0 [("a", Entry.file 1 1), ("b", Entry.file 2 2)])
      (Entry.dir 0 []) =
      synchF noFail
        (Entry.dir 0 [("a", Entry.file 1 1), ("b", Entry.file 2 2)])
        (Entry.dir 0 []) := rfl
  rw [h0, synchF_dir_dir]
  have h1 : phase1Subs noFail []
      [("a", Entry.file 1 1), ("b", Entry.file 2 2)]
      (phase1StepsAt noFail [] [("a", Entry.file 1 1), ("b", Entry.file 2 2)]
        ⟨Entry.dir 0 [], [], none⟩) =
      ⟨Entry.dir 0 [("a", Entry.file 1 1), ("b", Entry.file 2 2)],
       [Event.copy ["a"], Event.copy ["b"]], none⟩ := by
    rw [phase1Subs_file, phase1Subs_file, phase1Subs_nil]
    rfl
  rw [h1, Out.bind_none _ _ rfl]
  show phase2Subs noFail
      (Entry.dir 0 [("a", Entry.file 1 1), ("b", Entry.file 2 2)]) []
      [("a", Entry.file 1 1), ("b", Entry.file 2 2)]
      (phase2StepsAt noFail
        (Entry.dir 0 [("a", Entry.file 1 1), ("b", Entry.file 2 2)]) []
        [("a", Entry.file 1 1), ("b", Entry.file 2 2)]
        ⟨Entry.dir 0 [("a", Entry.file 1 1), ("b", Entry.file 2 2)],
         [Event.copy ["a"], Event.copy ["b"]], none⟩) =
    ⟨Entry.dir 0 [("a", Entry.file 1 1), ("b", Entry.file 2 2)],
     [Event.copy ["a"], Event.copy ["b"]], none⟩
  rw [phase2Subs_file, phase2Subs_file, phase2Subs_nil]
  rfl

theorem run_failrm :
    synchF (fun k q => decide (k = OpKind.removeOp) && decide (q = ["a"]))
      (Entry.dir 5 [])
      (Entry.dir 0 [("a", Entry.file 1 1), ("b", Entry.file 2 2)]) =
    ⟨Entry.dir 0 [("a", Entry.file 1 1), ("b", Entry.file 2 2)], [],
     some (Err.opFail OpKind.removeOp ["a"])⟩ := by
  rw [synchF_dir_dir]
  have h1 : phase1Subs
      (fun k q => decide (k = OpKind.removeOp) && decide (q = ["a"])) [] []
      (phase1StepsAt
        (fun k q => decide (k = OpKind.removeOp) && decide (q = ["a"])) [] []
        ⟨Entry.dir 0 [("a", Entry.file 1 1), ("b", Entry.file 2 2)], [],
         none⟩) =
      ⟨Entry.dir 0 [("a", Entry.file 1 1), ("b", Entry.file 2 2)], [],
       none⟩ := by
    rw [phase1Subs_nil]
    rfl
  rw [h1, Out.bind_none _ _ rfl]
  show phase2Subs
      (fun k q => decide (k = OpKind.removeOp) && decide (q = ["a"]))
      (Entry.dir 5 []) [] [("a", Entry.file 1 1), ("b", Entry.file 2 2)]
      (phase2StepsAt
        (fun k q => decide (k = OpKind.removeOp) && decide (q = ["a"]))
        (Entry.dir 5 []) [] [("a", Entry.file 1 1), ("b", Entry.file 2 2)]
        ⟨Entry.dir 0 [("a", Entry.file 1 1), ("b", Entry.file 2 2)], [],
         none⟩) =
    ⟨Entry.dir 0 [("a", Entry.file 1 1), ("b", Entry.file 2 2)], [],
     some (Err.opFail OpKind.removeOp ["a"])⟩
  rw [phase2Subs_file, phase2Subs_file, phase2Subs_nil]
  rfl

theorem run_empty :
    synch (Entry.dir 0 []) (Entry.dir 0 []) =
    ⟨Entry.dir 0 [], [], none⟩ := by
  have h0 : synch (Entry.dir 0 []) (Entry.dir 0 []) =
      synchF noFail (Entry.dir 0 []) (Entry.dir 0 []) := rfl
  rw [h0, synchF_dir_dir]
  have h1 : phase1Subs noFail [] []
      (phase1StepsAt noFail [] [] ⟨Entry.dir 0 [], [], none⟩) =
      ⟨Entry.dir 0 [], [], none⟩ := by
    rw [phase1Subs_nil]
    rfl
  rw [h1, Out.bind_none _ _ rfl]
  show phase2Subs noFail (Entry.dir 0 []) [] []
      (phase2StepsAt noFail (Entry.dir 0 []) [] []
        ⟨Entry.dir 0 [], [], none⟩) =
    ⟨Entry.dir 0 [], [], none⟩
  rw [phase2Subs_nil]
  rfl

theorem run_prune :
    synch (Entry.dir 0 [])
      (Entry.dir 0 [("a", Entry.file 1 1),
        ("d", Entry.dir 0 [("x", Entry.file 2 2)])]) =
    ⟨Entry.dir 0 [], [Event.rmFile ["a"], Event.rmDir ["d"]], none⟩ := by
  have h0 : synch (Entry.dir 0 [])
      (Entry.dir 0 [("a", Entry.file 1 1),
        ("d", Entry.dir 0 [("x", Entry.file 2 2)])]) =
      synchF noFail (Entry.dir 0 [])
        (Entry.dir 0 [("a", Entry.file 1 1),
          ("d", Entry.dir 0 [("x", Entry.file 2 2)])]) := rfl
  rw [h0, synchF_dir_dir]
  have h1 : phase1Subs noFail [] []
      (phase1StepsAt noFail [] []
        ⟨Entry.dir 0 [("a", Entry.file 1 1),
          ("d", Entry.dir 0 [("x", Entry.file 2 2)])], [], none⟩) =
      ⟨Entry.dir 0 [("a", Entry.file 1 1),
        ("d", Entry.dir 0 [("x", Entry.file 2 2)])], [], none⟩ := by
    rw [phase1Subs_nil]
    rfl
  rw [h1, Out.bind_none _ _ rfl]
  show phase2Subs noFail (Entry.dir 0 []) []
      [("a", Entry.file 1 1), ("d", Entry.dir 0 [("x", Entry.file 2 2)])]
      (phase2StepsAt noFail (Entry.dir 0 []) []
        [("a", Entry.file 1 1), ("d", Entry.dir 0 [("x", Entry.file 2 2)])]
        ⟨Entry.dir 0 [("a", Entry.file 1 1),
          ("d", Entry.dir 0 [("x", Entry.file 2 2)])], [], none⟩) =
    ⟨Entry.dir 0 [], [Event.rmFile ["a"], Event.rmDir ["d"]], none⟩
  rw [phase2Subs_file, phase2Subs_dir, phase2Subs_nil]
  unfold phase2At
  rw [phase2Subs_file, phase2Subs_nil]
  rfl

theorem pyReplaceOnce_root (R rep s : List Char) :
    pyReplaceOnce (R ++ s) R rep = rep ++ s := by
  unfold pyReplaceOnce
  cases R with
  | nil =>
    rw [if_pos rfl]
    simp
  | cons c R2 =>
    rw [if_neg (by simp)]
    show replaceFirst (c :: R2) rep (c :: (R2 ++ s)) = rep ++ s
    unfold replaceFirst
    rw [if_pos ?_]
    · have hd : List.drop (c :: R2).length (c :: (R2 ++ s)) = s :=
        List.drop_left (c :: R2) s
      rw [hd]
    · rw [List.isPrefixOf_iff_prefix]
      exact ⟨s, rfl⟩

/-- Claim C1 (amended): over well-formed roots with no file/directory kind
clash between source and destination, the fault-free pass completes with no
error, and afterwards a file exists at a destination path iff one exists at
the same source path, with equal modification timestamps, and a directory
exists at a destination path iff one exists at the same source path. -/
theorem C1_mirror_amended (ms md : Nat) (scs dcs : List (String × Entry))
    (hwfS : wfE (Entry.dir ms scs) = true)
    (hwfD : wfE (Entry.dir md dcs) = true)
    (hcompat : compatB (Entry.dir ms scs) (Entry.dir md dcs) = true) :
    (synch (Entry.dir ms scs) (Entry.dir md dcs)).err = none ∧
    (∀ r, isFileAtB (synch (Entry.dir ms scs) (Entry.dir md dcs)).fs r =
        true ↔ isFileAtB (Entry.dir ms scs) r = true) ∧
    (∀ r, isFileAtB (Entry.dir ms scs) r = true →
      mtimeAt (synch (Entry.dir ms scs) (Entry.dir md dcs)).fs r =
        mtimeAt (Entry.dir ms scs) r) ∧
    (∀ r, isDirAtB (synch (Entry.dir ms scs) (Entry.dir md dcs)).fs r =
        true ↔ isDirAtB (Entry.dir ms scs) r = true) := by
  obtain ⟨e0, w0, del0, file0, dir0, fileB0, dirB0, frz0⟩ :=
    synch_spec ms md scs dcs hwfS hwfD (compatB_noClash _ _ hcompat)
  refine ⟨e0, ?_, ?_, ?_⟩
  · intro r
    constructor
    · exact fileB0 r
    · intro hf
      obtain ⟨m, c, hof⟩ := (isFileAtB_eq_obs _ r).mp hf
      obtain ⟨c2, hf2⟩ := file0 r m c hof
      exact (isFileAtB_eq_obs _ r).mpr ⟨m, c2, hf2⟩
  · intro r hf
    obtain ⟨m, c, hof⟩ := (isFileAtB_eq_obs _ r).mp hf
    obtain ⟨c2, hf2⟩ := file0 r m c hof
    rw [mtimeAt_eq_obs, mtimeAt_eq_obs, hof, hf2]
    rfl
  · intro r
    exact ⟨dirB0 r, dir0 r⟩

/-- Witness for claim C1's amended theorem at a one-file source and an empty
destination. -/
theorem C1_mirror_amended_witness :
    wfE (Entry.dir 0 [("a", Entry.file 1 2)]) = true ∧
    wfE (Entry.dir 0 []) = true ∧
    compatB (Entry.dir 0 [("a", Entry.file 1 2)]) (Entry.dir 0 []) = true ∧
    ((synch (Entry.dir 0 [("a", Entry.file 1 2)]) (Entry.dir 0 [])).err =
        none ∧
     (∀ r, isFileAtB (synch (Entry.dir 0 [("a", Entry.file 1 2)])
        (Entry.dir 0 [])).fs r = true ↔
        isFileAtB (Entry.dir 0 [("a", Entry.file 1 2)]) r = true) ∧
     (∀ r, isFileAtB (Entry.dir 0 [("a", Entry.file 1 2)]) r = true →
       mtimeAt (synch (Entry.dir 0 [("a", Entry.file 1 2)])
         (Entry.dir 0 [])).fs r =
         mtimeAt (Entry.dir 0 [("a", Entry.file 1 2)]) r) ∧
     (∀ r, isDirAtB (synch (Entry.dir 0 [("a", Entry.file 1 2)])
        (Entry.dir 0 [])).fs r = true ↔
        isDirAtB (Entry.dir 0 [("a", Entry.file 1 2)]) r = true)) :=
  ⟨by decide, by decide, by simp [compatB, compatChildren],
   C1_mirror_amended 0 0 [("a", Entry.file 1 2)] [] (by decide) (by decide)
     (by simp [compatB, compatChildren])⟩

/-- Claim C1 (counterexample): a pass that completes with no error need not
mirror directory existence: where the source has a directory and the
destination a regular file of the same name, the pass ends cleanly, the file
survives and no directory is created at that path. -/
theorem C1_mirror_counterexample :
    (synch (Entry.dir 0 [("a", Entry.dir 0 [])])
      (Entry.dir 0 [("a", Entry.file 3 4)])).err = none ∧
    isDirAtB (Entry.dir 0 [("a", Entry.dir 0 [])]) ["a"] = true ∧
    isDirAtB (synch (Entry.dir 0 [("a", Entry.dir 0 [])])
      (Entry.dir 0 [("a", Entry.file 3 4)])).fs ["a"] = false := by
  rw [run_mismatch]
  exact ⟨rfl, rfl, rfl⟩

/-- Claim C2 (amended): the pass has no per-entry error recovery: a run under
a fault oracle either ends with no error and coincides, state and log
included, with the fault-free pass, or the first failing operation's
exception ends the pass. -/
theorem C2_error_aborts_pass (fail : Fail) (src dst : Entry)
    (h : (synchF fail src dst).err = none) :
    synchF fail src dst = synch src dst :=
  synchF_okfail fail src dst h

/-- Witness for claim C2's amended theorem on empty roots. -/
theorem C2_error_aborts_pass_witness :
    (synchF noFail (Entry.dir 0 []) (Entry.dir 0 [])).err = none ∧
    synchF noFail (Entry.dir 0 []) (Entry.dir 0 []) =
      synch (Entry.dir 0 []) (Entry.dir 0 []) :=
  ⟨by show (synch (Entry.dir 0 []) (Entry.dir 0 [])).err = none
      rw [run_empty],
   C2_error_aborts_pass noFail (Entry.dir 0 []) (Entry.dir 0 [])
     (by show (synch (Entry.dir 0 []) (Entry.dir 0 [])).err = none
         rw [run_empty])⟩

/-- Claim C2 (counterexample): with a fault oracle failing only the copy of
`a`, the pass ends with that error propagated in place of a per-file record,
and the later entry `b` is never copied, though the fault-free pass copies
it: the traversal does not continue past a failure. -/
theorem C2_best_effort_counterexample :
    (synchF (fun k q => decide (k = OpKind.copyOp) && decide (q = ["a"]))
      (Entry.dir 0 [("a", Entry.file 1 1), ("b", Entry.file 2 2)])
      (Entry.dir 0 [])).err = some (Err.opFail OpKind.copyOp ["a"]) ∧
    obs (synchF (fun k q => decide (k = OpKind.copyOp) && decide (q = ["a"]))
      (Entry.dir 0 [("a", Entry.file 1 1), ("b", Entry.file 2 2)])
      (Entry.dir 0 [])).fs ["b"] = none ∧
    obs (synch (Entry.dir 0 [("a", Entry.file 1 1), ("b", Entry.file 2 2)])
      (Entry.dir 0 [])).fs ["b"] = some (PathObs.fileObs 2 2) := by
  rw [run_failcopy, run_copy2]
  exact ⟨rfl, rfl, rfl⟩

/-- Claim C3: the two precondition checks of lines 38-44: a source root that
is not an existing directory aborts the pass with the source error, no
mutation and no event; with the source root fine, a destination root that is
not an existing directory aborts likewise with the destination error, and a
missing destination root is never created. -/
theorem C3_precondition_atomicity (fail : Fail) (src dst : Entry) :
    (src.isDir = false →
      synchF fail src dst = ⟨dst, [], some Err.srcMissing⟩) ∧
    (src.isDir = true → dst.isDir = false →
      synchF fail src dst = ⟨dst, [], some Err.dstMissing⟩) := by
  constructor
  · intro h
    cases src with
    | file m c => rfl
    | dir m cs => simp [Entry.isDir] at h
  · intro h1 h2
    cases src with
    | file m c => simp [Entry.isDir] at h1
    | dir m cs =>
      cases dst with
      | file m2 c2 => rfl
      | dir m2 cs2 => simp [Entry.isDir] at h2

/-- Witness for claim C3's theorem: a regular file as source root. -/
theorem C3_precondition_atomicity_witness :
    (Entry.file 1 2).isDir = false ∧
    synchF noFail (Entry.file 1 2) (Entry.dir 0 [("x", Entry.file 0 0)]) =
      ⟨Entry.dir 0 [("x", Entry.file 0 0)], [], some Err.srcMissing⟩ :=
  ⟨rfl, (C3_precondition_atomicity noFail (Entry.file 1 2)
    (Entry.dir 0 [("x", Entry.file 0 0)])).1 rfl⟩

/-- Claim C4: line 62's copy decision with a destination file present: the
file is re-copied iff the two modification timestamps differ by value, in
either direction; equal timestamps are the only case that leaves the file
untouched, and the decision never reads content. -/
theorem C4_copy_decision_rule (p : List String) (n : String) (m c m2 c2 : Nat)
    (fs : Entry) (evs : List Event)
    (hdst : lookup fs (p ++ [n]) = some (Entry.file m2 c2)) :
    (shouldCopy fs (p ++ [n]) m = true ↔ m2 ≠ m) ∧
    ((fileStep noFail p (n, m, c) ⟨fs, evs, none⟩).evs ≠ evs ↔ m2 ≠ m) ∧
    (∀ fs2 c3, lookup fs2 (p ++ [n]) = some (Entry.file m2 c3) →
      shouldCopy fs2 (p ++ [n]) m = shouldCopy fs (p ++ [n]) m) := by
  have hsc : shouldCopy fs (p ++ [n]) m = (m2 != m) := by
    unfold shouldCopy
    rw [hdst]
    rfl
  refine ⟨?_, ?_, ?_⟩
  · rw [hsc]
    exact bne_iff_ne
  · constructor
    · intro hev
      by_cases hmm : m2 = m
      · exfalso
        have hscf : shouldCopy fs (p ++ [n]) m = false := by
          rw [hsc, hmm]
          simp
        rw [fileStep_noCopy noFail p n m c fs evs hscf] at hev
        exact hev rfl
      · exact hmm
    · intro hne
      have hsct : shouldCopy fs (p ++ [n]) m = true := by
        rw [hsc]
        exact bne_iff_ne.mpr hne
      have hpar : isDirAtB fs p = true := by
        rw [lookup_append] at hdst
        cases hl : lookup fs p with
        | none =>
          rw [hl] at hdst
          cases hdst
        | some e =>
          rw [hl, Option.some_bind] at hdst
          cases e with
          | file m3 c3 => simp [lookup] at hdst
          | dir m3 cs3 =>
            unfold isDirAtB
            rw [hl]
      have htgt : isDirAtB fs (p ++ [n]) = false := by
        unfold isDirAtB
        rw [lookup_append] at hdst ⊢
        rw [hdst]
      rcases fileStep_cases noFail p n m c fs evs with ⟨heq, hsf⟩ |
          ⟨fs2, heq, _, _⟩ | heq
      · rw [hsct] at hsf
        cases hsf
      · rw [heq]
        simp
      · have hok := fileStep_ok p n m c fs evs hpar htgt
        rw [heq] at hok
        cases hok
  · intro fs2 c3 h2
    unfold shouldCopy
    rw [hdst, h2]
    rfl

/-- Witness for claim C4's theorem: destination file of timestamp 3 against a
source timestamp 5. -/
theorem C4_copy_decision_rule_witness :
    lookup (Entry.dir 0 [("a", Entry.file 3 9)]) ([] ++ ["a"]) =
      some (Entry.file 3 9) ∧
    ((shouldCopy (Entry.dir 0 [("a", Entry.file 3 9)]) ([] ++ ["a"]) 5 =
        true ↔ 3 ≠ 5) ∧
     ((fileStep noFail [] ("a", 5, 0)
        ⟨Entry.dir 0 [("a", Entry.file 3 9)], [], none⟩).evs ≠ [] ↔ 3 ≠ 5) ∧
     (∀ fs2 c3, lookup fs2 ([] ++ ["a"]) = some (Entry.file 3 c3) →
       shouldCopy fs2 ([] ++ ["a"]) 5 =
         shouldCopy (Entry.dir 0 [("a", Entry.file 3 9)]) ([] ++ ["a"]) 5)) :=
  ⟨rfl, C4_copy_decision_rule [] "a" 5 0 3 9
    (Entry.dir 0 [("a", Entry.file 3 9)]) [] rfl⟩

/-- Claim C5 (amended): over well-formed roots with no file/directory kind
clash, a second pass right after a completed pass over an unchanged source
performs zero operations: it logs no creation, copy or deletion event,
changes no path and ends with no error. -/
theorem C5_idempotence_amended (ms md : Nat) (scs dcs : List (String × Entry))
    (hwfS : wfE (Entry.dir ms scs) = true)
    (hwfD : wfE (Entry.dir md dcs) = true)
    (hcompat : compatB (Entry.dir ms scs) (Entry.dir md dcs) = true) :
    synch (Entry.dir ms scs)
        (synch (Entry.dir ms scs) (Entry.dir md dcs)).fs =
      ⟨(synch (Entry.dir ms scs) (Entry.dir md dcs)).fs, [], none⟩ :=
  synch_idempotent ms md scs dcs hwfS hwfD (compatB_noClash _ _ hcompat)

/-- Witness for claim C5's amended theorem: one source file against an
initially empty destination. -/
theorem C5_idempotence_amended_witness :
    wfE (Entry.dir 0 [("a", Entry.file 1 2)]) = true ∧
    wfE (Entry.dir 7 []) = true ∧
    compatB (Entry.dir 0 [("a", Entry.file 1 2)]) (Entry.dir 7 []) = true ∧
    synch (Entry.dir 0 [("a", Entry.file 1 2)])
        (synch (Entry.dir 0 [("a", Entry.file 1 2)]) (Entry.dir 7 [])).fs =
      ⟨(synch (Entry.dir 0 [("a", Entry.file 1 2)]) (Entry.dir 7 [])).fs,
       [], none⟩ :=
  ⟨by decide, by decide, by simp [compatB, compatChildren],
   C5_idempotence_amended 0 7 [("a", Entry.file 1 2)] [] (by decide)
     (by decide) (by simp [compatB, compatChildren])⟩

/-- Claim C5 (counterexample): without a kind-compatibility assumption the
claimed idempotence fails for some pair of trees: with a source file and a
destination directory both named `a`, the second consecutive pass still logs
operations (it re-copies the file into the directory and removes it again in
the prune phase). -/
theorem C5_idempotence_counterexample :
    (synch (Entry.dir 0 [("a", Entry.file 5 7)])
      (synch (Entry.dir 0 [("a", Entry.file 5 7)])
        (Entry.dir 0 [("a", Entry.dir 0 [])])).fs).evs ≠ [] := by
  rw [run_clash]
  show (synch (Entry.dir 0 [("a", Entry.file 5 7)])
      (Entry.dir 0 [("a", Entry.dir 0 [])])).evs ≠ []
  rw [run_clash]
  decide

/-- Claim C6 (amended): in a pass that completes with no error over a
well-formed destination root, every path absent from the source is absent
from the destination afterwards, with no kind-compatibility assumption on
the two trees; a destination subdirectory whose source counterpart does not
exist is removed with its entire subtree by one `shutil.rmtree` call that
logs a single event; and the prune walk does not descend into a directory
that no longer exists. -/
theorem C6_deletion_completeness_amended (src dst : Entry)
    (hwfD : wfE dst = true)
    (herr : (synch src dst).err = none) :
    (∀ r, r ≠ [] → existsP src r = false →
      obs (synch src dst).fs r = none) ∧
    (∀ (S fs : Entry) (p : List String) (n : String) (evs : List Event),
      existsP S (p ++ [n]) = false → wfE fs = true →
      rmDirStep noFail S p n ⟨fs, evs, none⟩ =
        ⟨removePath fs (p ++ [n]), evs ++ [Event.rmDir (p ++ [n])], none⟩ ∧
      ∀ r, (p ++ [n]) <+: r → obs (removePath fs (p ++ [n])) r = none) ∧
    (∀ (S fs : Entry) (p : List String) (cs : List (String × Entry))
      (evs : List Event), existsP fs p = false →
      phase2StepsAt noFail S p cs ⟨fs, evs, none⟩ = ⟨fs, evs, none⟩) := by
  refine ⟨?_, ?_, ?_⟩
  · intro r hne hexS
    cases src with
    | file ms0 cs0 => exact Option.noConfusion herr
    | dir ms scs =>
      cases dst with
      | file md0 cd0 => exact Option.noConfusion herr
      | dir md dcs =>
        have hbind : synch (Entry.dir ms scs) (Entry.dir md dcs) =
            Out.bind (phase1Subs noFail [] scs
              (phase1StepsAt noFail [] scs ⟨Entry.dir md dcs, [], none⟩))
              (fun fs evs =>
                match fs with
                | Entry.dir _ dcs2 =>
                    phase2Subs noFail (Entry.dir ms scs) [] dcs2
                      (phase2StepsAt noFail (Entry.dir ms scs) [] dcs2
                        ⟨fs, evs, none⟩)
                | Entry.file _ _ => ⟨fs, evs, none⟩) := rfl
        cases p1err : (phase1Subs noFail [] scs
            (phase1StepsAt noFail [] scs
              ⟨Entry.dir md dcs, [], none⟩)).err with
        | some e =>
          rw [hbind, Out.bind_some _ _ e p1err, p1err] at herr
          exact Option.noConfusion herr
        | none =>
          have wfP1 : wfE (phase1Subs noFail [] scs
              (phase1StepsAt noFail [] scs
                ⟨Entry.dir md dcs, [], none⟩)).fs = true :=
            phase1Subs_wf noFail [] scs _
              (phase1StepsAt_wf noFail [] scs
                ⟨Entry.dir md dcs, [], none⟩ hwfD)
          have hobs0 : obs (phase1Subs noFail [] scs
              (phase1StepsAt noFail [] scs
                ⟨Entry.dir md dcs, [], none⟩)).fs [] =
              some (PathObs.dirObs md) := by
            rw [phase1Subs_obs_nil, phase1StepsAt_obs_nil]
            rfl
          cases hfs : (phase1Subs noFail [] scs
              (phase1StepsAt noFail [] scs
                ⟨Entry.dir md dcs, [], none⟩)).fs with
          | file mf cf =>
            rw [hfs] at hobs0
            simp [obs_nil] at hobs0
          | dir md1 dcs1 =>
            rw [hfs] at wfP1
            have hstep : synch (Entry.dir ms scs) (Entry.dir md dcs) =
                phase2Subs noFail (Entry.dir ms scs) [] dcs1
                  (phase2StepsAt noFail (Entry.dir ms scs) [] dcs1
                    ⟨Entry.dir md1 dcs1,
                     (phase1Subs noFail [] scs
                       (phase1StepsAt noFail [] scs
                         ⟨Entry.dir md dcs, [], none⟩)).evs,
                     none⟩) := by
              rw [hbind, Out.bind_none _ _ p1err, hfs]
            obtain ⟨q1, qW, qB, qC⟩ := phase2_total (Entry.dir ms scs) md1
              dcs1 (phase1Subs noFail [] scs
                (phase1StepsAt noFail [] scs
                  ⟨Entry.dir md dcs, [], none⟩)).evs wfP1
            rw [hstep]
            exact qC r hne hexS
  · intro S fs p n evs hexS hwf
    have hne : ¬ (existsP S (p ++ [n]) = true) := by
      rw [hexS]
      simp
    constructor
    · unfold rmDirStep
      rw [Out.bind_none _ _ rfl, if_neg hne]
      have hnf : ¬ (noFail OpKind.rmtreeOp (p ++ [n]) = true) := by
        simp [noFail]
      rw [if_neg hnf]
    · intro r hpre
      rw [removePath_obs fs (p ++ [n]) (by simp) hwf r, if_pos hpre]
  · intro S fs p cs evs hex
    have hne : ¬ (existsP fs p = true) := by
      rw [hex]
      simp
    unfold phase2StepsAt
    rw [Out.bind_none _ _ rfl, if_neg hne]

/-- Witness for claim C6's amended theorem: a destination with one extra file
and one extra directory against an empty source; the pass completes with no
error and both destination-only entries are gone afterwards. -/
theorem C6_deletion_completeness_amended_witness :
    wfE (Entry.dir 0 [("a", Entry.file 1 1),
      ("d", Entry.dir 0 [("x", Entry.file 2 2)])]) = true ∧
    (synch (Entry.dir 0 []) (Entry.dir 0 [("a", Entry.file 1 1),
      ("d", Entry.dir 0 [("x", Entry.file 2 2)])])).err = none ∧
    ((∀ r, r ≠ [] → existsP (Entry.dir 0 []) r = false →
       obs (synch (Entry.dir 0 []) (Entry.dir 0 [("a", Entry.file 1 1),
         ("d", Entry.dir 0 [("x", Entry.file 2 2)])])).fs r = none) ∧
     (∀ (S fs : Entry) (p : List String) (n : String) (evs : List Event),
       existsP S (p ++ [n]) = false → wfE fs = true →
       rmDirStep noFail S p n ⟨fs, evs, none⟩ =
         ⟨removePath fs (p ++ [n]), evs ++ [Event.rmDir (p ++ [n])], none⟩ ∧
       ∀ r, (p ++ [n]) <+: r → obs (removePath fs (p ++ [n])) r = none) ∧
     (∀ (S fs : Entry) (p : List String) (cs : List (String × Entry))
       (evs : List Event), existsP fs p = false →
       phase2StepsAt noFail S p cs ⟨fs, evs, none⟩ = ⟨fs, evs, none⟩)) :=
  ⟨by decide, by rw [run_prune],
   C6_deletion_completeness_amended (Entry.dir 0 [])
     (Entry.dir 0 [("a", Entry.file 1 1),
       ("d", Entry.dir 0 [("x", Entry.file 2 2)])]) (by decide)
     (by rw [run_prune])⟩

/-- Claim C6 (counterexample): deletion completeness does not hold of every
pass: when the removal of the destination-only file `a` fails, the pass
aborts and the destination-only file `b` is still present afterwards. -/
theorem C6_deletion_counterexample :
    existsP (Entry.dir 5 []) ["b"] = false ∧
    obs (synchF
      (fun k q => decide (k = OpKind.removeOp) && decide (q = ["a"]))
      (Entry.dir 5 [])
      (Entry.dir 0 [("a", Entry.file 1 1), ("b", Entry.file 2 2)])).fs
      ["b"] = some (PathObs.fileObs 2 2) := by
  rw [run_failrm]
  exact ⟨rfl, rfl⟩

/-- Claim C7: the path correspondence of lines 49 and 69: a walk path that is
the root `R` followed by a suffix is mapped to its counterpart by replacing
the first and only occurrence of `R` textually, exactly once, giving the
other root followed by the same suffix. -/
theorem C7_path_correspondence (R R2 s : List Char) :
    pyReplaceOnce (R ++ s) R R2 = R2 ++ s := by
  unfold pyReplaceOnce
  cases R with
  | nil =>
    rw [if_pos rfl]
    simp
  | cons c R3 =>
    rw [if_neg (by simp)]
    show replaceFirst (c :: R3) R2 (c :: (R3 ++ s)) = R2 ++ s
    unfold replaceFirst
    rw [if_pos ?_]
    · have hd : List.drop (c :: R3).length (c :: (R3 ++ s)) = s :=
        List.drop_left (c :: R3) s
      rw [hd]
    · rw [List.isPrefixOf_iff_prefix]
      exact ⟨s, rfl⟩

/-- Claim C8 (amended): `synch` is annotated `-> None` and every control path
returns `None`: the caller receives no `ReconciliationResult` and no counts;
what the pass did is recorded only in the log of events. -/
theorem C8_returns_none_amended (fail : Fail) (src dst : Entry) :
    synchReturnValue fail src dst = () := rfl

/-- Claim C8 (counterexample): the return value carries no counts: a pass
that copies two files and a pass that does nothing return the same value,
while the counts recoverable from their logs differ. -/
theorem C8_result_counterexample :
    synchReturnValue noFail
        (Entry.dir 0 [("a", Entry.file 1 1), ("b", Entry.file 2 2)])
        (Entry.dir 0 []) =
      synchReturnValue noFail (Entry.dir 0 []) (Entry.dir 0 []) ∧
    resultOfEvents (synch
        (Entry.dir 0 [("a", Entry.file 1 1), ("b", Entry.file 2 2)])
        (Entry.dir 0 [])).evs ≠
      resultOfEvents (synch (Entry.dir 0 []) (Entry.dir 0 [])).evs := by
  refine ⟨rfl, ?_⟩
  rw [run_copy2, run_empty]
  decide

/-- Claim C9: phase separation: the pass's log splits into the propagation
walk's events, each a directory creation or a file copy, followed by the
prune walk's events, each a file or directory removal; consequently, over
well-formed kind-compatible roots, a destination file whose modification
timestamp equals its source counterpart's keeps its observation, content
included, through the whole fault-free pass. -/
theorem C9_phase_separation (fail : Fail) (ms md : Nat)
    (scs dcs : List (String × Entry))
    (hwfS : wfE (Entry.dir ms scs) = true)
    (hwfD : wfE (Entry.dir md dcs) = true)
    (hcompat : compatB (Entry.dir ms scs) (Entry.dir md dcs) = true) :
    (∃ evs1 evs2,
      (synchF fail (Entry.dir ms scs) (Entry.dir md dcs)).evs =
        evs1 ++ evs2 ∧
      (∀ e, e ∈ evs1 → e.isMkdir = true ∨ e.isCopy = true) ∧
      (∀ e, e ∈ evs2 → e.isRmFile = true ∨ e.isRmDir = true)) ∧
    (∀ r m c, obs (Entry.dir md dcs) r = some (PathObs.fileObs m c) →
      isFileAtB (Entry.dir ms scs) r = true →
      mtimeAt (Entry.dir ms scs) r = some m →
      obs (synch (Entry.dir ms scs) (Entry.dir md dcs)).fs r =
        some (PathObs.fileObs m c)) := by
  constructor
  · obtain ⟨tl0, h0, h0k⟩ := phase1StepsAt_evs fail [] scs
      ⟨Entry.dir md dcs, [], none⟩
    obtain ⟨tl1, h1, h1k⟩ := phase1Subs_evs fail [] scs
      (phase1StepsAt fail [] scs ⟨Entry.dir md dcs, [], none⟩)
    have hP1evs : (phase1Subs fail [] scs
        (phase1StepsAt fail [] scs ⟨Entry.dir md dcs, [], none⟩)).evs =
        tl0 ++ tl1 := by
      rw [h1, h0]
      simp
    have hP1k : ∀ e, e ∈ tl0 ++ tl1 →
        e.isMkdir = true ∨ e.isCopy = true := by
      intro e he
      rcases List.mem_append.mp he with h | h
      · exact h0k e h
      · exact h1k e h
    rw [synchF_dir_dir]
    cases herr : (phase1Subs fail [] scs
        (phase1StepsAt fail [] scs ⟨Entry.dir md dcs, [], none⟩)).err with
    | some e =>
      rw [Out.bind_some _ _ e herr]
      exact ⟨tl0 ++ tl1, [], by rw [List.append_nil]; exact hP1evs, hP1k,
        by simp⟩
    | none =>
      rw [Out.bind_none _ _ herr]
      cases hfs : (phase1Subs fail [] scs
          (phase1StepsAt fail [] scs ⟨Entry.dir md dcs, [], none⟩)).fs with
      | file mf cf =>
        exact ⟨tl0 ++ tl1, [], by rw [List.append_nil]; exact hP1evs, hP1k,
          by simp⟩
      | dir md1 dcs1 =>
        obtain ⟨tl20, h20, h20k⟩ := phase2StepsAt_evs fail
          (Entry.dir ms scs) [] dcs1
          ⟨Entry.dir md1 dcs1,
           (phase1Subs fail [] scs
             (phase1StepsAt fail [] scs ⟨Entry.dir md dcs, [], none⟩)).evs,
           none⟩
        obtain ⟨tl21, h21, h21k⟩ := phase2Subs_evs fail (Entry.dir ms scs)
          [] dcs1
          (phase2StepsAt fail (Entry.dir ms scs) [] dcs1
            ⟨Entry.dir md1 dcs1,
             (phase1Subs fail [] scs
               (phase1StepsAt fail [] scs ⟨Entry.dir md dcs, [], none⟩)).evs,
             none⟩)
        refine ⟨tl0 ++ tl1, tl20 ++ tl21, ?_, hP1k, ?_⟩
        · rw [h21, h20]
          show (phase1Subs fail [] scs
            (phase1StepsAt fail [] scs ⟨Entry.dir md dcs, [], none⟩)).evs ++
              tl20 ++ tl21 = tl0 ++ tl1 ++ (tl20 ++ tl21)
          rw [hP1evs]
          simp [List.append_assoc]
        · intro e he
          rcases List.mem_append.mp he with h | h
          · exact h20k e h
          · exact h21k e h
  · intro r m c hof hsf hmt
    obtain ⟨e0, w0, del0, file0, dir0, fileB0, dirB0, frz0⟩ :=
      synch_spec ms md scs dcs hwfS hwfD (compatB_noClash _ _ hcompat)
    exact frz0 r m c hof (fun _ => hmt) (isFileAtB_exists _ r hsf)

/-- Witness for claim C9's theorem: a destination file of matching timestamp
under a fault-free oracle. -/
theorem C9_phase_separation_witness :
    wfE (Entry.dir 0 [("a", Entry.file 1 2)]) = true ∧
    wfE (Entry.dir 0 [("a", Entry.file 1 9)]) = true ∧
    compatB (Entry.dir 0 [("a", Entry.file 1 2)])
      (Entry.dir 0 [("a", Entry.file 1 9)]) = true ∧
    ((∃ evs1 evs2,
       (synchF noFail (Entry.dir 0 [("a", Entry.file 1 2)])
         (Entry.dir 0 [("a", Entry.file 1 9)])).evs = evs1 ++ evs2 ∧
       (∀ e, e ∈ evs1 → e.isMkdir = true ∨ e.isCopy = true) ∧
       (∀ e, e ∈ evs2 → e.isRmFile = true ∨ e.isRmDir = true)) ∧
     (∀ r m c, obs (Entry.dir 0 [("a", Entry.file 1 9)]) r =
         some (PathObs.fileObs m c) →
       isFileAtB (Entry.dir 0 [("a", Entry.file 1 2)]) r = true →
       mtimeAt (Entry.dir 0 [("a", Entry.file 1 2)]) r = some m →
       obs (synch (Entry.dir 0 [("a", Entry.file 1 2)])
         (Entry.dir 0 [("a", Entry.file 1 9)])).fs r =
         some (PathObs.fileObs m c))) :=
  ⟨by decide, by decide, by simp [compatB, compatChildren, lookupChild],
   C9_phase_separation noFail 0 0 [("a", Entry.file 1 2)]
     [("a", Entry.file 1 9)] (by decide) (by decide)
     (by simp [compatB, compatChildren, lookupChild])⟩

/-- Claim C10: the directory-ensuring check of lines 52-54 is kind-agnostic:
a destination regular file at the visited path makes `os.path.exists` true,
so no directory is created and the file is left in place; on a full pass over
such a mismatch the destination file survives unchanged. -/
theorem C10_kind_mismatch_persists :
    (∀ (fail : Fail) (p : List String) (fs : Entry) (evs : List Event)
      (m c : Nat), obs fs p = some (PathObs.fileObs m c) →
      dirStep fail p ⟨fs, evs, none⟩ = ⟨fs, evs, none⟩) ∧
    (synch (Entry.dir 0 [("a", Entry.dir 0 [])])
      (Entry.dir 0 [("a", Entry.file 3 4)]) =
      ⟨Entry.dir 0 [("a", Entry.file 3 4)], [], none⟩ ∧
     isFileAtB (synch (Entry.dir 0 [("a", Entry.dir 0 [])])
       (Entry.dir 0 [("a", Entry.file 3 4)])).fs ["a"] = true) := by
  constructor
  · intro fail p fs evs m c hobs
    apply dirStep_noop
    rw [existsP_eq_obs, hobs]
    rfl
  · constructor
    · exact run_mismatch
    · rw [run_mismatch]
      rfl

/-- Witness for claim C10's theorem: a destination file at the path the
propagation walk would ensure as a directory. -/
theorem C10_kind_mismatch_persists_witness :
    obs (Entry.dir 0 [("x", Entry.file 1 2)]) ["x"] =
      some (PathObs.fileObs 1 2) ∧
    dirStep noFail ["x"] ⟨Entry.dir 0 [("x", Entry.file 1 2)], [], none⟩ =
      ⟨Entry.dir 0 [("x", Entry.file 1 2)], [], none⟩ :=
  ⟨rfl, C10_kind_mismatch_persists.1 noFail ["x"]
    (Entry.dir 0 [("x", Entry.file 1 2)]) [] 1 2 rfl⟩
